import Mathlib

/-!
Fireworks: the matrix library and the particle pool of `fireworks3.js`.

A shallow embedding of the closure "classes" `Matrix` and `Spark` of
`src/fireworks3.js`, followed by theorems about them.

Conventions of the embedding.

* The matrix code is generic in the number type `α` and its operations.  The
  theorems about exact arithmetic take `α` to be a field; the type `F64` of
  the doubles (IEEE 754 binary64) evaluates the same definitions as the
  machine does.  The particle pool uses the exact numbers `ℚ`.
* A JavaScript computation either returns, throws, or loops for ever; this is
  the type `Res`.  Loops whose number of iterations is not bounded by their
  header, and the recursion of `determinant`, carry an explicit fuel argument;
  running out of fuel is `Res.diverge`.
* `for (var i = lo; i < hi; i++)` loops are folds over `List.range'`
  (`forLoop`, `forLoopM`); a loop that only pushes onto a fresh array is the
  corresponding `List.map` over `List.range`.
* Reading an array outside its bounds gives `undefined` in JavaScript; the
  value read is `default` of the entry type (`Inhabited α`).  Instantiating
  `α := Option ℚ` makes `undefined` visible as `none`.
* In-place writes `a[r][c] = v` are `set2`; every write of the source is inside
  the bounds of the array it writes to.
-/

set_option autoImplicit false
set_option linter.unusedSectionVars false

/-- Square matrices of the mathematical library, indexed by `Fin n`. -/
abbrev SqMat (n : ℕ) (K : Type) := Matrix (Fin n) (Fin n) K

namespace Fireworks

/-! ## Outcomes of JavaScript computations -/

/-- Outcome of a computation: a value, a thrown exception, or non-termination. -/
inductive Res (α : Type) where
  | ok (val : α)
  | throw (msg : String)
  | diverge
deriving DecidableEq

/-- Sequencing of computations: exceptions and non-termination propagate. -/
def Res.bind {α β : Type} (x : Res α) (f : α → Res β) : Res β :=
  match x with
  | .ok a => f a
  | .throw m => .throw m
  | .diverge => .diverge

instance : Monad Res where
  pure := Res.ok
  bind := Res.bind

/-- The loop `for (var i = lo; i < hi; i++) s = body(i, s)` without effects. -/
def forLoop {σ : Type} (lo hi : Nat) (init : σ) (body : Nat → σ → σ) : σ :=
  (List.range' lo (hi - lo)).foldl (fun s i => body i s) init

/-- The loop `for (var i = lo; i < hi; i++) s = body(i, s)` whose body may throw. -/
def forLoopM {σ : Type} (lo hi : Nat) (init : σ) (body : Nat → σ → Res σ) : Res σ :=
  (List.range' lo (hi - lo)).foldlM (fun s i => body i s) init

/-! ## Arrays -/

section Arrays

variable {α : Type}

/-- The read `a[r][c]` of a nested array. -/
def get2 [Inhabited α] (a : List (List α)) (r c : Nat) : α :=
  (a.getD r []).getD c default

/-- The write `a[r][c] = v` into a nested array. -/
def set2 (a : List (List α)) (r c : Nat) (v : α) : List (List α) :=
  a.set r ((a.getD r []).set c v)

/-- The argument of the `Matrix` constructor, of type `number[] | number[][]`. -/
inductive MatrixArray (α : Type) where
  | flat (a : List α)
  | nested (a : List (List α))

/-- The property `matrixArray.length`. -/
def MatrixArray.length : MatrixArray α → Nat
  | .flat a => a.length
  | .nested a => a.length

/-- The test `typeof matrixArray[0] == "object"`: the first element exists and
is an array. -/
def MatrixArray.multiDim : MatrixArray α → Bool
  | .nested (_ :: _) => true
  | _ => false

/-- The property `matrixArray[0].length`, read only when `multiDim`. -/
def MatrixArray.firstLength : MatrixArray α → Nat
  | .nested (first :: _) => first.length
  | _ => 0

/-- The read `matrixArray[i]` of a flat array. -/
def MatrixArray.at1 [Inhabited α] : MatrixArray α → Nat → α
  | .flat a, i => a.getD i default
  | .nested _, _ => default

/-- The read `matrixArray[i][j]` of a nested array. -/
def MatrixArray.at2 [Inhabited α] : MatrixArray α → Nat → Nat → α
  | .nested a, i, j => get2 a i j
  | .flat _, _, _ => default

end Arrays

/-! ## `Matrix` -/

/-- The private state of a `Matrix` object: the closure variables `dim` and
`mat` (row major). -/
structure Matrix (α : Type) where
  dim : Nat
  mat : List (List α)
deriving DecidableEq

section MatrixOps

variable {α : Type}

/-- The constructor `new Matrix(matrixArray, columnMajor)`.  For a flat array
`Math.sqrt(length) % 1 != 0` holds exactly when the length is not a perfect
square, and otherwise `Math.sqrt(length)` is `Nat.sqrt length`. -/
def Matrix.new [Inhabited α] (matrixArray : MatrixArray α) (columnMajor : Bool) :
    Res (Matrix α) :=
  let multiDim := matrixArray.multiDim
  let build : Res (Nat × List (List α)) :=
    if !multiDim then
      let dim := Nat.sqrt matrixArray.length
      if dim * dim ≠ matrixArray.length then
        .throw "Matrix must be square"
      else
        .ok (dim, (List.range dim).map fun row =>
          (List.range dim).map fun col => matrixArray.at1 (row * dim + col))
    else
      let dim := matrixArray.length
      if dim ≠ matrixArray.firstLength then
        .throw "Matrix must be square"
      else
        .ok (dim, (List.range dim).map fun row =>
          (List.range dim).map fun col => matrixArray.at2 row col)
  build.bind fun (dim, mat) =>
    let mat :=
      if columnMajor then
        forLoop 0 dim mat fun row mat =>
          forLoop 0 dim mat fun col mat =>
            if multiDim then set2 mat row col (matrixArray.at2 col row)
            else set2 mat row col (matrixArray.at1 (col * dim + row))
      else mat
    .ok { dim := dim, mat := mat }

/-- The method `getDim()`. -/
def Matrix.getDim (self : Matrix α) : Nat := self.dim

/-- The method `getMultiArray(columnMajor)`. -/
def Matrix.getMultiArray [Inhabited α] (self : Matrix α) (columnMajor : Bool) :
    List (List α) :=
  if columnMajor then
    (List.range self.dim).map fun col =>
      (List.range self.dim).map fun row => get2 self.mat row col
  else
    (List.range self.dim).map fun row =>
      (List.range self.dim).map fun col => get2 self.mat row col

/-- The method `getArray(columnMajor)`. -/
def Matrix.getArray [Inhabited α] (self : Matrix α) (columnMajor : Bool) : List α :=
  if columnMajor then
    ((List.range self.dim).map fun col =>
      (List.range self.dim).map fun row => get2 self.mat row col).flatten
  else
    ((List.range self.dim).map fun row =>
      (List.range self.dim).map fun col => get2 self.mat row col).flatten

variable [Zero α] [One α] [Add α] [Sub α] [Mul α] [Neg α] [Div α] [DecidableEq α]
  [Inhabited α]

/-- The static function `Matrix.getIdenity(dim)`.  A negative argument (from
`dim - 1` at `dim = 0`) runs no iteration, like the truncated `0`. -/
def Matrix.getIdenity (dim : Nat) : Res (Matrix α) :=
  Matrix.new (.nested ((List.range dim).map fun row =>
    (List.range dim).map fun col => if col = row then (1 : α) else 0)) false

/-- The private function `dot(matA, matB, row, col)`; `dim` is the closure
variable it reads. -/
def dot (dim : Nat) (matA matB : List (List α)) (row col : Nat) : α :=
  forLoop 0 dim (0 : α) fun i result => result + get2 matA row i * get2 matB i col

/-- The method `multiply(other)`. -/
def Matrix.multiply (self other : Matrix α) : Res (Matrix α) :=
  if self.dim ≠ other.getDim then
    .throw "Matrix dimensions do not match"
  else
    let oMat := other.getMultiArray false
    Matrix.new (.nested ((List.range self.dim).map fun row =>
      (List.range self.dim).map fun col => dot self.dim self.mat oMat row col)) false

/-- The method `add(other)`. -/
def Matrix.add (self other : Matrix α) : Res (Matrix α) :=
  let oDim := other.getDim
  if self.dim ≠ oDim then
    .throw "Cannot add matricies of differing dimensions"
  else
    let result := other.getMultiArray false
    Matrix.new (.nested (forLoop 0 self.dim result fun row result =>
      forLoop 0 self.dim result fun col result =>
        set2 result row col (get2 result row col + get2 self.mat row col))) false

/-- The method `scale(value)`. -/
def Matrix.scale (self : Matrix α) (value : α) : Res (Matrix α) :=
  (Matrix.getIdenity self.dim : Res (Matrix α)).bind fun idm =>
    let result := idm.getMultiArray false
    Matrix.new (.nested (forLoop 0 self.dim result fun row result =>
      forLoop 0 self.dim result fun col result =>
        set2 result row col (value * get2 self.mat row col))) false

/-- The column loop of `determinant`: fills `detMatArray` with the rows
`1 .. dim-1` of `mat` without column `col`. -/
def detFill (dim : Nat) (mat detMatArray : List (List α)) (col : Nat) : List (List α) :=
  forLoop 0 dim detMatArray fun subCol detMatArray =>
    if subCol = col then detMatArray
    else
      let detArrayCol := if subCol < col then subCol else subCol - 1
      forLoop 1 dim detMatArray fun subRow detMatArray =>
        set2 detMatArray (subRow - 1) detArrayCol (get2 mat subRow subCol)

/-- The method `determinant()`; `fuel` bounds the depth of the recursion. -/
def Matrix.determinantFuel : Nat → Matrix α → Res α
  | fuel, self =>
    if self.dim = 2 then
      .ok (get2 self.mat 0 0 * get2 self.mat 1 1 - get2 self.mat 0 1 * get2 self.mat 1 0)
    else if self.dim < 2 then
      .ok 0
    else
      match fuel with
      | 0 => .diverge
      | fuel + 1 =>
        (Matrix.getIdenity (self.dim - 1) : Res (Matrix α)).bind fun idm =>
          let detMatArray := idm.getMultiArray false
          (forLoopM 0 self.dim ((0 : α), detMatArray) fun col (result, detMatArray) =>
            let detMatArray := detFill self.dim self.mat detMatArray col
            let detSign : α := if col % 2 = 0 then 1 else -1
            (Matrix.new (.nested detMatArray) false).bind fun sub =>
              (Matrix.determinantFuel fuel sub).bind fun d =>
                .ok (result + detSign * get2 self.mat 0 col * d, detMatArray)).bind
            fun (result, _) => .ok result

/-- The method `determinant()`: the recursion is on matrices of dimension
`dim - 1`, so `dim` levels are enough. -/
def Matrix.determinant (self : Matrix α) : Res α :=
  Matrix.determinantFuel self.dim self

/-- The two inner loops shared by `minors` and `cofactors`: fills `subMat`
with `mat` without row `row` and column `col`. -/
def subFill (dim : Nat) (mat subMat : List (List α)) (row col : Nat) : List (List α) :=
  forLoop 0 dim subMat fun subCol subMat =>
    if subCol = col then subMat
    else
      let subMatCol := if subCol < col then subCol else subCol - 1
      forLoop 0 dim subMat fun subRow subMat =>
        if subRow = row then subMat
        else
          let subMatRow := if subRow < row then subRow else subRow - 1
          set2 subMat subMatRow subMatCol (get2 mat subRow subCol)

/-- The method `minors()`. -/
def Matrix.minors (self : Matrix α) : Res (Matrix α) :=
  (Matrix.getIdenity self.dim : Res (Matrix α)).bind fun idm =>
  (Matrix.getIdenity (self.dim - 1) : Res (Matrix α)).bind fun ids =>
    (forLoopM 0 self.dim (idm.getMultiArray false, ids.getMultiArray false) fun row st =>
      forLoopM 0 self.dim st fun col (result, subMat) =>
        let subMat := subFill self.dim self.mat subMat row col
        (Matrix.new (.nested subMat) false).bind fun sub =>
          sub.determinant.bind fun d =>
            .ok (set2 result row col d, subMat)).bind
      fun (result, _) => Matrix.new (.nested result) false

/-- The method `cofactors()`. -/
def Matrix.cofactors (self : Matrix α) : Res (Matrix α) :=
  (Matrix.getIdenity self.dim : Res (Matrix α)).bind fun idm =>
  (Matrix.getIdenity (self.dim - 1) : Res (Matrix α)).bind fun ids =>
    (forLoopM 0 self.dim (idm.getMultiArray false, ids.getMultiArray false) fun row st =>
      forLoopM 0 self.dim st fun col (result, subMat) =>
        let subMat := subFill self.dim self.mat subMat row col
        let detSign : α := if (col + row) % 2 = 0 then 1 else -1
        (Matrix.new (.nested subMat) false).bind fun sub =>
          sub.determinant.bind fun d =>
            .ok (set2 result row col (detSign * d), subMat)).bind
      fun (result, _) => Matrix.new (.nested result) false

/-- The method `inverse()`; `none` is the `null` it returns for a zero
determinant. -/
def Matrix.inverse (self : Matrix α) : Res (Option (Matrix α)) :=
  self.determinant.bind fun det =>
    if det ≠ 0 then
      self.cofactors.bind fun cof =>
        (cof.scale (1 / det)).bind fun scaled =>
          (Matrix.new (.nested (scaled.getMultiArray true)) false).bind fun inv =>
            .ok (some inv)
    else
      .ok none

end MatrixOps

/-! ## `Spark` and the particle pool -/

/-- The constant `MAX_SPARK_COUNT`.  The pool functions below take the
capacity as their first argument; the program runs them at this value. -/
def MAX_SPARK_COUNT : Nat := 5000

/-- The table `Spark.types`. -/
def Spark.types.ROCKET : Nat := 0

/-- The table `Spark.types`. -/
def Spark.types.EMBER : Nat := 1

/-- The table `Spark.types`. -/
def Spark.types.SHELL : Nat := 2

/-- The table `Spark.types`. -/
def Spark.types.SPARK : Nat := 3

/-- The table `Spark.types`. -/
def Spark.types.POP_SHELL : Nat := 4

/-- The table `Spark.types`. -/
def Spark.types.POP_SPARK : Nat := 5

/-- The argument list `(type, time, size, x, y, z, vx, vy, vz, r, g, b, lum,
insty, tags)` shared by the `Spark` constructor and `Spark.getNewSpark`. -/
structure SparkArgs where
  type : Nat
  time : ℚ
  size : ℚ
  x : ℚ
  y : ℚ
  z : ℚ
  vx : ℚ
  vy : ℚ
  vz : ℚ
  r : ℚ
  g : ℚ
  b : ℚ
  lum : ℚ
  insty : ℚ
  tags : Option String
deriving DecidableEq

/-- The private state of a `Spark` object: the constructor parameters, which
its methods read and update, its index `id` in the pool and its cached
transform `myMat`. -/
structure Spark where
  type : Nat
  time : ℚ
  size : ℚ
  x : ℚ
  y : ℚ
  z : ℚ
  vx : ℚ
  vy : ℚ
  vz : ℚ
  r : ℚ
  g : ℚ
  b : ℚ
  lum : ℚ
  insty : ℚ
  tags : Option String
  id : Nat
  myMat : Matrix ℚ
deriving DecidableEq

/-- The global state of the pool: the array `Spark.sparks` and the cursor
`Spark.lastInactiveSpark`. -/
structure Pool where
  sparks : List Spark
  lastInactiveSpark : Nat
deriving DecidableEq

/-- The initial pool: `Spark.sparks = []`, `Spark.lastInactiveSpark = 0`. -/
def Pool.empty : Pool := { sparks := [], lastInactiveSpark := 0 }

/-- The method `isActive()`. -/
def Spark.isActive (self : Spark) : Bool := decide (self.time > 0)

/-- The method `isImportant()`. -/
def Spark.isImportant (self : Spark) : Bool :=
  if self.type = Spark.types.ROCKET then true
  else if self.type = Spark.types.SHELL then true
  else if self.type = Spark.types.POP_SHELL then true
  else false

/-- The object a `Spark` constructor call creates: the closure over its
parameters, `id` and `var myMat`. -/
def Spark.ofArgs (a : SparkArgs) (id : Nat) (myMat : Matrix ℚ) : Spark :=
  { type := a.type, time := a.time, size := a.size, x := a.x, y := a.y, z := a.z,
    vx := a.vx, vy := a.vy, vz := a.vz, r := a.r, g := a.g, b := a.b,
    lum := a.lum, insty := a.insty, tags := a.tags, id := id, myMat := myMat }

/-- The constructor `new Spark(..., id)`; `id = none` is the default
`id = Spark.sparks.length`.  It returns the new object and the updated pool.
A given `id` is always an index of `Spark.sparks`. -/
def Spark.new (MAX : Nat) (pool : Pool) (a : SparkArgs) (id : Option Nat) :
    Res (Spark × Pool) :=
  let id := id.getD pool.sparks.length
  if pool.sparks.length ≥ MAX ∧ id = pool.sparks.length then
    .throw "To many sparks created"
  else
    (Matrix.getIdenity 4 : Res (Matrix ℚ)).bind fun myMat =>
      let this := Spark.ofArgs a id myMat
      if id = pool.sparks.length then
        .ok (this, { pool with sparks := pool.sparks ++ [this] })
      else
        .ok (this, { pool with sparks := pool.sparks.set id this })

/-- The loop
`while (cursor != end) { if (pred(sparks[cursor])) return ...; cursor++; cursor %= MAX; }`
of `Spark.getNewSpark`.  The result is the final cursor and whether the loop
was left by its `return`.  Reading a slot that does not exist throws. -/
def Spark.scan (MAX : Nat) (sparks : List Spark) (pred : Spark → Bool) (end_ : Nat) :
    Nat → Nat → Res (Nat × Bool)
  | fuel, cursor =>
    if cursor = end_ then .ok (cursor, false)
    else
      match fuel with
      | 0 => .diverge
      | fuel + 1 =>
        match sparks[cursor]? with
        | none => .throw "TypeError"
        | some s =>
          if pred s then .ok (cursor, true)
          else Spark.scan MAX sparks pred end_ fuel ((cursor + 1) % MAX)

/-- The static function `Spark.getNewSpark(...)`: the returned object (`none`
for `null`) and the updated pool.  `MAX` is positive.  The cursor cycles
through the residues modulo `MAX`, so a scan that has not ended after `MAX`
iterations never ends (`Spark.scan_fuel_adequate`). -/
def Spark.getNewSpark (MAX : Nat) (pool : Pool) (a : SparkArgs) :
    Res (Option Spark × Pool) :=
  if pool.sparks.length < MAX then
    (Spark.new MAX pool a none).bind fun (s, pool) => .ok (some s, pool)
  else
    let end_ := pool.lastInactiveSpark
    let cursor := (pool.lastInactiveSpark + 1) % MAX
    (Spark.scan MAX pool.sparks (fun s => s.isActive == false) end_ MAX cursor).bind
      fun (cursor, found) =>
        if found then
          (Spark.new MAX { pool with lastInactiveSpark := cursor } a (some cursor)).bind
            fun (s, pool) => .ok (some s, pool)
        else
          let cursor := (cursor + 1) % MAX
          (Spark.scan MAX pool.sparks (fun s => s.isImportant == false) end_ MAX cursor).bind
            fun (cursor, found) =>
              if found then
                (Spark.new MAX { pool with lastInactiveSpark := cursor } a (some cursor)).bind
                  fun (s, pool) => .ok (some s, pool)
              else
                .ok (none, { pool with lastInactiveSpark := cursor })

/-- The 4x4 identity as stored by `Matrix.getIdenity(4)`. -/
def identity4 : Matrix ℚ :=
  { dim := 4, mat := [[1, 0, 0, 0], [0, 1, 0, 0], [0, 0, 1, 0], [0, 0, 0, 1]] }


/-- Arguments of a particle of the given type and lifetime, launched at the
origin. -/
def SparkArgs.sample (type : Nat) (time : ℚ) : SparkArgs :=
  { type := type, time := time, size := 10, x := 0, y := 0, z := 0, vx := 0, vy := 0,
    vz := 0, r := 1, g := 1, b := 1, lum := 1, insty := 15, tags := none }

/-- The pool in which the timer of slot `i` has run down to `t`. -/
def Pool.setTime (pool : Pool) (i : Nat) (t : ℚ) : Pool :=
  { pool with sparks := List.modify (fun s => { s with time := t }) i pool.sparks }

/-- The calls `Spark.getNewSpark(a)` for the argument lists `a` of a list, in
order; the result is the final pool. -/
def Spark.spawnAll (MAX : Nat) : Pool → List SparkArgs → Res Pool
  | pool, [] => .ok pool
  | pool, a :: rest =>
    (Spark.getNewSpark MAX pool a).bind fun (_, pool) => Spark.spawnAll MAX pool rest

/-- Three particles of the given types and lifetimes in a pool of capacity 3,
with the cursor at 0. -/
def Pool.three (t0 t1 t2 : Nat) (time0 time1 time2 : ℚ) : Pool :=
  { sparks := [Spark.ofArgs (SparkArgs.sample t0 time0) 0 identity4,
               Spark.ofArgs (SparkArgs.sample t1 time1) 1 identity4,
               Spark.ofArgs (SparkArgs.sample t2 time2) 2 identity4],
    lastInactiveSpark := 0 }

/-! ## Notions used to state the theorems about `Matrix` -/

section MatrixNotions

variable {α : Type}

/-- A nested array of `r` rows of `c` entries each. -/
def Shape (a : List (List α)) (r c : Nat) : Prop :=
  a.length = r ∧ ∀ row ∈ a, row.length = c

/-- The shape every `Matrix` object has: `mat` holds `dim` rows of `dim`
entries. -/
def Matrix.WF (M : Matrix α) : Prop := Shape M.mat M.dim M.dim

/-- The nested array of `n` rows and `m` columns with entry `f r c` at
`[r][c]`. -/
def tabulate2 (n m : Nat) (f : Nat → Nat → α) : List (List α) :=
  (List.range n).map fun r => (List.range m).map fun c => f r c

/-- The mathematical `n × n` matrix with the entries of a nested array. -/
def sqOf [Inhabited α] (n : Nat) (a : List (List α)) : SqMat n α :=
  Matrix.of fun i j => get2 a i j

/-- The mathematical matrix with the entries of a `Matrix` object. -/
def Matrix.toSq [Inhabited α] (M : Matrix α) : SqMat M.dim α := sqOf M.dim M.mat

end MatrixNotions

/-- The index in a matrix of the `i`-th row (or column) that is left when row
(or column) `p` is deleted. -/
def skipIdx (p i : Nat) : Nat := if i < p then i else i + 1

/-- The mathematical `m × m` matrix with the entries of a nested array from
which row `r` and column `c` are deleted. -/
def subSq {α : Type} [Inhabited α] (m : Nat) (a : List (List α)) (r c : Nat) : SqMat m α :=
  Matrix.of fun i j => get2 a (skipIdx r i) (skipIdx c j)

/-- The matrix object with the entries of `A` from which row `r` and column
`c` are deleted. -/
def Matrix.deleteRowCol {α : Type} [Inhabited α] (A : Matrix α) (r c : Nat) : Matrix α :=
  { dim := A.dim - 1,
    mat := tabulate2 (A.dim - 1) (A.dim - 1) fun i j =>
      get2 A.mat (skipIdx r i) (skipIdx c j) }

/-! ## `Spark.update` -/

/-- The functions `Math.cos` and `Math.sin` and the constant `Math.PI`, as
they act on the numbers of the embedding. -/
structure MathEnv where
  cos : ℚ → ℚ
  sin : ℚ → ℚ
  PI : ℚ

/-- The record of the calls of `Spark.getNewSpark` made by a computation: the
arguments of each call and what it returned.  The record is for stating what a
computation does; no computation reads it. -/
abbrev SpawnLog := List (SparkArgs × Option Spark)

/-- The global variables that `update` reads and writes: the pool, the shared
buffers `matrixArray` and `lightArray`, the matrix `antiRotMat`, and the
results of the future calls of `Math.random()`, in the order of the calls. -/
structure Globals where
  pool : Pool
  matrixArray : List ℚ
  lightArray : List ℚ
  antiRotMat : Matrix ℚ
  random : Nat → ℚ

/-- The call `Math.random()`. -/
def Globals.nextRandom (g : Globals) : ℚ × Globals :=
  (g.random 0, { g with random := fun n => g.random (n + 1) })

/-- The remainder `a % b` of numbers, for `b ≠ 0`: `a - b * trunc(a / b)`. -/
def jsRem (a b : ℚ) : ℚ :=
  a - b * (if 0 ≤ a / b then Int.floor (a / b) else Int.ceil (a / b))

/-- The function `getRandomAngle(start, end)`. -/
def getRandomAngle (start end_ : ℚ) (g : Globals) : ℚ × Globals :=
  let (u, g) := g.nextRandom
  ((end_ - start) * u + start, g)

/-- The function `angleToVector(angle, mag)`: the fields `vx`, `vy`. -/
def angleToVector (env : MathEnv) (angle mag : ℚ) : ℚ × ℚ :=
  (env.cos angle * mag, env.sin angle * mag)

/-- The function `anglesToVector(angle1, angle2, mag)`: the fields `vx`, `vy`,
`vz`. -/
def anglesToVector (env : MathEnv) (angle1 angle2 mag : ℚ) : ℚ × ℚ × ℚ :=
  (env.cos angle1 * mag, env.sin angle1 * mag, env.cos angle2 * mag)

/-- The function `getRandomVector(mag)`; the angles are drawn with the default
arguments `start = 0`, `end = 2 * Math.PI`. -/
def getRandomVector (env : MathEnv) (mag : ℚ) (g : Globals) : (ℚ × ℚ × ℚ) × Globals :=
  let (angle1, g) := getRandomAngle 0 (2 * env.PI) g
  let (angle2, g) := getRandomAngle 0 (2 * env.PI) g
  (anglesToVector env angle1 angle2 mag, g)

/-- The private function `updateData()` of a `Spark`: the views
`matArrayView` and `lightArrayView` are the 16 and 5 entries of the shared
buffers that start at `16 * id` and `5 * id`. -/
def Spark.updateData (self : Spark) (g : Globals) : Globals :=
  let dataToLoad := self.myMat.getArray true
  { g with
    matrixArray := forLoop 0 16 g.matrixArray fun i matrixArray =>
      matrixArray.set (16 * self.id + i) (dataToLoad.getD i default)
    lightArray :=
      ((((g.lightArray.set (5 * self.id) self.r).set (5 * self.id + 1) self.g).set
        (5 * self.id + 2) self.b).set (5 * self.id + 3) self.lum).set
        (5 * self.id + 4) self.insty }

/-- The state of a running call of `update`: the private variables of the
object (`self`), whether `Spark.sparks[id]` still is this object (`attached`),
the global variables, and the record of the spawn calls made so far.

The pool of the embedding holds the values of the objects, JavaScript's holds
references.  While the object is attached, its slot of the pool is brought up
to date with `self` before the pool is read (`UpdateState.sync`); a spawn that
stores the new particle at `id` detaches it. -/
structure UpdateState where
  self : Spark
  attached : Bool
  globals : Globals
  spawns : SpawnLog

/-- The pool in which the slot of an attached object holds its current
private variables. -/
def UpdateState.sync (st : UpdateState) : Pool :=
  if st.attached then
    { st.globals.pool with sparks := st.globals.pool.sparks.set st.self.id st.self }
  else st.globals.pool

/-- Whether a call of `Spark.getNewSpark` that returned `nSpark` has stored a
new particle at index `id` of the pool. -/
def storedAt (nSpark : Option Spark) (id : Nat) : Bool :=
  match nSpark with
  | some s => decide (s.id = id)
  | none => false

/-- A call `Spark.getNewSpark(a)` made by `update`. -/
def UpdateState.spawn (MAX : Nat) (a : SparkArgs) (st : UpdateState) :
    Res (Option Spark × UpdateState) :=
  (Spark.getNewSpark MAX st.sync a).bind fun (nSpark, pool) =>
    .ok (nSpark,
      { st with
        attached := st.attached && !storedAt nSpark st.self.id
        globals := { st.globals with pool := pool }
        spawns := st.spawns ++ [(a, nSpark)] })

/-- The call `Math.random()` made by `update`. -/
def UpdateState.nextRandom (st : UpdateState) : ℚ × UpdateState :=
  (st.globals.random 0, { st with globals := st.globals.nextRandom.2 })

/-- The statements `r *= 0.9; g *= 0.9; b *= 0.9; size *= 0.9;`. -/
def Spark.fade (self : Spark) : Spark :=
  { self with r := self.r * (9 / 10), g := self.g * (9 / 10), b := self.b * (9 / 10),
              size := self.size * (9 / 10) }

/-- The statements of the Rocket case between the spawn of the Ember and the
explosion: gravity, the cut of the timer to `0.5` above the origin, the drag
of the last two seconds and the fade of the last quarter second. -/
def Spark.rocketPhysics (self : Spark) (deltaTime : ℚ) : Spark :=
  let self := { self with vy := self.vy - deltaTime * 10 }
  let self := if self.y > 0 ∧ self.time > 2 then { self with time := 1 / 2 } else self
  let self :=
    if self.time < 2 then { self with vx := self.vx - self.vx * deltaTime / 2 } else self
  if self.time < 1 / 4 then self.fade else self

/-- The statements `vy -= deltaTime * 10; if (time < 0.25) { ... }` of the
Spark case and of the default case. -/
def Spark.gravityFade (self : Spark) (deltaTime : ℚ) : Spark :=
  let self := { self with vy := self.vy - deltaTime * 10 }
  if self.time < 1 / 4 then self.fade else self

/-- The loop `for (var i = 0; i < newSparkCount; i++)` of the explosion of a
Rocket, with `n` iterations left; it ends at the first spawn that returns
`null`. -/
def Spark.explodeLoop (env : MathEnv) (MAX : Nat) : Nat → UpdateState → Res UpdateState
  | 0, st => .ok st
  | n + 1, st =>
    let (u, st) := st.nextRandom
    let (v1, g) := getRandomVector env (u * 300) st.globals
    let st := { st with globals := g }
    let (u, st) := st.nextRandom
    let rand := u * 2 + 2
    let sr := jsRem (st.self.r * rand) 1
    let sg := jsRem (st.self.g * rand) 1
    let sb := jsRem (st.self.b * rand) 1
    let (u, st) := st.nextRandom
    (st.spawn MAX
      { type := Spark.types.SPARK, time := u, size := 10,
        x := st.self.x, y := st.self.y, z := st.self.z,
        vx := v1.1, vy := v1.2.1, vz := v1.2.2,
        r := sr, g := sg, b := sb, lum := 1, insty := 15, tags := none }).bind
      fun (nSpark, st) =>
        match nSpark with
        | none => .ok st
        | some _ => Spark.explodeLoop env MAX n st

/-- The `case Spark.types.ROCKET` of `update`. -/
def Spark.updateRocket (env : MathEnv) (MAX : Nat) (deltaTime : ℚ) (st : UpdateState) :
    Res UpdateState :=
  let (u, st) := st.nextRandom
  (if u < 1 then
    let (angle, g) := getRandomAngle (env.PI * (9 / 20)) (env.PI * (11 / 20)) st.globals
    let vec := angleToVector env angle 1
    let st := { st with globals := g }
    let sr := vec.2
    let sg : ℚ := 1 / 2
    let sb : ℚ := 0
    let (u, st) := st.nextRandom
    let nx := u * 30 - 15
    let (u, st) := st.nextRandom
    let ny := u * 30 - 15
    let (u, st) := st.nextRandom
    let nz := u * 30 - 15
    let (u, st) := st.nextRandom
    (st.spawn MAX
      { type := Spark.types.EMBER, time := u * 2, size := 4,
        x := st.self.x, y := st.self.y, z := st.self.z, vx := nx, vy := ny, vz := nz,
        r := sr, g := sg, b := sb, lum := 9 / 10, insty := 10, tags := none }).bind
      fun (_, st) => .ok st
  else .ok st).bind fun st =>
    let self := st.self.rocketPhysics deltaTime
    let st := { st with self := self }
    if self.time ≤ 0 ∧ self.time + deltaTime > 0 then
      let (u, st) := st.nextRandom
      let newSparkCount : Int := Int.floor (u * 50) + 100
      Spark.explodeLoop env MAX newSparkCount.toNat st
    else .ok st

/-- The `case Spark.types.SPARK` of `update`. -/
def Spark.updateSpark (MAX : Nat) (deltaTime : ℚ) (st : UpdateState) : Res UpdateState :=
  let (u, st) := st.nextRandom
  (if u < 1 then
    let sr := st.self.r
    let sg := st.self.g
    let sb := st.self.b
    let (u, st) := st.nextRandom
    let nx := u * 30 - 15
    let (u, st) := st.nextRandom
    let ny := u * 30 - 15
    let (u, st) := st.nextRandom
    let nz := u * 30 - 15
    let (u, st) := st.nextRandom
    (st.spawn MAX
      { type := Spark.types.EMBER, time := u, size := 4,
        x := st.self.x, y := st.self.y, z := st.self.z, vx := nx, vy := ny, vz := nz,
        r := sr, g := sg, b := sb, lum := 9 / 10, insty := 5, tags := none }).bind
      fun (_, st) => .ok st
  else .ok st).bind fun st =>
    .ok { st with self := st.self.gravityFade deltaTime }

/-- The `default` case of `update`. -/
def Spark.updateDefault (deltaTime : ℚ) (st : UpdateState) : Res UpdateState :=
  .ok { st with self := st.self.gravityFade deltaTime }

/-- The method `update(deltaTime)` of the object `self`; `attached` tells
whether `Spark.sparks[id]` is this object, as it is when the frame driver
calls `update`.  In the final state the slot of an attached object holds its
final private variables. -/
def Spark.update (env : MathEnv) (MAX : Nat) (self : Spark) (attached : Bool)
    (g : Globals) (deltaTime : ℚ) : Res UpdateState :=
  if !self.isActive then
    (Matrix.new (.flat [0, 0, 0, 0, 0, 0, 0, 0, 0, 0, 0, 0, 0, 0, 0, 0]) false).bind
      fun myMat =>
        let st : UpdateState :=
          { self := { self with myMat := myMat }, attached := attached,
            globals := Spark.updateData { self with myMat := myMat } g, spawns := [] }
        .ok { st with globals := { st.globals with pool := st.sync } }
  else
    let self :=
      { self with time := self.time - deltaTime, x := self.x + self.vx * deltaTime,
                  y := self.y + self.vy * deltaTime, z := self.z + self.vz * deltaTime }
    let st : UpdateState := { self := self, attached := attached, globals := g, spawns := [] }
    (if self.type = Spark.types.ROCKET then Spark.updateRocket env MAX deltaTime st
     else if self.type = Spark.types.SPARK then Spark.updateSpark MAX deltaTime st
     else Spark.updateDefault deltaTime st).bind fun st =>
      (Matrix.new (.flat [st.self.size, 0, 0, st.self.x,
                          0, st.self.size, 0, st.self.y,
                          0, 0, st.self.size, st.self.z,
                          0, 0, 0, 1]) false).bind fun transMat =>
        (transMat.multiply st.globals.antiRotMat).bind fun myMat =>
          let st := { st with self := { st.self with myMat := myMat } }
          .ok { st with globals := { st.globals with pool := st.sync } }

/-- A sequence of later calls of `update` on the same object, each with its
own attachment, global variables and `deltaTime`: the final private variables
and the record of all spawn calls. -/
def Spark.updateMany (env : MathEnv) (MAX : Nat) :
    Spark → List (Bool × Globals × ℚ) → Res (Spark × SpawnLog)
  | self, [] => .ok (self, [])
  | self, (attached, g, deltaTime) :: rest =>
    (Spark.update env MAX self attached g deltaTime).bind fun st =>
      (Spark.updateMany env MAX st.self rest).bind fun (self, spawns) =>
        .ok (self, st.spawns ++ spawns)

/-- The global variables are in order: the pool is within its capacity, the
cursor is below the capacity, and `antiRotMat` is a 4x4 matrix. -/
def Globals.WF (MAX : Nat) (g : Globals) : Prop :=
  g.pool.sparks.length ≤ MAX ∧ g.pool.lastInactiveSpark < MAX ∧ g.antiRotMat.dim = 4

/-- The state of a running `update` is in order: the global variables are, and
the slot of an attached object exists. -/
def UpdateState.Inv (MAX : Nat) (st : UpdateState) : Prop :=
  st.globals.WF MAX ∧ (st.attached = true → st.self.id < st.globals.pool.sparks.length)

/-- The slot `id` of the pool holds the object itself or a particle of type
Ember or Spark. -/
def UpdateState.SlotOK (st : UpdateState) : Prop :=
  st.attached = true ∨
    ∃ s, st.globals.pool.sparks[st.self.id]? = some s ∧
      (s.type = Spark.types.EMBER ∨ s.type = Spark.types.SPARK)

/-- The record of the explosion loop of a Rocket at position `(x, y, z)` with
bound `n`: every call asks for a Spark at the position of the Rocket, and the
particle it returns, if any, is the one the constructor makes of the arguments
of the call; either all `n` calls are made and return a particle, or fewer
than `n` calls return a particle and are followed by one last call, which
returns `null`. -/
def IsFanOut (n : Nat) (x y z : ℚ) (children : SpawnLog) : Prop :=
  (∀ e ∈ children, e.1.type = Spark.types.SPARK ∧ e.1.x = x ∧ e.1.y = y ∧ e.1.z = z ∧
    ∀ s, e.2 = some s → s = Spark.ofArgs e.1 s.id identity4) ∧
  ∃ created : SpawnLog, (∀ e ∈ created, e.2.isSome = true) ∧
    ((children = created ∧ created.length = n) ∨
      (∃ a, children = created ++ [(a, none)] ∧ created.length < n))

/-- Sample global variables: the given pool, empty buffers, the initial
`antiRotMat`, and `Math.random()` returning `u` at every call. -/
def Globals.sample (pool : Pool) (u : ℚ) : Globals :=
  { pool := pool, matrixArray := [], lightArray := [], antiRotMat := identity4,
    random := fun _ => u }

/-- Sample values of `Math.cos`, `Math.sin` and `Math.PI`. -/
def MathEnv.sample : MathEnv := { cos := fun _ => 1, sin := fun _ => 0, PI := 3 }

/-! ## `render` and the frame driver `draw` -/

/-- The method `render()`. -/
def Spark.render (self : Spark) (g : Globals) : Globals :=
  if !self.isActive then g else self.updateData g

/-- The value of `(time - oldTime) / 1000` in `draw`, after the statement
`if (oldTime == 0) { oldTime = time - 1; }`.  It is what `draw` adds to
`camRot`, times 0.5, and the argument of every call of `update`. -/
def draw.deltaTime (oldTime time : ℚ) : ℚ :=
  let oldTime := if oldTime = 0 then time - 1 else oldTime
  (time - oldTime) / 1000

/-- The variables `oldTime`, `camRot` and `camRotMat` that `draw` writes, and
the global variables of the particles. -/
structure DrawState where
  oldTime : ℚ
  camRot : ℚ
  camRotMat : Matrix ℚ
  globals : Globals

/-- The callback `(spark) => { spark.update(deltaTime); spark.render(); }` of
`draw`, called by `forEach` with the element at index `i` of `Spark.sparks`. -/
def draw.eachSpark (env : MathEnv) (MAX : Nat) (deltaTime : ℚ) (i : Nat) (g : Globals) :
    Res Globals :=
  match g.pool.sparks[i]? with
  | none => .ok g
  | some spark =>
    (Spark.update env MAX spark true g deltaTime).bind fun st =>
      .ok (st.self.render st.globals)

/-- The statement `if (Math.random() < 0.025) { ... }` of `draw`, which
launches a Rocket. -/
def draw.launch (env : MathEnv) (MAX : Nat) (height : ℚ) (g : Globals) : Res Globals :=
  let (u, g) := g.nextRandom
  if u < 25 / 1000 then
    let (color, g) := getRandomVector env 1 g
    let (u, g) := g.nextRandom
    let x := u * 100 - 50
    let (u, g) := g.nextRandom
    let z := u * 100 - 50
    let (u, g) := g.nextRandom
    let vx := u * 50 - 25
    let (u, g) := g.nextRandom
    let vy := u * 500 + 50
    let (u, g) := g.nextRandom
    let vz := u * 50 - 25
    (Spark.getNewSpark MAX g.pool
      { type := Spark.types.ROCKET, time := 5, size := 10,
        x := x, y := -height / 2, z := z, vx := vx, vy := vy, vz := vz,
        r := |color.1|, g := |color.2.1|, b := |color.2.2|, lum := 1, insty := 20,
        tags := none }).bind
      fun (_, pool) => .ok { g with pool := pool }
  else .ok g

/-- The function `draw(time)`, the callback of `requestAnimationFrame`.  The
calls of the graphics library are left out: they read the variables of the
embedding and write none of them.  `contextLost` is what `gl.isContextLost()`
returns; `cameraMat` and `height` are global variables that `draw` reads.
`forEach` visits the indices below the length the array has when it starts. -/
def draw (env : MathEnv) (MAX : Nat) (cameraMat : Matrix ℚ) (height : ℚ)
    (contextLost : Bool) (time : ℚ) (s : DrawState) : Res DrawState :=
  if contextLost then .ok s
  else
    let deltaTime := draw.deltaTime s.oldTime time
    let camRot := s.camRot + deltaTime * (1 / 2)
    (Matrix.new (.flat [env.cos camRot, 0, env.sin camRot, 0,
                        0, 1, 0, 0,
                        -env.sin camRot, 0, env.cos camRot, 0,
                        0, 0, 0, 1]) false).bind fun rot =>
      (cameraMat.multiply rot).bind fun camRotMat =>
        (Matrix.new (.flat [env.cos (-camRot), 0, env.sin (-camRot), 0,
                            0, 1, 0, 0,
                            -env.sin (-camRot), 0, env.cos (-camRot), 0,
                            0, 0, 0, 1]) false).bind fun antiRotMat =>
          let g := { s.globals with antiRotMat := antiRotMat }
          (forLoopM 0 g.pool.sparks.length g
            (draw.eachSpark env MAX deltaTime)).bind fun g =>
            (draw.launch env MAX height g).bind fun g =>
              .ok { oldTime := time, camRot := camRot, camRotMat := camRotMat,
                    globals := g }

/-- The state of the program before the first frame: `oldTime = 0`,
`camRot = 0`, `camRotMat = antiRotMat = Matrix.getIdenity(4)`, no particle,
and buffers of `16 * MAX` and `5 * MAX` zeros. -/
def DrawState.initial (MAX : Nat) (random : Nat → ℚ) : DrawState :=
  { oldTime := 0, camRot := 0, camRotMat := identity4,
    globals := { pool := Pool.empty, matrixArray := List.replicate (16 * MAX) 0,
                 lightArray := List.replicate (5 * MAX) 0, antiRotMat := identity4,
                 random := random } }

/-! ## Notions used to state the theorems about `update` and the pool -/

/-- The matrix `scale(s) = diag(s, s, s, 1)` of the specification. -/
def scaleMat (s : ℚ) : SqMat 4 ℚ :=
  !![s, 0, 0, 0; 0, s, 0, 0; 0, 0, s, 0; 0, 0, 0, 1]

/-- The matrix `translate(x, y, z)` of the specification: the identity with
`(x, y, z)` in its last column. -/
def translateMat (x y z : ℚ) : SqMat 4 ℚ :=
  !![1, 0, 0, x; 0, 1, 0, y; 0, 0, 1, z; 0, 0, 0, 1]

/-- The array `[size, 0, 0, x, 0, size, 0, y, 0, 0, size, z, 0, 0, 0, 1]` that
`update` hands to the constructor of `transMat`. -/
def Spark.transArray (self : Spark) : List ℚ :=
  [self.size, 0, 0, self.x, 0, self.size, 0, self.y, 0, 0, self.size, self.z, 0, 0, 0, 1]

/-- The pools that the program can be in: the empty pool at the start, then
each call of `Spark.getNewSpark` that returns and each call of `update` on a
particle of the pool that returns, whatever the arguments, the buffers, the
random numbers and the 4x4 matrix `antiRotMat` are. -/
inductive Pool.Reachable (env : MathEnv) (MAX : Nat) : Pool → Prop
  | empty : Pool.Reachable env MAX Pool.empty
  | spawn (p : Pool) (a : SparkArgs) (r : Option Spark) (p' : Pool) :
      Pool.Reachable env MAX p → Spark.getNewSpark MAX p a = .ok (r, p') →
      Pool.Reachable env MAX p'
  | update (p : Pool) (i : Nat) (s : Spark) (g : Globals) (deltaTime : ℚ)
      (st : UpdateState) :
      Pool.Reachable env MAX p → p.sparks[i]? = some s → g.pool = p →
      g.antiRotMat.dim = 4 → Spark.update env MAX s true g deltaTime = .ok st →
      Pool.Reachable env MAX st.globals.pool

/-- Every particle of the pool is stored at the index that is its `id`. -/
def Pool.IdsOK (p : Pool) : Prop :=
  ∀ (i : Nat) (s : Spark), p.sparks[i]? = some s → s.id = i

/-- A change of the pool that loses no particle and keeps every particle at
the index that is its `id`. -/
def PoolStep (p p' : Pool) : Prop :=
  p.sparks.length ≤ p'.sparks.length ∧ (p.IdsOK → p'.IdsOK)

/-- The squared Euclidean length of a vector with the fields `vx`, `vy`,
`vz`. -/
def lengthSq (v : ℚ × ℚ × ℚ) : ℚ := v.1 ^ 2 + v.2.1 ^ 2 + v.2.2 ^ 2

/-! ## JavaScript numbers (IEEE 754 binary64)

The arithmetic of the source is that of JavaScript numbers.  The definitions of
`Matrix` above take the number type as a parameter; the theorems about exact
arithmetic instantiate it with a field, and `F64` below instantiates it with
the doubles, to evaluate the source as the machine does.

* A finite double is `fin m e`, the value `m * 2 ^ e`, kept in the normal form
  where `m` is odd, or `m = 0` and `e = 0`.  Two finite doubles are then equal
  as numbers exactly when they are equal as terms.
* The two zeros `+0` and `-0` are one value `fin 0 0`: the operators `==` and
  `!=` of the source do not tell them apart.  The sign of a zero is visible
  only in a quotient by that zero, and the one division of `Matrix`
  (`1 / det`, line 175) is guarded by `det != 0`.
* `NaN` is `nan`; it is also what arithmetic makes of `undefined`, so it is
  the `default` value read outside an array.  `nan ≠ 0` holds, like
  `NaN != 0` in the source.
* Every operation computes the exact result over the integers and rounds it
  once, to nearest, ties to even, to 53 significant bits, with the subnormal
  exponent `-1074` and overflow to infinity from `2 ^ 1024`.
-/

/-- A JavaScript number: `fin m e` is `m * 2 ^ e`. -/
inductive F64 where
  | fin (m : Int) (e : Int)
  | inf (neg : Bool)
  | nan
deriving DecidableEq

/-- The number of binary digits of `n`, by halving, at most `fuel` times. -/
def F64.bitsFuel : Nat → Nat → Nat
  | 0, _ => 0
  | fuel + 1, n => if n = 0 then 0 else F64.bitsFuel fuel (n / 2) + 1

/-- The number of binary digits of `n`; halving `n` times takes `n` to zero. -/
def F64.bits (n : Nat) : Nat := F64.bitsFuel n n

/-- The double nearest to `± n * 2 ^ e` (ties to even), in normal form. -/
def F64.round (neg : Bool) (n : Nat) (e : Int) : F64 :=
  if n = 0 then .fin 0 0
  else
    -- the exponent of the last bit that is kept
    let e' : Int := max e (max (e + (F64.bits n : Nat) - 53) (-1074))
    let shift : Nat := (e' - e).toNat
    let q : Nat := n / 2 ^ shift
    let r : Nat := n % 2 ^ shift
    let q : Nat := if 2 ^ shift < 2 * r ∨ (2 * r = 2 ^ shift ∧ q % 2 = 1) then q + 1 else q
    if 1024 < (F64.bits q : Int) + e' then .inf neg
    else if q = 0 then .fin 0 0
    else
      -- the number of trailing zero bits of `q`, which is at most `2 ^ 53`
      let t : Nat := F64.bits (Nat.gcd q (2 ^ 64)) - 1
      .fin (if neg then -((q / 2 ^ t : Nat) : Int) else ((q / 2 ^ t : Nat) : Int)) (e' + t)

/-- The double nearest to the integer multiple `m * 2 ^ e`. -/
def F64.ofScaled (m : Int) (e : Int) : F64 :=
  F64.round (decide (m < 0)) m.natAbs e

/-- The operator `-x`. -/
def F64.neg : F64 → F64
  | .fin m e => .fin (-m) e
  | .inf s => .inf (!s)
  | .nan => .nan

/-- The operator `x + y`. -/
def F64.add : F64 → F64 → F64
  | .fin m1 e1, .fin m2 e2 =>
    let e := min e1 e2
    F64.ofScaled (m1 * 2 ^ (e1 - e).toNat + m2 * 2 ^ (e2 - e).toNat) e
  | .fin _ _, .inf s => .inf s
  | .inf s, .fin _ _ => .inf s
  | .inf s, .inf t => if s = t then .inf s else .nan
  | .nan, _ => .nan
  | _, .nan => .nan

/-- The operator `x - y`, which is `x + (-y)`. -/
def F64.sub (x y : F64) : F64 := F64.add x (F64.neg y)

/-- The operator `x * y`. -/
def F64.mul : F64 → F64 → F64
  | .fin m1 e1, .fin m2 e2 => F64.ofScaled (m1 * m2) (e1 + e2)
  | .fin m _, .inf s => if m = 0 then .nan else .inf (xor (decide (m < 0)) s)
  | .inf s, .fin m _ => if m = 0 then .nan else .inf (xor s (decide (m < 0)))
  | .inf s, .inf t => .inf (xor s t)
  | .nan, _ => .nan
  | _, .nan => .nan

/-- The operator `x / y`.  The quotient of the integers is taken with 64
bits more than a double keeps and one sticky bit for the remainder, then
rounded.  A quotient by zero takes the zero as `+0`. -/
def F64.div : F64 → F64 → F64
  | .fin m1 e1, .fin m2 e2 =>
    if m2 = 0 then
      if m1 = 0 then .nan else .inf (decide (m1 < 0))
    else
      let k : Nat := F64.bits m2.natAbs + 64
      let num : Nat := m1.natAbs * 2 ^ k
      let q : Nat := num / m2.natAbs
      let sticky : Nat := if num % m2.natAbs = 0 then 0 else 1
      F64.round (xor (decide (m1 < 0)) (decide (m2 < 0))) (2 * q + sticky) (e1 - e2 - k - 1)
  | .fin _ _, .inf _ => .fin 0 0
  | .inf s, .fin m _ => .inf (xor s (decide (m < 0)))
  | .inf _, .inf _ => .nan
  | .nan, _ => .nan
  | _, .nan => .nan

instance : Zero F64 := ⟨.fin 0 0⟩
instance : One F64 := ⟨.fin 1 0⟩
instance : Neg F64 := ⟨F64.neg⟩
instance : Add F64 := ⟨F64.add⟩
instance : Sub F64 := ⟨F64.sub⟩
instance : Mul F64 := ⟨F64.mul⟩
instance : Div F64 := ⟨F64.div⟩
instance : Inhabited F64 := ⟨.nan⟩

/-- The matrix `new Matrix([a, b, 0, a, b, 0, 0, 0, a])` of doubles with
`a = 134217727 = 2 ^ 27 - 1` and `b = 134217729 = 2 ^ 27 + 1`; its rows 0 and
1 are identical. -/
def Matrix.twoEqualRows : Matrix F64 :=
  { dim := 3
    mat := [[.fin 134217727 0, .fin 134217729 0, 0],
            [.fin 134217727 0, .fin 134217729 0, 0],
            [0, 0, .fin 134217727 0]] }
/-! ## Theorems: outcomes and loops -/

@[simp] theorem Res.ok_bind {α β : Type} (a : α) (f : α → Res β) :
    (Res.ok a).bind f = f a := rfl

@[simp] theorem Res.throw_bind {α β : Type} (m : String) (f : α → Res β) :
    (Res.throw m : Res α).bind f = .throw m := rfl

@[simp] theorem Res.diverge_bind {α β : Type} (f : α → Res β) :
    (Res.diverge : Res α).bind f = .diverge := rfl

theorem getIdenity_four : (Matrix.getIdenity 4 : Res (Matrix ℚ)) = .ok identity4 := by
  decide

theorem mod_add_cases (a k M : Nat) (ha : a < M) (hk : k ≤ M) :
    (a + k) % M = if a + k < M then a + k else a + k - M := by
  split
  · next h => exact Nat.mod_eq_of_lt h
  · next h =>
    rw [Nat.mod_eq_sub_mod (by omega)]
    exact Nat.mod_eq_of_lt (by omega)

theorem Spark.new_append (MAX : Nat) (pool : Pool) (a : SparkArgs)
    (h : pool.sparks.length < MAX) :
    Spark.new MAX pool a none =
      .ok (Spark.ofArgs a pool.sparks.length identity4,
        { pool with sparks := pool.sparks ++ [Spark.ofArgs a pool.sparks.length identity4] }) := by
  simp [Spark.new, getIdenity_four, Nat.not_le.mpr h]

theorem Spark.new_replace (MAX : Nat) (pool : Pool) (a : SparkArgs) (id : Nat)
    (h : id < pool.sparks.length) :
    Spark.new MAX pool a (some id) =
      .ok (Spark.ofArgs a id identity4,
        { pool with sparks := pool.sparks.set id (Spark.ofArgs a id identity4) }) := by
  have hne : id ≠ pool.sparks.length := Nat.ne_of_lt h
  simp [Spark.new, getIdenity_four, hne]

theorem Spark.scan_unfold (MAX : Nat) (sparks : List Spark) (pred : Spark → Bool)
    (end_ fuel cursor : Nat) :
    Spark.scan MAX sparks pred end_ fuel cursor =
      if cursor = end_ then .ok (cursor, false)
      else
        match fuel with
        | 0 => .diverge
        | fuel + 1 =>
          match sparks[cursor]? with
          | none => .throw "TypeError"
          | some s =>
            if pred s then .ok (cursor, true)
            else Spark.scan MAX sparks pred end_ fuel ((cursor + 1) % MAX) := by
  cases fuel <;> rfl

theorem Spark.scan_steps (MAX : Nat) (sparks : List Spark) (pred : Spark → Bool)
    (end_ : Nat) (k : Nat) : ∀ fuel cursor, k ≤ fuel → cursor < MAX →
    (∀ j, j < k → (cursor + j) % MAX ≠ end_ ∧
      ∃ s, sparks[(cursor + j) % MAX]? = some s ∧ pred s = false) →
    Spark.scan MAX sparks pred end_ fuel cursor =
      Spark.scan MAX sparks pred end_ (fuel - k) ((cursor + k) % MAX) := by
  induction k with
  | zero =>
    intro fuel cursor _ hc _
    simp [Nat.mod_eq_of_lt hc]
  | succ k ih =>
    intro fuel cursor hk hc h
    obtain ⟨fuel, rfl⟩ : ∃ f, fuel = f + 1 := ⟨fuel - 1, by omega⟩
    have h0 := h 0 (by omega)
    simp only [Nat.add_zero, Nat.mod_eq_of_lt hc] at h0
    obtain ⟨hne, s, hs, hp⟩ := h0
    rw [Spark.scan_unfold]
    simp only [hne, if_false, hs, hp]
    have hM : 0 < MAX := by omega
    have e1 : fuel + 1 - (k + 1) = fuel - k := by omega
    have e2 : ((cursor + 1) % MAX + k) % MAX = (cursor + (k + 1)) % MAX := by
      rw [Nat.mod_add_mod, Nat.add_assoc, Nat.add_comm 1 k]
    have hih := ih fuel ((cursor + 1) % MAX) (by omega) (Nat.mod_lt _ hM) (by
      intro j hj
      have hj1 := h (j + 1) (by omega)
      rw [Nat.mod_add_mod]
      rwa [show cursor + 1 + j = cursor + (j + 1) by omega])
    rw [e2] at hih
    simp [hih, e1]

theorem Spark.scan_sound (MAX : Nat) (sparks : List Spark) (pred : Spark → Bool)
    (end_ : Nat) : ∀ fuel cursor c found,
    Spark.scan MAX sparks pred end_ fuel cursor = .ok (c, found) →
    (found = true → ∃ s, sparks[c]? = some s ∧ pred s = true) ∧
    (found = false → c = end_) := by
  intro fuel
  induction fuel with
  | zero =>
    intro cursor c found h
    rw [Spark.scan_unfold] at h
    by_cases hc : cursor = end_
    · simp [hc] at h
      obtain ⟨rfl, rfl⟩ := h
      simp
    · simp [hc] at h
  | succ fuel ih =>
    intro cursor c found h
    rw [Spark.scan_unfold] at h
    by_cases hc : cursor = end_
    · simp [hc] at h
      obtain ⟨rfl, rfl⟩ := h
      simp
    · simp only [hc, if_false] at h
      cases hs : sparks[cursor]? with
      | none => simp [hs] at h
      | some s =>
        simp only [hs] at h
        by_cases hp : pred s = true
        · simp [hp] at h
          obtain ⟨rfl, rfl⟩ := h
          exact ⟨fun _ => ⟨s, hs, hp⟩, by simp⟩
        · simp only [hp, if_false] at h
          exact ih _ c found h


/-! ## Theorems: the circular scans of `Spark.getNewSpark` -/

theorem offset_ne_cursor (e k cap : Nat) (he : e < cap) (hk1 : 1 ≤ k) (hk : k < cap) :
    (e + k) % cap ≠ e := by
  rw [mod_add_cases e k cap he (by omega)]
  split <;> omega

theorem offset_lt (e k cap : Nat) (he : e < cap) : (e + k) % cap < cap :=
  Nat.mod_lt _ (by omega)

theorem offset_shift (e j cap : Nat) : ((e + 1) % cap + j) % cap = (e + (j + 1)) % cap := by
  rw [Nat.mod_add_mod, Nat.add_assoc, Nat.add_comm 1 j]

/-- A scan started behind the cursor stops at the first slot, in the order
`e+1, e+2, ...` modulo the capacity, that satisfies the predicate. -/
theorem Spark.scan_found (cap : Nat) (sparks : List Spark) (pred : Spark → Bool)
    (e k : Nat) (s : Spark) (hlen : sparks.length = cap) (he : e < cap)
    (hk1 : 1 ≤ k) (hk : k < cap)
    (hbefore : ∀ j, 1 ≤ j → j < k → ∀ t, sparks[(e + j) % cap]? = some t → pred t = false)
    (hs : sparks[(e + k) % cap]? = some s) (hp : pred s = true) :
    Spark.scan cap sparks pred e cap ((e + 1) % cap) = .ok ((e + k) % cap, true) := by
  have hsteps := Spark.scan_steps cap sparks pred e (k - 1) cap ((e + 1) % cap) (by omega)
    (offset_lt e 1 cap he) (by
      intro j hj
      rw [offset_shift]
      refine ⟨offset_ne_cursor e (j + 1) cap he (by omega) (by omega), ?_⟩
      have hlt : (e + (j + 1)) % cap < sparks.length := hlen ▸ offset_lt e (j + 1) cap he
      exact ⟨sparks[(e + (j + 1)) % cap], List.getElem?_eq_getElem hlt,
        hbefore (j + 1) (by omega) (by omega) _ (List.getElem?_eq_getElem hlt)⟩)
  rw [offset_shift, show k - 1 + 1 = k by omega] at hsteps
  rw [hsteps, Spark.scan_unfold]
  obtain ⟨f, hf⟩ : ∃ f, cap - (k - 1) = f + 1 := ⟨cap - k, by omega⟩
  simp [offset_ne_cursor e k cap he hk1 hk, hf, hs, hp]

/-- A scan started behind the cursor that meets no slot satisfying the
predicate ends back at the cursor, having looked at every slot but the
cursor's own. -/
theorem Spark.scan_none (cap : Nat) (sparks : List Spark) (pred : Spark → Bool)
    (e : Nat) (hlen : sparks.length = cap) (he : e < cap)
    (hall : ∀ j, 1 ≤ j → j < cap → ∀ t, sparks[(e + j) % cap]? = some t → pred t = false) :
    Spark.scan cap sparks pred e cap ((e + 1) % cap) = .ok (e, false) := by
  have hsteps := Spark.scan_steps cap sparks pred e (cap - 1) cap ((e + 1) % cap) (by omega)
    (offset_lt e 1 cap he) (by
      intro j hj
      rw [offset_shift]
      refine ⟨offset_ne_cursor e (j + 1) cap he (by omega) (by omega), ?_⟩
      have hlt : (e + (j + 1)) % cap < sparks.length := hlen ▸ offset_lt e (j + 1) cap he
      exact ⟨sparks[(e + (j + 1)) % cap], List.getElem?_eq_getElem hlt,
        hall (j + 1) (by omega) (by omega) _ (List.getElem?_eq_getElem hlt)⟩)
  rw [offset_shift, show cap - 1 + 1 = cap by omega, Nat.add_mod_right,
    Nat.mod_eq_of_lt he] at hsteps
  rw [hsteps, Spark.scan_unfold]
  simp

/-! ## Theorems: `Spark.getNewSpark` on a full pool -/

/-- First scan: the first inactive slot behind the cursor is reused. -/
theorem Spark.getNewSpark_inactive (cap : Nat) (pool : Pool) (a : SparkArgs) (k : Nat)
    (s : Spark) (hlen : pool.sparks.length = cap) (he : pool.lastInactiveSpark < cap)
    (hk1 : 1 ≤ k) (hk : k < cap)
    (hbefore : ∀ j, 1 ≤ j → j < k → ∀ t,
      pool.sparks[(pool.lastInactiveSpark + j) % cap]? = some t → t.isActive = true)
    (hs : pool.sparks[(pool.lastInactiveSpark + k) % cap]? = some s)
    (hin : s.isActive = false) :
    Spark.getNewSpark cap pool a =
      .ok (some (Spark.ofArgs a ((pool.lastInactiveSpark + k) % cap) identity4),
        { sparks := pool.sparks.set ((pool.lastInactiveSpark + k) % cap)
            (Spark.ofArgs a ((pool.lastInactiveSpark + k) % cap) identity4),
          lastInactiveSpark := (pool.lastInactiveSpark + k) % cap }) := by
  have hscan := Spark.scan_found cap pool.sparks (fun s => s.isActive == false)
    pool.lastInactiveSpark k s hlen he hk1 hk
    (by intro j h1 h2 t ht; simp [hbefore j h1 h2 t ht]) hs (by simp [hin])
  have hlt : (pool.lastInactiveSpark + k) % cap < pool.sparks.length :=
    hlen ▸ offset_lt _ k cap he
  have hnew := Spark.new_replace cap
    { pool with lastInactiveSpark := (pool.lastInactiveSpark + k) % cap } a _ hlt
  simp only [Spark.getNewSpark, hlen, Nat.lt_irrefl, if_false, hscan, Res.ok_bind, if_true,
    hnew]

/-- Second scan: with no inactive slot behind the cursor, the first
non-important slot behind the cursor is reused. -/
theorem Spark.getNewSpark_unimportant (cap : Nat) (pool : Pool) (a : SparkArgs) (k : Nat)
    (s : Spark) (hlen : pool.sparks.length = cap) (he : pool.lastInactiveSpark < cap)
    (hk1 : 1 ≤ k) (hk : k < cap)
    (hactive : ∀ j, 1 ≤ j → j < cap → ∀ t,
      pool.sparks[(pool.lastInactiveSpark + j) % cap]? = some t → t.isActive = true)
    (hbefore : ∀ j, 1 ≤ j → j < k → ∀ t,
      pool.sparks[(pool.lastInactiveSpark + j) % cap]? = some t → t.isImportant = true)
    (hs : pool.sparks[(pool.lastInactiveSpark + k) % cap]? = some s)
    (hun : s.isImportant = false) :
    Spark.getNewSpark cap pool a =
      .ok (some (Spark.ofArgs a ((pool.lastInactiveSpark + k) % cap) identity4),
        { sparks := pool.sparks.set ((pool.lastInactiveSpark + k) % cap)
            (Spark.ofArgs a ((pool.lastInactiveSpark + k) % cap) identity4),
          lastInactiveSpark := (pool.lastInactiveSpark + k) % cap }) := by
  have hscan1 := Spark.scan_none cap pool.sparks (fun s => s.isActive == false)
    pool.lastInactiveSpark hlen he
    (by intro j h1 h2 t ht; simp [hactive j h1 h2 t ht])
  have hscan2 := Spark.scan_found cap pool.sparks (fun s => s.isImportant == false)
    pool.lastInactiveSpark k s hlen he hk1 hk
    (by intro j h1 h2 t ht; simp [hbefore j h1 h2 t ht]) hs (by simp [hun])
  have hlt : (pool.lastInactiveSpark + k) % cap < pool.sparks.length :=
    hlen ▸ offset_lt _ k cap he
  have hnew := Spark.new_replace cap
    { pool with lastInactiveSpark := (pool.lastInactiveSpark + k) % cap } a _ hlt
  simp only [Spark.getNewSpark, hlen, Nat.lt_irrefl, if_false, hscan1, Res.ok_bind,
    hscan2, if_true, hnew]
  simp

/-- No slot behind the cursor is inactive or non-important: `null`, and the
pool is as before. -/
theorem Spark.getNewSpark_null (cap : Nat) (pool : Pool) (a : SparkArgs)
    (hlen : pool.sparks.length = cap) (he : pool.lastInactiveSpark < cap)
    (hactive : ∀ j, 1 ≤ j → j < cap → ∀ t,
      pool.sparks[(pool.lastInactiveSpark + j) % cap]? = some t → t.isActive = true)
    (himportant : ∀ j, 1 ≤ j → j < cap → ∀ t,
      pool.sparks[(pool.lastInactiveSpark + j) % cap]? = some t → t.isImportant = true) :
    Spark.getNewSpark cap pool a = .ok (none, pool) := by
  have hscan1 := Spark.scan_none cap pool.sparks (fun s => s.isActive == false)
    pool.lastInactiveSpark hlen he
    (by intro j h1 h2 t ht; simp [hactive j h1 h2 t ht])
  have hscan2 := Spark.scan_none cap pool.sparks (fun s => s.isImportant == false)
    pool.lastInactiveSpark hlen he
    (by intro j h1 h2 t ht; simp [himportant j h1 h2 t ht])
  simp only [Spark.getNewSpark, hlen, Nat.lt_irrefl, if_false, hscan1, Res.ok_bind,
    hscan2]
  simp

/-- Every returning call of `Spark.getNewSpark` is of one of three kinds: an
append, the reuse of a slot that was inactive or non-important, or `null`
with the pool as it was. -/
theorem Spark.getNewSpark_inv (cap : Nat) (pool : Pool) (a : SparkArgs)
    (r : Option Spark) (pool' : Pool)
    (h : Spark.getNewSpark cap pool a = .ok (r, pool')) :
    (pool.sparks.length < cap ∧
      r = some (Spark.ofArgs a pool.sparks.length identity4) ∧
      pool' = { pool with
        sparks := pool.sparks ++ [Spark.ofArgs a pool.sparks.length identity4] }) ∨
    (cap ≤ pool.sparks.length ∧ ∃ c s0, pool.sparks[c]? = some s0 ∧
      (s0.isActive = false ∨ s0.isImportant = false) ∧
      r = some (Spark.ofArgs a c identity4) ∧
      pool' = { sparks := pool.sparks.set c (Spark.ofArgs a c identity4),
                lastInactiveSpark := c }) ∨
    (cap ≤ pool.sparks.length ∧ r = none ∧ pool' = pool) := by
  by_cases hlt : pool.sparks.length < cap
  · left
    simp only [Spark.getNewSpark, hlt, if_true, Spark.new_append cap pool a hlt,
      Res.ok_bind, Res.ok.injEq, Prod.mk.injEq] at h
    exact ⟨hlt, h.1.symm, h.2.symm⟩
  · right
    have hle : cap ≤ pool.sparks.length := Nat.le_of_not_lt hlt
    simp only [Spark.getNewSpark, hlt, if_false] at h
    cases h1 : Spark.scan cap pool.sparks (fun s => s.isActive == false)
        pool.lastInactiveSpark cap ((pool.lastInactiveSpark + 1) % cap) with
    | throw m => simp only [h1, Res.throw_bind, reduceCtorEq] at h
    | diverge => simp only [h1, Res.diverge_bind, reduceCtorEq] at h
    | ok res1 =>
      obtain ⟨c1, found1⟩ := res1
      have hs1 := Spark.scan_sound _ _ _ _ _ _ _ _ h1
      simp only [h1, Res.ok_bind] at h
      cases found1 with
      | true =>
        obtain ⟨s0, hs0, hp0⟩ := hs1.1 rfl
        have hc : c1 < pool.sparks.length := (List.getElem?_eq_some.mp hs0).1
        have hnew := Spark.new_replace cap { pool with lastInactiveSpark := c1 } a c1 hc
        simp only [if_true, hnew, Res.ok_bind, Res.ok.injEq, Prod.mk.injEq] at h
        left
        exact ⟨hle, c1, s0, hs0, Or.inl (by simpa using hp0), h.1.symm, h.2.symm⟩
      | false =>
        have hc1 : c1 = pool.lastInactiveSpark := hs1.2 rfl
        subst hc1
        simp only [Bool.false_eq_true, if_false] at h
        cases h2 : Spark.scan cap pool.sparks (fun s => s.isImportant == false)
            pool.lastInactiveSpark cap ((pool.lastInactiveSpark + 1) % cap) with
        | throw m => simp only [h2, Res.throw_bind, reduceCtorEq] at h
        | diverge => simp only [h2, Res.diverge_bind, reduceCtorEq] at h
        | ok res2 =>
          obtain ⟨c2, found2⟩ := res2
          have hs2 := Spark.scan_sound _ _ _ _ _ _ _ _ h2
          simp only [h2, Res.ok_bind] at h
          cases found2 with
          | true =>
            obtain ⟨s0, hs0, hp0⟩ := hs2.1 rfl
            have hc : c2 < pool.sparks.length := (List.getElem?_eq_some.mp hs0).1
            have hnew := Spark.new_replace cap { pool with lastInactiveSpark := c2 } a c2 hc
            simp only [if_true, hnew, Res.ok_bind, Res.ok.injEq, Prod.mk.injEq] at h
            left
            exact ⟨hle, c2, s0, hs0, Or.inr (by simpa using hp0), h.1.symm, h.2.symm⟩
          | false =>
            have hc2 : c2 = pool.lastInactiveSpark := hs2.2 rfl
            subst hc2
            simp only [Bool.false_eq_true, if_false, Res.ok.injEq, Prod.mk.injEq] at h
            right
            exact ⟨hle, h.1.symm, h.2.symm⟩

/-- A scan whose cursor is on the cycle leading to `end_` returns. -/
theorem Spark.scan_total (cap : Nat) (sparks : List Spark) (pred : Spark → Bool)
    (end_ : Nat) (hlen : sparks.length = cap) (n : Nat) : ∀ fuel cursor, n ≤ fuel →
    cursor < cap → (cursor + n) % cap = end_ →
    ∃ c found, Spark.scan cap sparks pred end_ fuel cursor = .ok (c, found) := by
  induction n with
  | zero =>
    intro fuel cursor _ hc hend
    rw [Nat.add_zero, Nat.mod_eq_of_lt hc] at hend
    rw [Spark.scan_unfold]
    exact ⟨cursor, false, by simp [hend]⟩
  | succ n ih =>
    intro fuel cursor hf hc hend
    obtain ⟨fuel, rfl⟩ : ∃ f, fuel = f + 1 := ⟨fuel - 1, by omega⟩
    rw [Spark.scan_unfold]
    by_cases hce : cursor = end_
    · exact ⟨cursor, false, by simp [hce]⟩
    · have hlt : cursor < sparks.length := hlen ▸ hc
      simp only [hce, if_false, List.getElem?_eq_getElem hlt]
      by_cases hp : pred sparks[cursor] = true
      · exact ⟨cursor, true, by simp [hp]⟩
      · simp only [hp, if_false]
        exact ih fuel ((cursor + 1) % cap) (by omega) (Nat.mod_lt _ (by omega))
          (by rw [Nat.mod_add_mod, Nat.add_assoc, Nat.add_comm 1 n]; exact hend)

/-- On a pool within its capacity whose cursor is below the capacity,
`Spark.getNewSpark` returns: it neither throws nor loops for ever. -/
theorem Spark.getNewSpark_total (cap : Nat) (pool : Pool) (a : SparkArgs)
    (hlen : pool.sparks.length ≤ cap) (he : pool.lastInactiveSpark < cap) :
    ∃ r pool', Spark.getNewSpark cap pool a = .ok (r, pool') := by
  by_cases hlt : pool.sparks.length < cap
  · simp only [Spark.getNewSpark, hlt, if_true, Spark.new_append cap pool a hlt,
      Res.ok_bind]
    exact ⟨_, _, rfl⟩
  · have hfull : pool.sparks.length = cap := by omega
    have hcyc : ((pool.lastInactiveSpark + 1) % cap + (cap - 1)) % cap
        = pool.lastInactiveSpark := by
      rw [offset_shift, show cap - 1 + 1 = cap by omega, Nat.add_mod_right,
        Nat.mod_eq_of_lt he]
    obtain ⟨c1, found1, h1⟩ := Spark.scan_total cap pool.sparks
      (fun s => s.isActive == false) pool.lastInactiveSpark hfull (cap - 1) cap
      ((pool.lastInactiveSpark + 1) % cap) (by omega) (offset_lt _ 1 cap he) hcyc
    have hs1 := Spark.scan_sound _ _ _ _ _ _ _ _ h1
    simp only [Spark.getNewSpark, hlt, if_false, h1, Res.ok_bind]
    cases found1 with
    | true =>
      obtain ⟨s0, hs0, _⟩ := hs1.1 rfl
      have hc : c1 < pool.sparks.length := (List.getElem?_eq_some.mp hs0).1
      have hnew := Spark.new_replace cap { pool with lastInactiveSpark := c1 } a c1 hc
      simp only [if_true, hnew, Res.ok_bind]
      exact ⟨_, _, rfl⟩
    | false =>
      have hc1 : c1 = pool.lastInactiveSpark := hs1.2 rfl
      subst hc1
      obtain ⟨c2, found2, h2⟩ := Spark.scan_total cap pool.sparks
        (fun s => s.isImportant == false) pool.lastInactiveSpark hfull (cap - 1) cap
        ((pool.lastInactiveSpark + 1) % cap) (by omega) (offset_lt _ 1 cap he) hcyc
      have hs2 := Spark.scan_sound _ _ _ _ _ _ _ _ h2
      simp only [Bool.false_eq_true, if_false, h2, Res.ok_bind]
      cases found2 with
      | true =>
        obtain ⟨s0, hs0, _⟩ := hs2.1 rfl
        have hc : c2 < pool.sparks.length := (List.getElem?_eq_some.mp hs0).1
        have hnew := Spark.new_replace cap { pool with lastInactiveSpark := c2 } a c2 hc
        simp only [if_true, hnew, Res.ok_bind]
        exact ⟨_, _, rfl⟩
      | false =>
        simp only [Bool.false_eq_true, if_false]
        exact ⟨_, _, rfl⟩

/-! ## Theorems: the fuel of the scans is enough -/

/-- More fuel does not change the outcome of a scan that returns or throws. -/
theorem Spark.scan_fuel_mono (MAX : Nat) (sparks : List Spark) (pred : Spark → Bool)
    (end_ : Nat) : ∀ fuel cursor k,
    Spark.scan MAX sparks pred end_ fuel cursor ≠ .diverge →
    Spark.scan MAX sparks pred end_ (fuel + k) cursor
      = Spark.scan MAX sparks pred end_ fuel cursor := by
  intro fuel
  induction fuel with
  | zero =>
    intro cursor k h
    rw [Spark.scan_unfold] at h ⊢
    by_cases hc : cursor = end_
    · simp [hc, Spark.scan_unfold]
    · simp [hc] at h
  | succ fuel ih =>
    intro cursor k h
    rw [show fuel + 1 + k = (fuel + k) + 1 by omega]
    rw [Spark.scan_unfold] at h
    rw [Spark.scan_unfold, Spark.scan_unfold MAX sparks pred end_ (fuel + 1)]
    by_cases hc : cursor = end_
    · simp [hc]
    · simp only [hc, if_false] at h ⊢
      cases hs : sparks[cursor]? with
      | none => rfl
      | some s =>
        simp only [hs] at h ⊢
        by_cases hp : pred s = true
        · simp [hp]
        · simp only [hp, if_false] at h ⊢
          exact ih _ k h

/-- A scan that runs out of fuel has met neither the end of the loop nor a
slot to return in any of its iterations. -/
theorem Spark.scan_diverge_steps (MAX : Nat) (sparks : List Spark) (pred : Spark → Bool)
    (end_ : Nat) : ∀ fuel cursor, cursor < MAX →
    Spark.scan MAX sparks pred end_ fuel cursor = .diverge →
    ∀ j, j < fuel → (cursor + j) % MAX ≠ end_ ∧
      ∃ s, sparks[(cursor + j) % MAX]? = some s ∧ pred s = false := by
  intro fuel
  induction fuel with
  | zero => intro cursor _ _ j hj; omega
  | succ fuel ih =>
    intro cursor hc h j hj
    rw [Spark.scan_unfold] at h
    by_cases hce : cursor = end_
    · simp [hce] at h
    · simp only [hce, if_false] at h
      cases hs : sparks[cursor]? with
      | none => simp [hs] at h
      | some s =>
        simp only [hs] at h
        by_cases hp : pred s = true
        · simp [hp] at h
        · simp only [hp, if_false] at h
          cases j with
          | zero =>
            rw [Nat.add_zero, Nat.mod_eq_of_lt hc]
            exact ⟨hce, s, hs, by simpa using hp⟩
          | succ j =>
            have := ih ((cursor + 1) % MAX) (Nat.mod_lt _ (by omega)) h j (by omega)
            rwa [Nat.mod_add_mod, Nat.add_assoc, Nat.add_comm 1 j] at this

/-- The cursor of a scan cycles with period `MAX`: with a cursor below `MAX`,
`MAX` iterations decide the outcome, and a scan that has not ended by then
never ends. -/
theorem Spark.scan_fuel_adequate (MAX : Nat) (sparks : List Spark) (pred : Spark → Bool)
    (end_ cursor : Nat) (hc : cursor < MAX) (fuel : Nat) (hf : MAX ≤ fuel) :
    Spark.scan MAX sparks pred end_ fuel cursor
      = Spark.scan MAX sparks pred end_ MAX cursor := by
  by_cases hd : Spark.scan MAX sparks pred end_ MAX cursor = .diverge
  · rw [hd]
    have hsteps := Spark.scan_diverge_steps MAX sparks pred end_ MAX cursor hc hd
    have hall : ∀ j, (cursor + j) % MAX ≠ end_ ∧
        ∃ s, sparks[(cursor + j) % MAX]? = some s ∧ pred s = false := by
      intro j
      have hj := hsteps (j % MAX) (Nat.mod_lt _ (by omega))
      rwa [Nat.add_mod_mod] at hj
    rw [Spark.scan_steps MAX sparks pred end_ fuel fuel cursor (Nat.le_refl _) hc
      (fun j _ => hall j), Nat.sub_self, Spark.scan_unfold]
    simp [(hall fuel).1]
  · obtain ⟨k, rfl⟩ : ∃ k, fuel = MAX + k := ⟨fuel - MAX, by omega⟩
    exact Spark.scan_fuel_mono MAX sparks pred end_ MAX cursor k hd

/-! ## Theorems: the allocation policy of the pool -/

theorem Spark.isImportant_iff (s : Spark) :
    s.isImportant = true ↔
      (s.type = Spark.types.ROCKET ∨ s.type = Spark.types.SHELL ∨
        s.type = Spark.types.POP_SHELL) := by
  unfold Spark.isImportant
  split_ifs <;> simp_all

theorem Spark.isActive_iff (s : Spark) : s.isActive = true ↔ s.time > 0 := by
  simp [Spark.isActive]

theorem Spark.isActive_eq_false_iff (s : Spark) : s.isActive = false ↔ s.time ≤ 0 := by
  simp [Spark.isActive]

/-- C2 (evaluation at the failing input).  Capacity 3, cursor 0; slot 0, a
Spark (type 3) with `time = 0`, is the one inactive slot and is non-important,
slots 1 and 2 hold live Sparks.  The call for an Ember (type 1) does not look
at slot 0: it overwrites the live particle of slot 1 and leaves the inactive
slot 0 as it was. -/
theorem getNewSpark_skips_inactive_slot_under_cursor :
    (Pool.three 3 3 3 0 1 1).sparks.map Spark.isActive = [false, true, true] ∧
    (Pool.three 3 3 3 0 1 1).sparks.map Spark.isImportant = [false, false, false] ∧
    Spark.getNewSpark 3 (Pool.three 3 3 3 0 1 1) (SparkArgs.sample 1 2) =
      .ok (some (Spark.ofArgs (SparkArgs.sample 1 2) 1 identity4),
        { sparks := [Spark.ofArgs (SparkArgs.sample 3 0) 0 identity4,
                     Spark.ofArgs (SparkArgs.sample 1 2) 1 identity4,
                     Spark.ofArgs (SparkArgs.sample 3 1) 2 identity4],
          lastInactiveSpark := 1 }) := by
  decide

/-- C3 (evaluation at the failing input).  Capacity 3, cursor 0; slot 0, a
Spark (type 3) with `time = 0`, is inactive and non-important, slots 1 and 2
hold live Rockets (type 0).  The call returns `null` although slot 0 could be
reused. -/
theorem getNewSpark_null_despite_reusable_slot :
    (Pool.three 3 0 0 0 1 1).sparks.map Spark.isActive = [false, true, true] ∧
    (Pool.three 3 0 0 0 1 1).sparks.map Spark.isImportant = [false, true, true] ∧
    Spark.getNewSpark 3 (Pool.three 3 0 0 0 1 1) (SparkArgs.sample 1 2)
      = .ok (none, Pool.three 3 0 0 0 1 1) := by
  decide

/-- C4.  In a full pool whose slots are all active (`time > 0`) and important
(type Rocket, Shell or PopShell), `Spark.getNewSpark` returns `null` without
throwing, and every slot and the cursor are as before. -/
theorem getNewSpark_full_important_returns_null (cap : Nat) (pool : Pool) (a : SparkArgs)
    (hlen : pool.sparks.length = cap) (he : pool.lastInactiveSpark < cap)
    (hall : ∀ s ∈ pool.sparks, s.time > 0 ∧
      (s.type = Spark.types.ROCKET ∨ s.type = Spark.types.SHELL ∨
        s.type = Spark.types.POP_SHELL)) :
    Spark.getNewSpark cap pool a = .ok (none, pool) :=
  Spark.getNewSpark_null cap pool a hlen he
    (fun _ _ _ t ht => (Spark.isActive_iff t).mpr (hall t (List.getElem?_mem ht)).1)
    (fun _ _ _ t ht => (Spark.isImportant_iff t).mpr (hall t (List.getElem?_mem ht)).2)

theorem getNewSpark_full_important_returns_null_witness :
    (Pool.three 0 2 4 1 1 1).sparks.length = 3 ∧
    (Pool.three 0 2 4 1 1 1).lastInactiveSpark < 3 ∧
    Spark.getNewSpark 3 (Pool.three 0 2 4 1 1 1) (SparkArgs.sample 3 1)
      = .ok (none, Pool.three 0 2 4 1 1 1) :=
  ⟨by decide, by decide,
    getNewSpark_full_important_returns_null 3 (Pool.three 0 2 4 1 1 1)
      (SparkArgs.sample 3 1) (by decide) (by decide) (by decide)⟩

/-- C5.  In a full pool, if slot `(cursor + k) mod capacity` (with
`1 ≤ k < capacity`) is inactive and the slots `(cursor + j) mod capacity`,
`1 ≤ j < k`, are active, then `Spark.getNewSpark` returns the new particle with
that slot as its index, stores it there, leaves the other slots alone and
moves the cursor to that slot. -/
theorem getNewSpark_reuses_first_inactive (cap : Nat) (pool : Pool) (a : SparkArgs)
    (k : Nat) (s : Spark) (hlen : pool.sparks.length = cap)
    (he : pool.lastInactiveSpark < cap) (hk1 : 1 ≤ k) (hk : k < cap)
    (hbefore : ∀ j, 1 ≤ j → j < k → ∀ t,
      pool.sparks[(pool.lastInactiveSpark + j) % cap]? = some t → t.time > 0)
    (hs : pool.sparks[(pool.lastInactiveSpark + k) % cap]? = some s)
    (hin : s.time ≤ 0) :
    Spark.getNewSpark cap pool a =
      .ok (some (Spark.ofArgs a ((pool.lastInactiveSpark + k) % cap) identity4),
        { sparks := pool.sparks.set ((pool.lastInactiveSpark + k) % cap)
            (Spark.ofArgs a ((pool.lastInactiveSpark + k) % cap) identity4),
          lastInactiveSpark := (pool.lastInactiveSpark + k) % cap }) :=
  Spark.getNewSpark_inactive cap pool a k s hlen he hk1 hk
    (fun j h1 h2 t ht => (Spark.isActive_iff t).mpr (hbefore j h1 h2 t ht)) hs
    ((Spark.isActive_eq_false_iff s).mpr hin)

/-- The scenario of C5: capacity 3, three Sparks spawned into the empty pool,
slot 1 aged to `time = 0`; the fourth spawn occupies slot 1. -/
theorem getNewSpark_reuses_first_inactive_witness :
    Spark.spawnAll 3 Pool.empty
        [SparkArgs.sample 3 1, SparkArgs.sample 3 1, SparkArgs.sample 3 1]
      = .ok (Pool.three 3 3 3 1 1 1) ∧
    (Pool.three 3 3 3 1 1 1).setTime 1 0 = Pool.three 3 3 3 1 0 1 ∧
    Spark.getNewSpark 3 (Pool.three 3 3 3 1 0 1) (SparkArgs.sample 1 2) =
      .ok (some (Spark.ofArgs (SparkArgs.sample 1 2) 1 identity4),
        { sparks := (Pool.three 3 3 3 1 0 1).sparks.set 1
            (Spark.ofArgs (SparkArgs.sample 1 2) 1 identity4),
          lastInactiveSpark := 1 }) :=
  ⟨by decide, by decide,
    getNewSpark_reuses_first_inactive 3 (Pool.three 3 3 3 1 0 1) (SparkArgs.sample 1 2) 1
      (Spark.ofArgs (SparkArgs.sample 3 0) 1 identity4) (by decide) (by decide)
      (by decide) (by decide) (fun j h1 h2 => by omega) (by decide) (by decide)⟩

/-- C6.  A returning call of `Spark.getNewSpark`, on any pool, leaves every
slot that holds an active particle of type Rocket, Shell or PopShell as it
was, so a slot whose content changes was inactive or non-important; and on a
pool within its capacity whose cursor is below the capacity the call does
return. -/
theorem getNewSpark_protects_active_important (cap : Nat) (pool : Pool) (a : SparkArgs) :
    (∀ r pool', Spark.getNewSpark cap pool a = .ok (r, pool') →
      ∀ (i : Nat) (s : Spark), pool.sparks[i]? = some s →
        ((s.time > 0 ∧ (s.type = Spark.types.ROCKET ∨ s.type = Spark.types.SHELL ∨
            s.type = Spark.types.POP_SHELL)) → pool'.sparks[i]? = some s) ∧
        (pool'.sparks[i]? ≠ some s → s.isActive = false ∨ s.isImportant = false)) ∧
    (pool.sparks.length ≤ cap → pool.lastInactiveSpark < cap →
      ∃ r pool', Spark.getNewSpark cap pool a = .ok (r, pool')) := by
  refine ⟨?_, Spark.getNewSpark_total cap pool a⟩
  intro r pool' h i s hs
  have key : pool'.sparks[i]? ≠ some s → s.isActive = false ∨ s.isImportant = false := by
    intro hne
    rcases Spark.getNewSpark_inv cap pool a r pool' h with
      ⟨_, _, hp⟩ | ⟨_, c, s0, hs0, hor, _, hp⟩ | ⟨_, _, hp⟩
    · exfalso
      apply hne
      rw [hp]
      have hi : i < pool.sparks.length := (List.getElem?_eq_some.mp hs).1
      simpa [List.getElem?_append_left hi] using hs
    · by_cases hci : c = i
      · subst hci
        rw [hs0] at hs
        cases hs
        exact hor
      · exfalso
        apply hne
        rw [hp]
        simpa [List.getElem?_set_ne hci] using hs
    · exact absurd (hp ▸ hs) hne
  refine ⟨?_, key⟩
  rintro ⟨hact, himp⟩
  by_contra hne
  rcases key hne with h1 | h1
  · rw [(Spark.isActive_iff s).mpr hact] at h1
    cases h1
  · rw [(Spark.isImportant_iff s).mpr himp] at h1
    cases h1

theorem getNewSpark_protects_active_important_witness :
    Spark.getNewSpark 3 (Pool.three 0 3 3 1 1 1) (SparkArgs.sample 1 2) =
      .ok (some (Spark.ofArgs (SparkArgs.sample 1 2) 1 identity4),
        { sparks := (Pool.three 0 3 3 1 1 1).sparks.set 1
            (Spark.ofArgs (SparkArgs.sample 1 2) 1 identity4),
          lastInactiveSpark := 1 }) ∧
    ((Pool.three 0 3 3 1 1 1).sparks.set 1
        (Spark.ofArgs (SparkArgs.sample 1 2) 1 identity4))[0]?
      = some (Spark.ofArgs (SparkArgs.sample 0 1) 0 identity4) :=
  ⟨by decide,
    (((getNewSpark_protects_active_important 3 (Pool.three 0 3 3 1 1 1)
      (SparkArgs.sample 1 2)).1 (some (Spark.ofArgs (SparkArgs.sample 1 2) 1 identity4))
      { sparks := (Pool.three 0 3 3 1 1 1).sparks.set 1
          (Spark.ofArgs (SparkArgs.sample 1 2) 1 identity4),
        lastInactiveSpark := 1 } (by decide) 0
      (Spark.ofArgs (SparkArgs.sample 0 1) 0 identity4) (by decide)).1
      ⟨by decide, Or.inl (by decide)⟩)⟩

/-- C7.  On a full pool, a call of `Spark.getNewSpark` that returns a particle
leaves the cursor on the reused slot `i`, the pool full, and the next call
begins at slot `(i+1) mod capacity`: if that slot is inactive the next call
reuses it.  When all slots are inactive (capacity at least 2), two consecutive
calls reuse the slots `(cursor+1) mod capacity` and the one after it, which are
different. -/
theorem getNewSpark_scan_resumes (cap : Nat) (pool : Pool) (a b : SparkArgs)
    (hlen : pool.sparks.length = cap) (he : pool.lastInactiveSpark < cap) :
    (∀ sp pool', Spark.getNewSpark cap pool a = .ok (some sp, pool') →
      pool'.lastInactiveSpark = sp.id ∧ pool'.sparks.length = cap ∧ sp.id < cap ∧
      pool'.sparks[sp.id]? = some sp ∧
      (∀ t, 2 ≤ cap → pool'.sparks[(sp.id + 1) % cap]? = some t → t.time ≤ 0 →
        Spark.getNewSpark cap pool' b =
          .ok (some (Spark.ofArgs b ((sp.id + 1) % cap) identity4),
            { sparks := pool'.sparks.set ((sp.id + 1) % cap)
                (Spark.ofArgs b ((sp.id + 1) % cap) identity4),
              lastInactiveSpark := (sp.id + 1) % cap }))) ∧
    (2 ≤ cap → (∀ s ∈ pool.sparks, s.time ≤ 0) →
      ∃ s1 pool1 s2 pool2,
        Spark.getNewSpark cap pool a = .ok (some s1, pool1) ∧
        Spark.getNewSpark cap pool1 b = .ok (some s2, pool2) ∧
        s1.id = (pool.lastInactiveSpark + 1) % cap ∧
        s2.id = (s1.id + 1) % cap ∧ s2.id ≠ s1.id ∧
        pool1.sparks[s1.id]? = some s1 ∧ pool2.sparks[s2.id]? = some s2) := by
  have part1 : ∀ sp pool', Spark.getNewSpark cap pool a = .ok (some sp, pool') →
      pool'.lastInactiveSpark = sp.id ∧ pool'.sparks.length = cap ∧ sp.id < cap ∧
      pool'.sparks[sp.id]? = some sp ∧
      (∀ t, 2 ≤ cap → pool'.sparks[(sp.id + 1) % cap]? = some t → t.time ≤ 0 →
        Spark.getNewSpark cap pool' b =
          .ok (some (Spark.ofArgs b ((sp.id + 1) % cap) identity4),
            { sparks := pool'.sparks.set ((sp.id + 1) % cap)
                (Spark.ofArgs b ((sp.id + 1) % cap) identity4),
              lastInactiveSpark := (sp.id + 1) % cap })) := by
    intro sp pool' h
    rcases Spark.getNewSpark_inv cap pool a _ pool' h with
      ⟨hlt, _, _⟩ | ⟨_, c, s0, hs0, _, hr, hp⟩ | ⟨_, hr, _⟩
    · omega
    · have hc : c < pool.sparks.length := (List.getElem?_eq_some.mp hs0).1
      have hsp : sp = Spark.ofArgs a c identity4 := Option.some.inj hr
      have hid : sp.id = c := by rw [hsp]; rfl
      have hlen' : pool'.sparks.length = cap := by rw [hp]; simpa using hlen
      have hcur : pool'.lastInactiveSpark = c := by rw [hp]
      refine ⟨by rw [hcur, hid], hlen', by omega, ?_, ?_⟩
      · rw [hid, hp, hsp]
        exact List.getElem?_set_self hc
      · intro t h2 ht htime
        have hcc : c < cap := by omega
        have := Spark.getNewSpark_inactive cap pool' b 1 t hlen' (by rw [hcur]; exact hcc)
          (by omega) (by omega) (fun j h1 h2 => by omega)
          (by rw [hcur, ← hid]; exact ht) ((Spark.isActive_eq_false_iff t).mpr htime)
        rw [hcur, ← hid] at this
        exact this
    · cases hr
  refine ⟨part1, ?_⟩
  intro h2 hall
  have hi1 : (pool.lastInactiveSpark + 1) % cap < pool.sparks.length :=
    hlen ▸ offset_lt _ 1 cap he
  have hfirst := Spark.getNewSpark_inactive cap pool a 1
    pool.sparks[(pool.lastInactiveSpark + 1) % cap] hlen he (by omega) (by omega)
    (fun j h1 h2 => by omega) (List.getElem?_eq_getElem hi1)
    ((Spark.isActive_eq_false_iff _).mpr (hall _ (List.getElem_mem _)))
  obtain ⟨hcur, hlen', hidlt, hget, hnext⟩ := part1 _ _ hfirst
  have hid : (Spark.ofArgs a ((pool.lastInactiveSpark + 1) % cap) identity4).id
      = (pool.lastInactiveSpark + 1) % cap := rfl
  have hne : ((pool.lastInactiveSpark + 1) % cap + 1) % cap
      ≠ (pool.lastInactiveSpark + 1) % cap :=
    offset_ne_cursor _ 1 cap (offset_lt _ 1 cap he) (by omega) (by omega)
  have hi2 : ((pool.lastInactiveSpark + 1) % cap + 1) % cap < pool.sparks.length :=
    hlen ▸ Nat.mod_lt _ (by omega)
  have hslot : (pool.sparks.set ((pool.lastInactiveSpark + 1) % cap)
      (Spark.ofArgs a ((pool.lastInactiveSpark + 1) % cap) identity4))[
        ((pool.lastInactiveSpark + 1) % cap + 1) % cap]?
      = some pool.sparks[((pool.lastInactiveSpark + 1) % cap + 1) % cap] := by
    rw [List.getElem?_set_ne (Ne.symm hne)]
    exact List.getElem?_eq_getElem hi2
  have hsecond := hnext _ h2 (by rw [hid]; exact hslot) (hall _ (List.getElem_mem _))
  rw [hid] at hsecond
  refine ⟨_, _, _, _, hfirst, hsecond, rfl, rfl, hne, hget, ?_⟩
  show (List.set _ _ _)[_]? = _
  refine List.getElem?_set_self ?_
  rw [List.length_set]
  exact hi2

theorem getNewSpark_scan_resumes_witness :
    (Pool.three 3 3 3 0 0 0).sparks.length = 3 ∧
    (Pool.three 3 3 3 0 0 0).lastInactiveSpark < 3 ∧
    ∃ s1 pool1 s2 pool2,
      Spark.getNewSpark 3 (Pool.three 3 3 3 0 0 0) (SparkArgs.sample 1 2)
        = .ok (some s1, pool1) ∧
      Spark.getNewSpark 3 pool1 (SparkArgs.sample 1 2) = .ok (some s2, pool2) ∧
      s1.id = (0 + 1) % 3 ∧ s2.id = (s1.id + 1) % 3 ∧ s2.id ≠ s1.id ∧
      pool1.sparks[s1.id]? = some s1 ∧ pool2.sparks[s2.id]? = some s2 :=
  ⟨by decide, by decide,
    (getNewSpark_scan_resumes 3 (Pool.three 3 3 3 0 0 0) (SparkArgs.sample 1 2)
      (SparkArgs.sample 1 2) (by decide) (by decide)).2 (by decide) (by decide)⟩

/-- C8.  With fewer than `capacity` slots, `Spark.getNewSpark` appends: the
returned particle carries the given type, time, size, position, velocity,
colour, luminance and intensity and the index `count`, it is stored at index
`count`, the count grows by one, the existing slots and the cursor are
unchanged, whatever the existing slots hold. -/
theorem getNewSpark_appends (cap : Nat) (pool : Pool) (a : SparkArgs)
    (hlt : pool.sparks.length < cap) :
    ∃ sp pool', Spark.getNewSpark cap pool a = .ok (some sp, pool') ∧
      sp.id = pool.sparks.length ∧
      (sp.type = a.type ∧ sp.time = a.time ∧ sp.size = a.size ∧
        sp.x = a.x ∧ sp.y = a.y ∧ sp.z = a.z ∧
        sp.vx = a.vx ∧ sp.vy = a.vy ∧ sp.vz = a.vz ∧
        sp.r = a.r ∧ sp.g = a.g ∧ sp.b = a.b ∧ sp.lum = a.lum ∧ sp.insty = a.insty) ∧
      pool'.sparks = pool.sparks ++ [sp] ∧
      pool'.sparks.length = pool.sparks.length + 1 ∧
      pool'.sparks[pool.sparks.length]? = some sp ∧
      (∀ i, i < pool.sparks.length → pool'.sparks[i]? = pool.sparks[i]?) ∧
      pool'.lastInactiveSpark = pool.lastInactiveSpark := by
  refine ⟨Spark.ofArgs a pool.sparks.length identity4,
    { pool with sparks := pool.sparks ++ [Spark.ofArgs a pool.sparks.length identity4] },
    ?_, rfl, ?_, rfl, ?_, ?_, ?_, rfl⟩
  · simp only [Spark.getNewSpark, hlt, if_true, Spark.new_append cap pool a hlt,
      Res.ok_bind]
  · simp [Spark.ofArgs]
  · simp
  · simp
  · intro i hi
    exact List.getElem?_append_left hi

theorem getNewSpark_appends_witness :
    (Pool.empty.sparks.length < 3) ∧
    ∃ sp pool', Spark.getNewSpark 3 Pool.empty (SparkArgs.sample 0 1) = .ok (some sp, pool') ∧
      sp.id = Pool.empty.sparks.length ∧
      (sp.type = (SparkArgs.sample 0 1).type ∧ sp.time = (SparkArgs.sample 0 1).time ∧
        sp.size = (SparkArgs.sample 0 1).size ∧
        sp.x = (SparkArgs.sample 0 1).x ∧ sp.y = (SparkArgs.sample 0 1).y ∧
        sp.z = (SparkArgs.sample 0 1).z ∧
        sp.vx = (SparkArgs.sample 0 1).vx ∧ sp.vy = (SparkArgs.sample 0 1).vy ∧
        sp.vz = (SparkArgs.sample 0 1).vz ∧
        sp.r = (SparkArgs.sample 0 1).r ∧ sp.g = (SparkArgs.sample 0 1).g ∧
        sp.b = (SparkArgs.sample 0 1).b ∧ sp.lum = (SparkArgs.sample 0 1).lum ∧
        sp.insty = (SparkArgs.sample 0 1).insty) ∧
      pool'.sparks = Pool.empty.sparks ++ [sp] ∧
      pool'.sparks.length = Pool.empty.sparks.length + 1 ∧
      pool'.sparks[Pool.empty.sparks.length]? = some sp ∧
      (∀ i, i < Pool.empty.sparks.length → pool'.sparks[i]? = Pool.empty.sparks[i]?) ∧
      pool'.lastInactiveSpark = Pool.empty.lastInactiveSpark :=
  ⟨by decide, getNewSpark_appends 3 Pool.empty (SparkArgs.sample 0 1) (by decide)⟩

/-! ## Theorems: loops -/

theorem forLoop_self {σ : Type} (lo : Nat) (init : σ) (body : Nat → σ → σ) :
    forLoop lo lo init body = init := by
  simp [forLoop]

theorem forLoop_succ {σ : Type} (lo hi : Nat) (h : lo ≤ hi) (init : σ)
    (body : Nat → σ → σ) :
    forLoop lo (hi + 1) init body = body hi (forLoop lo hi init body) := by
  unfold forLoop
  rw [show hi + 1 - lo = (hi - lo) + 1 by omega, List.range'_concat, List.foldl_append]
  simp only [List.foldl_cons, List.foldl_nil, Nat.one_mul]
  rw [show lo + (hi - lo) = hi by omega]

/-- Loop invariants for `forLoop`. -/
theorem forLoop_inv {σ : Type} (P : Nat → σ → Prop) (lo hi : Nat) (h : lo ≤ hi) (init : σ)
    (body : Nat → σ → σ) (h0 : P lo init)
    (hstep : ∀ i s, lo ≤ i → i < hi → P i s → P (i + 1) (body i s)) :
    P hi (forLoop lo hi init body) := by
  induction hi, h using Nat.le_induction with
  | base => rw [forLoop_self]; exact h0
  | succ n hn ih =>
    rw [forLoop_succ lo n hn]
    exact hstep n _ hn (by omega) (ih fun i s h1 h2 => hstep i s h1 (by omega))

theorem Res.bind_assoc {α β γ : Type} (x : Res α) (f : α → Res β) (g : β → Res γ) :
    (x.bind f).bind g = x.bind fun a => (f a).bind g := by
  cases x <;> rfl

theorem foldlM_concat {σ β : Type} (f : σ → β → Res σ) (l : List β) (x : β) :
    ∀ init, List.foldlM f init (l ++ [x]) = (List.foldlM f init l).bind fun s => f s x := by
  induction l with
  | nil =>
    intro init
    show (f init x).bind (fun s' => Res.ok s') = f init x
    cases f init x <;> rfl
  | cons y l ih =>
    intro init
    show (f init y).bind _ = ((f init y).bind _).bind _
    rw [Res.bind_assoc]
    congr 1
    funext s
    exact ih s

theorem forLoopM_self {σ : Type} (lo : Nat) (init : σ) (body : Nat → σ → Res σ) :
    forLoopM lo lo init body = .ok init := by
  simp [forLoopM]
  rfl

theorem forLoopM_succ {σ : Type} (lo hi : Nat) (h : lo ≤ hi) (init : σ)
    (body : Nat → σ → Res σ) :
    forLoopM lo (hi + 1) init body = (forLoopM lo hi init body).bind (body hi) := by
  unfold forLoopM
  rw [show hi + 1 - lo = (hi - lo) + 1 by omega, List.range'_concat, foldlM_concat]
  rw [Nat.one_mul, show lo + (hi - lo) = hi by omega]

/-- Loop invariants for `forLoopM`: if every iteration returns and keeps the
invariant, the loop returns and the invariant holds at its end. -/
theorem forLoopM_inv {σ : Type} (P : Nat → σ → Prop) (lo hi : Nat) (h : lo ≤ hi) (init : σ)
    (body : Nat → σ → Res σ) (h0 : P lo init)
    (hstep : ∀ i s, lo ≤ i → i < hi → P i s → ∃ s', body i s = .ok s' ∧ P (i + 1) s') :
    ∃ s', forLoopM lo hi init body = .ok s' ∧ P hi s' := by
  induction hi, h using Nat.le_induction with
  | base => exact ⟨init, forLoopM_self lo init body, h0⟩
  | succ n hn ih =>
    obtain ⟨s, hs, hP⟩ := ih fun i s h1 h2 => hstep i s h1 (by omega)
    obtain ⟨s', hs', hP'⟩ := hstep n s hn (by omega) hP
    exact ⟨s', by rw [forLoopM_succ lo n hn, hs, Res.ok_bind, hs'], hP'⟩

/-! ## Theorems: nested arrays -/

section ArrayLemmas

variable {α : Type}

theorem Shape.row_length {a : List (List α)} {r c : Nat} (h : Shape a r c) (i : Nat)
    (hi : i < r) : (a.getD i []).length = c := by
  have hlt : i < a.length := h.1 ▸ hi
  rw [List.getD_eq_getElem _ _ hlt]
  exact h.2 _ (List.getElem_mem hlt)

theorem Shape.set2 {a : List (List α)} {r c : Nat} (h : Shape a r c) (i j : Nat) (v : α) :
    Shape (set2 a i j v) r c := by
  refine ⟨by simp [Fireworks.set2, h.1], ?_⟩
  intro row hrow
  rcases List.mem_or_eq_of_mem_set hrow with hmem | heq
  · exact h.2 row hmem
  · by_cases hi : i < r
    · rw [heq, List.length_set]
      exact h.row_length i hi
    · have hlen : a.length ≤ i := by rw [h.1]; omega
      rw [Fireworks.set2, List.set_eq_of_length_le hlen] at hrow
      exact h.2 row hrow

theorem get2_set2 [Inhabited α] {a : List (List α)} {r c : Nat} (h : Shape a r c)
    (i j : Nat) (hi : i < r) (hj : j < c) (v : α) (i' j' : Nat) :
    get2 (set2 a i j v) i' j' = if i' = i ∧ j' = j then v else get2 a i' j' := by
  have hlt : i < a.length := h.1 ▸ hi
  have hrow : j < (a.getD i []).length := by rw [h.row_length i hi]; exact hj
  have e1 : (a.set i ((a.getD i []).set j v)).getD i [] = (a.getD i []).set j v := by
    rw [List.getD_eq_getElem?_getD, List.getElem?_set_self hlt]
    rfl
  have e2 : ((a.getD i []).set j v).getD j default = v := by
    rw [List.getD_eq_getElem?_getD, List.getElem?_set_self hrow]
    rfl
  unfold get2 Fireworks.set2
  by_cases h1 : i' = i
  · rw [h1, e1]
    by_cases h2 : j' = j
    · rw [h2, e2]
      simp
    · simp only [h2, and_false, if_false]
      rw [List.getD_eq_getElem?_getD, List.getElem?_set_ne (Ne.symm h2),
        ← List.getD_eq_getElem?_getD]
  · simp only [h1, false_and, if_false]
    congr 1
    rw [List.getD_eq_getElem?_getD, List.getElem?_set_ne (Ne.symm h1),
      ← List.getD_eq_getElem?_getD]

theorem Shape.tabulate2 (n m : Nat) (f : Nat → Nat → α) : Shape (tabulate2 n m f) n m := by
  refine ⟨by simp [Fireworks.tabulate2], ?_⟩
  intro row hrow
  simp only [Fireworks.tabulate2, List.mem_map] at hrow
  obtain ⟨_, _, rfl⟩ := hrow
  simp

theorem get2_tabulate2 [Inhabited α] (n m : Nat) (f : Nat → Nat → α) (r c : Nat)
    (hr : r < n) (hc : c < m) : get2 (tabulate2 n m f) r c = f r c := by
  have e1 : ((List.range n).map fun r => (List.range m).map fun c => f r c).getD r []
      = (List.range m).map fun c => f r c := by
    rw [List.getD_eq_getElem?_getD, List.getElem?_map, List.getElem?_range hr]
    rfl
  have e2 : ((List.range m).map fun c => f r c).getD c default = f r c := by
    rw [List.getD_eq_getElem?_getD, List.getElem?_map, List.getElem?_range hc]
    rfl
  unfold get2 Fireworks.tabulate2
  rw [e1, e2]

/-- Two nested arrays of the same shape with the same entries are equal. -/
theorem ext2 [Inhabited α] {a b : List (List α)} {r c : Nat} (ha : Shape a r c)
    (hb : Shape b r c) (h : ∀ i j, i < r → j < c → get2 a i j = get2 b i j) : a = b := by
  apply List.ext_getElem (by rw [ha.1, hb.1])
  intro i h1 h2
  have hi : i < r := ha.1 ▸ h1
  have la : a[i].length = c := ha.2 _ (List.getElem_mem h1)
  have lb : b[i].length = c := hb.2 _ (List.getElem_mem h2)
  apply List.ext_getElem (by rw [la, lb])
  intro j h3 h4
  have hj : j < c := la ▸ h3
  have := h i j hi hj
  unfold get2 at this
  rwa [List.getD_eq_getElem _ _ h1, List.getD_eq_getElem _ _ h2,
    List.getD_eq_getElem _ _ h3, List.getD_eq_getElem _ _ h4] at this

theorem tabulate2_get2 [Inhabited α] {a : List (List α)} {r c : Nat} (ha : Shape a r c) :
    tabulate2 r c (fun i j => get2 a i j) = a :=
  ext2 (Shape.tabulate2 r c _) ha fun i j hi hj => get2_tabulate2 r c _ i j hi hj

end ArrayLemmas

/-! ## Theorems: the `Matrix` constructor -/

section ConstructorLemmas

variable {α : Type} [Inhabited α]

/-- A flat array is rejected exactly when its length is not a perfect square. -/
theorem Matrix.new_flat_throw_iff (a : List α) (columnMajor : Bool) :
    Matrix.new (.flat a) columnMajor = .throw "Matrix must be square" ↔
      ¬ ∃ d, d * d = a.length := by
  rw [Nat.exists_mul_self]
  by_cases h : Nat.sqrt a.length * Nat.sqrt a.length = a.length
  · simp [Matrix.new, MatrixArray.multiDim, MatrixArray.length, h]
  · simp [Matrix.new, MatrixArray.multiDim, MatrixArray.length, h]

/-- A flat array whose length is a perfect square `d * d` is accepted and gives
a matrix of dimension `d`. -/
theorem Matrix.new_flat_ok (a : List α) (columnMajor : Bool) (d : Nat)
    (h : d * d = a.length) :
    ∃ M, Matrix.new (.flat a) columnMajor = .ok M ∧ M.getDim = d := by
  have hs : Nat.sqrt a.length = d := by rw [← h]; exact Nat.sqrt_eq d
  simp [Matrix.new, MatrixArray.multiDim, MatrixArray.length, hs, h, Matrix.getDim]

/-- A non-empty nested array is rejected exactly when its first row does not
have as many entries as the array has rows; the other rows are not looked at. -/
theorem Matrix.new_nested_throw_iff (first : List α) (rest : List (List α))
    (columnMajor : Bool) :
    Matrix.new (.nested (first :: rest)) columnMajor = .throw "Matrix must be square" ↔
      (first :: rest).length ≠ first.length := by
  by_cases h : rest.length + 1 = first.length
  · simp [Matrix.new, MatrixArray.multiDim, MatrixArray.length, MatrixArray.firstLength, h]
  · simp [Matrix.new, MatrixArray.multiDim, MatrixArray.length, MatrixArray.firstLength, h]

/-- On a nested array of `n` rows of `n` entries the constructor stores the
array as it is. -/
theorem Matrix.new_nested_square (a : List (List α)) (n : Nat) (h : Shape a n n) :
    Matrix.new (.nested a) false = .ok { dim := n, mat := a } := by
  cases a with
  | nil =>
    have hn : n = 0 := h.1.symm
    subst hn
    simp [Matrix.new, MatrixArray.multiDim, MatrixArray.length]
  | cons first rest =>
    have hlen : rest.length + 1 = n := h.1
    have hfirst : first.length = n := h.2 first (List.mem_cons_self _ _)
    have hcopy := tabulate2_get2 h
    unfold tabulate2 at hcopy
    simp only [Matrix.new, MatrixArray.multiDim, MatrixArray.length,
      MatrixArray.firstLength, List.length_cons, hlen, hfirst, MatrixArray.at2, hcopy]
    simp

end ConstructorLemmas

/-- C9 (evaluation at the failing input).  The ragged nested array
`[[1, 2], [3]]` has two rows, the second of length 1.  The constructor checks
the first row only: it returns a matrix of dimension 2 whose entry `[1][1]` is
`undefined` (`none`) instead of throwing "Matrix must be square". -/
theorem Matrix.new_accepts_ragged_rows :
    Matrix.new (.nested [[some (1 : ℚ), some 2], [some 3]]) false
      = .ok { dim := 2, mat := [[some 1, some 2], [some 3, none]] } := by
  decide

/-! ## Theorems: `getIdenity`, `getMultiArray`, `multiply` -/

section MultiplyLemmas

variable {α : Type} [Field α] [DecidableEq α] [Inhabited α]

theorem Matrix.getIdenity_eq (n : Nat) :
    (Matrix.getIdenity n : Res (Matrix α)) =
      .ok { dim := n, mat := tabulate2 n n fun r c => if c = r then (1 : α) else 0 } :=
  Matrix.new_nested_square _ n (Shape.tabulate2 n n _)

theorem Matrix.getMultiArray_false (M : Matrix α) (h : M.WF) :
    M.getMultiArray false = M.mat := by
  simp only [Matrix.getMultiArray, Bool.false_eq_true, if_false]
  exact tabulate2_get2 h

theorem Matrix.getMultiArray_false_eq (M : Matrix α) :
    M.getMultiArray false = tabulate2 M.dim M.dim fun r c => get2 M.mat r c := by
  simp only [Matrix.getMultiArray, Bool.false_eq_true, if_false, tabulate2]

theorem Matrix.getMultiArray_true_eq (M : Matrix α) :
    M.getMultiArray true = tabulate2 M.dim M.dim fun c r => get2 M.mat r c := by
  simp only [Matrix.getMultiArray, if_true, tabulate2]

/-- The accumulation loop of `dot` is the sum of the products. -/
theorem dot_eq_sum (dim : Nat) (matA matB : List (List α)) (row col : Nat) :
    dot dim matA matB row col =
      ∑ i ∈ Finset.range dim, get2 matA row i * get2 matB i col := by
  unfold dot
  exact forLoop_inv
    (fun k (s : α) => s = ∑ i ∈ Finset.range k, get2 matA row i * get2 matB i col)
    0 dim (Nat.zero_le _) 0 _ (by simp)
    (fun i s _ _ hs => by beta_reduce at hs ⊢; rw [Finset.sum_range_succ, hs])

theorem Matrix.multiply_eq (A B : Matrix α) (h : A.dim = B.dim) :
    A.multiply B = .ok { dim := A.dim, mat := tabulate2 A.dim A.dim (fun row col =>
      ∑ i ∈ Finset.range A.dim, get2 A.mat row i * get2 B.mat i col) } := by
  have hmap : (tabulate2 A.dim A.dim fun row col =>
        dot A.dim A.mat (B.getMultiArray false) row col)
      = tabulate2 A.dim A.dim fun row col =>
        ∑ i ∈ Finset.range A.dim, get2 A.mat row i * get2 B.mat i col := by
    apply ext2 (Shape.tabulate2 A.dim A.dim _) (Shape.tabulate2 A.dim A.dim _)
    intro i j hi hj
    rw [get2_tabulate2 _ _ _ _ _ hi hj, get2_tabulate2 _ _ _ _ _ hi hj, dot_eq_sum]
    apply Finset.sum_congr rfl
    intro k hk
    rw [Matrix.getMultiArray_false_eq, ← h,
      get2_tabulate2 _ _ _ _ _ (Finset.mem_range.mp hk) hj]
  simp only [Matrix.multiply, Matrix.getDim, h, ne_eq, not_true_eq_false, if_false]
  rw [← h]
  show Matrix.new (.nested (tabulate2 A.dim A.dim fun row col =>
    dot A.dim A.mat (B.getMultiArray false) row col)) false = _
  rw [hmap]
  exact Matrix.new_nested_square _ A.dim (Shape.tabulate2 _ _ _)

end MultiplyLemmas

/-- C10.  `A.multiply(B)` throws "Matrix dimensions do not match" exactly
when the dimensions differ; otherwise it returns a matrix of the same
dimension whose `(row, col)` entry is the sum over `i` of
`A[row][i] * B[i][col]`.  The embedding of `multiply` is a function of the two
matrices that returns a new one: the operands are not modified. -/
theorem Matrix.multiply_spec {α : Type} [Field α] [DecidableEq α] [Inhabited α]
    (A B : Matrix α) :
    (A.multiply B = .throw "Matrix dimensions do not match" ↔ A.getDim ≠ B.getDim) ∧
    (A.getDim = B.getDim →
      ∃ C : Matrix α, A.multiply B = .ok C ∧ C.getDim = A.getDim ∧ C.WF ∧
        ∀ row col, row < A.getDim → col < A.getDim →
          get2 C.mat row col =
            ∑ i ∈ Finset.range A.getDim, get2 A.mat row i * get2 B.mat i col) := by
  constructor
  · by_cases h : A.dim = B.dim
    · rw [Matrix.multiply_eq A B h]
      simp [Matrix.getDim, h]
    · simp [Matrix.multiply, Matrix.getDim, h]
  · intro h
    refine ⟨_, Matrix.multiply_eq A B h, rfl, Shape.tabulate2 _ _ _, ?_⟩
    intro row col hr hc
    exact get2_tabulate2 _ _ _ _ _ hr hc

theorem Matrix.multiply_spec_witness :
    (({ dim := 2, mat := [[1, 2], [3, 4]] } : Matrix ℚ).getDim
      = ({ dim := 2, mat := [[0, 1], [1, 0]] } : Matrix ℚ).getDim) ∧
    ∃ C : Matrix ℚ, ({ dim := 2, mat := [[1, 2], [3, 4]] } : Matrix ℚ).multiply
        { dim := 2, mat := [[0, 1], [1, 0]] } = .ok C ∧
      C.getDim = ({ dim := 2, mat := [[1, 2], [3, 4]] } : Matrix ℚ).getDim ∧ C.WF ∧
      ∀ row col, row < ({ dim := 2, mat := [[1, 2], [3, 4]] } : Matrix ℚ).getDim →
        col < ({ dim := 2, mat := [[1, 2], [3, 4]] } : Matrix ℚ).getDim →
        get2 C.mat row col =
          ∑ i ∈ Finset.range ({ dim := 2, mat := [[1, 2], [3, 4]] } : Matrix ℚ).getDim,
            get2 ([[1, 2], [3, 4]] : List (List ℚ)) row i *
              get2 ([[0, 1], [1, 0]] : List (List ℚ)) i col :=
  ⟨rfl, (Matrix.multiply_spec ({ dim := 2, mat := [[1, 2], [3, 4]] } : Matrix ℚ)
    ({ dim := 2, mat := [[0, 1], [1, 0]] } : Matrix ℚ)).2 rfl⟩

/-! ## Theorems: the submatrix loops of `determinant`, `minors`, `cofactors` -/

section FillLemmas

variable {α : Type} [Field α] [DecidableEq α] [Inhabited α]

theorem forLoop_congr {σ : Type} (lo hi : Nat) (init : σ) (f g : Nat → σ → σ)
    (h : ∀ i s, lo ≤ i → i < hi → f i s = g i s) :
    forLoop lo hi init f = forLoop lo hi init g := by
  by_cases hle : lo ≤ hi
  · induction hi, hle using Nat.le_induction with
    | base => rw [forLoop_self, forLoop_self]
    | succ n hn ih =>
      rw [forLoop_succ lo n hn, forLoop_succ lo n hn,
        ih fun i s h1 h2 => h i s h1 (by omega)]
      exact h n _ hn (by omega)
  · simp [forLoop, show hi - lo = 0 by omega]

theorem forLoop_peel {σ : Type} (lo hi : Nat) (hlt : lo < hi) (init : σ)
    (body : Nat → σ → σ) :
    forLoop lo hi init body = forLoop (lo + 1) hi (body lo init) body := by
  unfold forLoop
  obtain ⟨k, hk⟩ : ∃ k, hi - lo = k + 1 := ⟨hi - lo - 1, by omega⟩
  rw [hk, show hi - (lo + 1) = k by omega]
  rfl

/-- The inner loop of `subFill` for the source column `subCol`: column
`subMatCol` of `subMat` receives column `subCol` of `mat` without row `row`. -/
theorem subFill_inner (n m : Nat) (hn : n = m + 1) (mat subMat : List (List α))
    (row subCol subMatCol : Nat) (hrow : row < n) (hc : subMatCol < m)
    (hs : Shape subMat m m) :
    Shape (forLoop 0 n subMat fun subRow subMat =>
        if subRow = row then subMat
        else set2 subMat (if subRow < row then subRow else subRow - 1) subMatCol
          (get2 mat subRow subCol)) m m ∧
    ∀ i j, i < m → j < m →
      get2 (forLoop 0 n subMat fun subRow subMat =>
        if subRow = row then subMat
        else set2 subMat (if subRow < row then subRow else subRow - 1) subMatCol
          (get2 mat subRow subCol)) i j =
        if j = subMatCol then get2 mat (skipIdx row i) subCol else get2 subMat i j := by
  have key := forLoop_inv
    (fun r (d : List (List α)) => Shape d m m ∧ ∀ i j, i < m → j < m →
      get2 d i j = if j = subMatCol ∧ skipIdx row i < r
        then get2 mat (skipIdx row i) subCol else get2 subMat i j)
    0 n (Nat.zero_le _) subMat
    (fun subRow subMat =>
        if subRow = row then subMat
        else set2 subMat (if subRow < row then subRow else subRow - 1) subMatCol
          (get2 mat subRow subCol))
    ⟨hs, fun i j _ _ => by simp⟩
    (by
      intro r d _ hr ⟨hd, hget⟩
      by_cases hrr : r = row
      · simp only [hrr, if_true]
        refine ⟨hd, fun i j hi hj => ?_⟩
        rw [hget i j hi hj]
        have : skipIdx row i < row + 1 ↔ skipIdx row i < row := by
          unfold skipIdx; split_ifs <;> omega
        simp only [hrr, this]
      · simp only [hrr, if_false]
        have htgt : (if r < row then r else r - 1) < m := by split_ifs <;> omega
        refine ⟨hd.set2 _ _ _, fun i j hi hj => ?_⟩
        rw [get2_set2 hd _ _ htgt hc, hget i j hi hj]
        by_cases hj' : j = subMatCol
        · by_cases hi' : i = (if r < row then r else r - 1)
          · have e1 : skipIdx row i = r := by
              rw [hi']; unfold skipIdx; split_ifs <;> omega
            have e4 : r < r + 1 := Nat.lt_succ_self r
            rw [if_pos ⟨hi', hj'⟩, if_pos ⟨hj', by rw [e1]; exact e4⟩, e1]
          · have e2 : skipIdx row i ≠ r := by
              intro e; apply hi'; rw [← e]; unfold skipIdx; split_ifs <;> omega
            have e3 : skipIdx row i < r + 1 ↔ skipIdx row i < r := by omega
            simp only [hi', false_and, if_false, hj', true_and, e3]
        · simp only [hj', and_false, false_and, if_false])
  refine ⟨key.1, fun i j hi hj => ?_⟩
  rw [key.2 i j hi hj]
  have : skipIdx row i < n := by unfold skipIdx; split_ifs <;> omega
  simp only [this, and_true]

/-- After `subFill`, `subMat` is `mat` without row `row` and column `col`. -/
theorem subFill_spec (n m : Nat) (hn : n = m + 1) (mat subMat : List (List α))
    (row col : Nat) (hrow : row < n) (hcol : col < n) (hs : Shape subMat m m) :
    Shape (subFill n mat subMat row col) m m ∧
    ∀ i j, i < m → j < m →
      get2 (subFill n mat subMat row col) i j = get2 mat (skipIdx row i) (skipIdx col j) := by
  have key := forLoop_inv
    (fun k (d : List (List α)) => Shape d m m ∧ ∀ i j, i < m → j < m →
      skipIdx col j < k → get2 d i j = get2 mat (skipIdx row i) (skipIdx col j))
    0 n (Nat.zero_le _) subMat
    (fun subCol subMat =>
      if subCol = col then subMat
      else
        let subMatCol := if subCol < col then subCol else subCol - 1
        forLoop 0 n subMat fun subRow subMat =>
          if subRow = row then subMat
          else
            let subMatRow := if subRow < row then subRow else subRow - 1
            set2 subMat subMatRow subMatCol (get2 mat subRow subCol))
    ⟨hs, fun i j _ _ h => by omega⟩
    (by
      intro k d _ hk ⟨hd, hget⟩
      by_cases hkc : k = col
      · simp only [hkc, if_true]
        refine ⟨hd, fun i j hi hj hlt => hget i j hi hj ?_⟩
        have : skipIdx col j ≠ col := by unfold skipIdx; split_ifs <;> omega
        omega
      · simp only [hkc, if_false]
        have htgt : (if k < col then k else k - 1) < m := by split_ifs <;> omega
        have inner := subFill_inner n m hn mat d row k (if k < col then k else k - 1)
          hrow htgt hd
        refine ⟨inner.1, fun i j hi hj hlt => ?_⟩
        rw [inner.2 i j hi hj]
        by_cases hj' : j = (if k < col then k else k - 1)
        · have e1 : skipIdx col j = k := by
            rw [hj']; unfold skipIdx; split_ifs <;> omega
          simp only [hj', if_true]
          rw [← hj', e1]
        · have e2 : skipIdx col j ≠ k := by
            intro e; apply hj'; rw [← e]; unfold skipIdx; split_ifs <;> omega
          simp only [hj', if_false]
          exact hget i j hi hj (by omega))
  refine ⟨key.1, fun i j hi hj => key.2 i j hi hj ?_⟩
  unfold skipIdx; split_ifs <;> omega

/-- The loops of `determinant` fill `detMatArray` like `subFill` for row 0. -/
theorem detFill_eq_subFill (n : Nat) (mat d : List (List α)) (col : Nat) :
    detFill n mat d col = subFill n mat d 0 col := by
  unfold detFill subFill
  apply forLoop_congr
  intro subCol s _ _
  by_cases hc : subCol = col
  · simp only [hc, if_true]
  · simp only [hc, if_false]
    by_cases hn : 0 < n
    · rw [forLoop_peel 0 n hn]
      simp only [if_true, Nat.zero_add]
      apply forLoop_congr
      intro subRow t h1 _
      have h0 : subRow ≠ 0 := by omega
      simp only [h0, if_false, Nat.not_lt_zero]
    · have : n = 0 := by omega
      subst this
      simp [forLoop]

theorem detFill_spec (n m : Nat) (hn : n = m + 1) (mat d : List (List α))
    (col : Nat) (hcol : col < n) (hs : Shape d m m) :
    Shape (detFill n mat d col) m m ∧
    ∀ i j, i < m → j < m →
      get2 (detFill n mat d col) i j = get2 mat (i + 1) (skipIdx col j) := by
  rw [detFill_eq_subFill]
  have h := subFill_spec n m hn mat d 0 col (by omega) hcol hs
  refine ⟨h.1, fun i j hi hj => ?_⟩
  rw [h.2 i j hi hj]
  rfl

end FillLemmas

/-! ## Theorems: `determinant` -/

section DeterminantLemmas

variable {α : Type} [Field α] [DecidableEq α] [Inhabited α]

theorem val_succAbove_eq_skipIdx {m : Nat} (p : Fin (m + 1)) (i : Fin m) :
    (p.succAbove i).val = skipIdx p.val i.val := by
  unfold skipIdx
  by_cases h : i.castSucc < p
  · rw [Fin.succAbove_of_castSucc_lt p i h]
    have : i.val < p.val := h
    simp [this]
  · have hle : p ≤ i.castSucc := not_lt.mp h
    rw [Fin.succAbove_of_le_castSucc p i hle]
    have : ¬ i.val < p.val := fun hlt => h hlt
    simp [this]

/-- Deleting a row and a column of the array is `Matrix.submatrix` along
`Fin.succAbove`. -/
theorem subSq_eq_submatrix (m : Nat) (a : List (List α)) (r c : Fin (m + 1)) :
    subSq m a r.val c.val = (sqOf (m + 1) a).submatrix r.succAbove c.succAbove := by
  ext i j
  simp only [subSq, sqOf, Matrix.of_apply, Matrix.submatrix_apply,
    val_succAbove_eq_skipIdx]

theorem sign_eq_neg_one_pow (k : Nat) :
    (if k % 2 = 0 then (1 : α) else -1) = (-1) ^ k := by
  by_cases h : k % 2 = 0
  · rw [if_pos h, Even.neg_one_pow (Nat.even_iff.mpr h)]
  · rw [if_neg h, Odd.neg_one_pow (Nat.odd_iff.mpr (by omega))]

theorem Matrix.determinantFuel_unfold (fuel : Nat) (self : Matrix α) :
    Matrix.determinantFuel fuel self =
      if self.dim = 2 then
        .ok (get2 self.mat 0 0 * get2 self.mat 1 1 - get2 self.mat 0 1 * get2 self.mat 1 0)
      else if self.dim < 2 then
        .ok 0
      else
        match fuel with
        | 0 => .diverge
        | fuel + 1 =>
          (Matrix.getIdenity (self.dim - 1) : Res (Matrix α)).bind fun idm =>
            let detMatArray := idm.getMultiArray false
            (forLoopM 0 self.dim ((0 : α), detMatArray) fun col (result, detMatArray) =>
              let detMatArray := detFill self.dim self.mat detMatArray col
              let detSign : α := if col % 2 = 0 then 1 else -1
              (Matrix.new (.nested detMatArray) false).bind fun sub =>
                (Matrix.determinantFuel fuel sub).bind fun d =>
                  .ok (result + detSign * get2 self.mat 0 col * d, detMatArray)).bind
              fun (result, _) => .ok result := by
  cases fuel <;> rfl

/-- The Laplace expansion along the first row, with the sum over the column
numbers. -/
theorem det_eq_sum_range (m : Nat) (a : List (List α)) :
    (sqOf (m + 1) a).det =
      ∑ j ∈ Finset.range (m + 1), (-1) ^ j * get2 a 0 j * (subSq m a 0 j).det := by
  rw [Matrix.det_succ_row_zero, Finset.sum_range]
  apply Finset.sum_congr rfl
  intro j _
  have h := subSq_eq_submatrix m a 0 j
  have hsucc : (sqOf (m + 1) a).submatrix (Fin.succAbove 0) j.succAbove
      = (sqOf (m + 1) a).submatrix Fin.succ j.succAbove := by
    rw [Fin.succAbove_zero]
  rw [hsucc] at h
  rw [← h]
  rfl

/-- With enough fuel, `determinant()` returns 0 below dimension 2 and the
determinant of the matrix from dimension 2 on. -/
theorem Matrix.determinantFuel_eq : ∀ (fuel n : Nat) (a : List (List α)),
    Shape a n n → n ≤ fuel + 2 →
    Matrix.determinantFuel fuel { dim := n, mat := a } =
      .ok (if n < 2 then 0 else (sqOf n a).det) := by
  intro fuel
  induction fuel with
  | zero =>
    intro n a _ hn
    rw [Matrix.determinantFuel_unfold]
    by_cases h2 : n = 2
    · subst h2
      simp only [if_true, Matrix.det_fin_two]
      rfl
    · have : n < 2 := by omega
      simp only [h2, if_false, this, if_true]
  | succ fuel ih =>
    intro n a ha hn
    rw [Matrix.determinantFuel_unfold]
    by_cases h2 : n = 2
    · subst h2
      simp only [if_true, Matrix.det_fin_two]
      rfl
    · by_cases h1 : n < 2
      · simp only [h2, if_false, h1, if_true]
      · obtain ⟨m, rfl⟩ : ∃ m, n = m + 1 := ⟨n - 1, by omega⟩
        have hm : 2 ≤ m := by omega
        simp only [h2, if_false, h1, Nat.add_sub_cancel, Matrix.getIdenity_eq, Res.ok_bind]
        have hloop := forLoopM_inv
          (fun k (st : α × List (List α)) => Shape st.2 m m ∧
            st.1 = ∑ j ∈ Finset.range k, (-1) ^ j * get2 a 0 j * (subSq m a 0 j).det)
          0 (m + 1) (Nat.zero_le _)
          ((0 : α), ({ dim := m, mat := tabulate2 m m fun r c =>
            if c = r then (1 : α) else 0 } : Matrix α).getMultiArray false)
          (fun col (st : α × List (List α)) =>
            (Matrix.new (.nested (detFill (m + 1) a st.2 col)) false).bind fun sub =>
              (Matrix.determinantFuel fuel sub).bind fun d =>
                .ok (st.1 + (if col % 2 = 0 then 1 else -1) * get2 a 0 col * d,
                  detFill (m + 1) a st.2 col))
          ⟨by rw [Matrix.getMultiArray_false_eq]; exact Shape.tabulate2 _ _ _, by simp⟩
          (by
            intro k st _ hk ⟨hshape, hsum⟩
            have hfill := detFill_spec (m + 1) m rfl a st.2 k hk hshape
            have hdet := ih m (detFill (m + 1) a st.2 k) hfill.1 (by omega)
            have hsub : sqOf m (detFill (m + 1) a st.2 k) = subSq m a 0 k := by
              ext i j
              simp only [sqOf, subSq, Matrix.of_apply]
              rw [hfill.2 i j i.isLt j.isLt]
              rfl
            have hm2 : ¬ m < 2 := by omega
            rw [if_neg hm2, hsub] at hdet
            beta_reduce
            rw [Matrix.new_nested_square _ m hfill.1, Res.ok_bind, hdet, Res.ok_bind]
            refine ⟨_, rfl, hfill.1, ?_⟩
            show st.1 + _ = _
            rw [Finset.sum_range_succ, hsum, sign_eq_neg_one_pow])
        obtain ⟨st, hst, -, hres⟩ := hloop
        rw [det_eq_sum_range, ← hres]
        exact (congrArg (fun x => Res.bind x fun st => Res.ok st.1) hst).trans rfl

theorem Matrix.determinant_eq (n : Nat) (a : List (List α)) (ha : Shape a n n) :
    Matrix.determinant { dim := n, mat := a } =
      .ok (if n < 2 then 0 else (sqOf n a).det) :=
  Matrix.determinantFuel_eq n n a ha (by omega)

end DeterminantLemmas

/-! ## Theorems: `cofactors`, `scale`, `inverse` -/

section InverseLemmas

variable {α : Type} [Field α] [DecidableEq α] [Inhabited α]

/-- Two nested loops that write every entry of a square array. -/
theorem fillAll_eq (n : Nat) (init : List (List α)) (f : Nat → Nat → α)
    (h : Shape init n n) :
    (forLoop 0 n init fun row result =>
      forLoop 0 n result fun col result => set2 result row col (f row col))
      = tabulate2 n n f := by
  have key := forLoop_inv
    (fun row (d : List (List α)) => Shape d n n ∧
      ∀ i j, i < row → j < n → get2 d i j = f i j)
    0 n (Nat.zero_le _) init
    (fun row result => forLoop 0 n result fun col result => set2 result row col (f row col))
    ⟨h, fun i j hi _ => by omega⟩
    (by
      intro row d _ hrow ⟨hd, hget⟩
      have inner := forLoop_inv
        (fun col (e : List (List α)) => Shape e n n ∧
          (∀ i j, i < row → j < n → get2 e i j = f i j) ∧
          ∀ j, j < col → get2 e row j = f row j)
        0 n (Nat.zero_le _) d (fun col result => set2 result row col (f row col))
        ⟨hd, hget, fun j hj => by omega⟩
        (by
          intro col e _ hcol ⟨he, hprev, hcur⟩
          refine ⟨he.set2 _ _ _, fun i j hi hj => ?_, fun j hj => ?_⟩
          · rw [get2_set2 he _ _ hrow hcol, if_neg (by omega)]
            exact hprev i j hi hj
          · rw [get2_set2 he _ _ hrow hcol]
            by_cases hjc : j = col
            · rw [if_pos ⟨rfl, hjc⟩, hjc]
            · rw [if_neg (by omega)]
              exact hcur j (by omega))
      refine ⟨inner.1, fun i j hi hj => ?_⟩
      by_cases hir : i = row
      · rw [hir]
        exact inner.2.2 j hj
      · exact inner.2.1 i j (by omega) hj)
  exact ext2 key.1 (Shape.tabulate2 n n f) fun i j hi hj => by
    rw [key.2 i j hi hj, get2_tabulate2 n n f i j hi hj]

theorem Matrix.scale_eq (n : Nat) (a : List (List α)) (value : α) :
    Matrix.scale { dim := n, mat := a } value =
      .ok { dim := n, mat := tabulate2 n n fun r c => value * get2 a r c } := by
  simp only [Matrix.scale, Matrix.getIdenity_eq, Res.ok_bind]
  rw [fillAll_eq n _ (fun r c => value * get2 a r c)
    (by rw [Matrix.getMultiArray_false_eq]; exact Shape.tabulate2 _ _ _)]
  exact Matrix.new_nested_square _ n (Shape.tabulate2 _ _ _)

/-- The method `cofactors()` returns a matrix whose entry `[i][j]` is the sign
`(-1)^(j+i)` times the value `determinant()` returns for the matrix without
row `i` and column `j`, which is 0 when that matrix has dimension below 2. -/
theorem Matrix.cofactors_eq (m : Nat) (a : List (List α)) :
    ∃ C, Matrix.cofactors { dim := m + 1, mat := a } = .ok { dim := m + 1, mat := C } ∧
      Shape C (m + 1) (m + 1) ∧
      ∀ i j, i < m + 1 → j < m + 1 →
        get2 C i j = (-1) ^ (j + i) * (if m < 2 then 0 else (subSq m a i j).det) := by
  have hloop := forLoopM_inv
    (fun row (st : List (List α) × List (List α)) =>
      Shape st.1 (m + 1) (m + 1) ∧ Shape st.2 m m ∧
      ∀ i j, i < row → j < m + 1 →
        get2 st.1 i j = (-1) ^ (j + i) * (if m < 2 then 0 else (subSq m a i j).det))
    0 (m + 1) (Nat.zero_le _)
    (({ dim := m + 1, mat := tabulate2 (m + 1) (m + 1) fun r c =>
        if c = r then (1 : α) else 0 } : Matrix α).getMultiArray false,
     ({ dim := m, mat := tabulate2 m m fun r c =>
        if c = r then (1 : α) else 0 } : Matrix α).getMultiArray false)
    (fun row st =>
      forLoopM 0 (m + 1) st fun col (st : List (List α) × List (List α)) =>
        (Matrix.new (.nested (subFill (m + 1) a st.2 row col)) false).bind fun sub =>
          sub.determinant.bind fun d =>
            .ok (set2 st.1 row col ((if (col + row) % 2 = 0 then 1 else -1) * d),
              subFill (m + 1) a st.2 row col))
    ⟨by rw [Matrix.getMultiArray_false_eq]; exact Shape.tabulate2 _ _ _,
     by rw [Matrix.getMultiArray_false_eq]; exact Shape.tabulate2 _ _ _,
     fun i j hi _ => by omega⟩
    (by
      intro row st _ hrow ⟨hres, hsub, hprev⟩
      have inner := forLoopM_inv
        (fun col (st : List (List α) × List (List α)) =>
          Shape st.1 (m + 1) (m + 1) ∧ Shape st.2 m m ∧
          (∀ i j, i < row → j < m + 1 →
            get2 st.1 i j = (-1) ^ (j + i) * (if m < 2 then 0 else (subSq m a i j).det)) ∧
          ∀ j, j < col →
            get2 st.1 row j = (-1) ^ (j + row) *
              (if m < 2 then 0 else (subSq m a row j).det))
        0 (m + 1) (Nat.zero_le _) st
        (fun col (st : List (List α) × List (List α)) =>
          (Matrix.new (.nested (subFill (m + 1) a st.2 row col)) false).bind fun sub =>
            sub.determinant.bind fun d =>
              .ok (set2 st.1 row col ((if (col + row) % 2 = 0 then 1 else -1) * d),
                subFill (m + 1) a st.2 row col))
        ⟨hres, hsub, hprev, fun j hj => by omega⟩
        (by
          intro col st' _ hcol ⟨hres', hsub', hprev', hcur⟩
          have hfill := subFill_spec (m + 1) m rfl a st'.2 row col hrow hcol hsub'
          have hdet := Matrix.determinant_eq m (subFill (m + 1) a st'.2 row col) hfill.1
          have hsq : sqOf m (subFill (m + 1) a st'.2 row col) = subSq m a row col := by
            ext i j
            simp only [sqOf, subSq, Matrix.of_apply]
            rw [hfill.2 i j i.isLt j.isLt]
          rw [hsq] at hdet
          beta_reduce
          rw [Matrix.new_nested_square _ m hfill.1, Res.ok_bind, hdet, Res.ok_bind]
          refine ⟨_, rfl, hres'.set2 _ _ _, hfill.1, fun i j hi hj => ?_, fun j hj => ?_⟩
          · show get2 (set2 _ _ _ _) i j = _
            rw [get2_set2 hres' _ _ hrow hcol, if_neg (by omega)]
            exact hprev' i j hi hj
          · show get2 (set2 _ _ _ _) row j = _
            rw [get2_set2 hres' _ _ hrow hcol]
            by_cases hjc : j = col
            · rw [if_pos ⟨rfl, hjc⟩, hjc, sign_eq_neg_one_pow]
            · rw [if_neg (by omega)]
              exact hcur j (by omega))
      obtain ⟨st', hst', h1, h2, h3, h4⟩ := inner
      refine ⟨st', hst', h1, h2, fun i j hi hj => ?_⟩
      by_cases hir : i = row
      · rw [hir]
        exact h4 j hj
      · exact h3 i j (by omega) hj)
  obtain ⟨st, hst, hshape, -, hget⟩ := hloop
  refine ⟨st.1, ?_, hshape, hget⟩
  simp only [Matrix.cofactors, Matrix.getIdenity_eq, Res.ok_bind, Nat.add_sub_cancel]
  refine (congrArg (fun x => Res.bind x fun (st : List (List α) × List (List α)) =>
    Matrix.new (.nested st.1) false) hst).trans ?_
  exact Matrix.new_nested_square _ (m + 1) hshape

end InverseLemmas

section InverseLemmas2

variable {α : Type} [Field α] [DecidableEq α] [Inhabited α]

/-- The method `inverse()` on a matrix for which `determinant()` returns 0. -/
theorem Matrix.inverse_eq_none (n : Nat) (a : List (List α)) (ha : Shape a n n)
    (hD : (if n < 2 then 0 else (sqOf n a).det) = 0) :
    Matrix.inverse { dim := n, mat := a } = .ok none := by
  simp only [Matrix.inverse, Matrix.determinant_eq n a ha, Res.ok_bind, hD, ne_eq,
    not_true_eq_false, if_false]

/-- The method `inverse()` on a matrix for which `determinant()` returns `D ≠ 0`: the
entry `[i][j]` of the result is `(1 / D)` times the entry `[j][i]` of
`cofactors()`. -/
theorem Matrix.inverse_eq_some (m : Nat) (a : List (List α))
    (ha : Shape a (m + 1) (m + 1))
    (hD : (if m + 1 < 2 then 0 else (sqOf (m + 1) a).det) ≠ 0) :
    ∃ T, Matrix.inverse { dim := m + 1, mat := a } = .ok (some { dim := m + 1, mat := T }) ∧
      Shape T (m + 1) (m + 1) ∧
      ∀ i j, i < m + 1 → j < m + 1 →
        get2 T i j = 1 / (if m + 1 < 2 then 0 else (sqOf (m + 1) a).det) *
          ((-1) ^ (i + j) * (if m < 2 then 0 else (subSq m a j i).det)) := by
  obtain ⟨C, hC, -, hCget⟩ := Matrix.cofactors_eq m a
  refine ⟨tabulate2 (m + 1) (m + 1) fun c r =>
    get2 (tabulate2 (m + 1) (m + 1) fun r c =>
      1 / (if m + 1 < 2 then 0 else (sqOf (m + 1) a).det) * get2 C r c) r c,
    ?_, Shape.tabulate2 _ _ _, ?_⟩
  · simp only [Matrix.inverse, Matrix.determinant_eq (m + 1) a ha, Res.ok_bind, hD, ne_eq,
      not_false_eq_true, if_true, hC, Matrix.scale_eq, Matrix.getMultiArray_true_eq]
    rw [Matrix.new_nested_square _ (m + 1) (Shape.tabulate2 _ _ _), Res.ok_bind]
  · intro i j hi hj
    rw [get2_tabulate2 _ _ _ _ _ hi hj, get2_tabulate2 _ _ _ _ _ hj hi, hCget j i hj hi]

/-- The matrix `inverse()` returns is `D⁻¹` times the adjugate. -/
theorem sqOf_inverse_eq (m : Nat) (hm : 2 ≤ m) (a T : List (List α))
    (hT : ∀ i j, i < m + 1 → j < m + 1 →
        get2 T i j = 1 / (if m + 1 < 2 then 0 else (sqOf (m + 1) a).det) *
          ((-1) ^ (i + j) * (if m < 2 then 0 else (subSq m a j i).det))) :
    sqOf (m + 1) T = (sqOf (m + 1) a).det⁻¹ • (sqOf (m + 1) a).adjugate := by
  ext i j
  have h1 : ¬ m + 1 < 2 := by omega
  have h2 : ¬ m < 2 := by omega
  rw [Matrix.smul_apply, Matrix.adjugate_fin_succ_eq_det_submatrix,
    ← subSq_eq_submatrix]
  show get2 T i.val j.val = _
  rw [hT i.val j.val i.isLt j.isLt, if_neg h1, if_neg h2, smul_eq_mul, one_div,
    Nat.add_comm j.val i.val]

/-- Entry by entry, the product with the inverse is the identity. -/
theorem sum_mul_inverse (m : Nat) (a T : List (List α))
    (hdet : (sqOf (m + 1) a).det ≠ 0)
    (hT : sqOf (m + 1) T = (sqOf (m + 1) a).det⁻¹ • (sqOf (m + 1) a).adjugate)
    (r c : Nat) (hr : r < m + 1) (hc : c < m + 1) :
    ∑ i ∈ Finset.range (m + 1), get2 a r i * get2 T i c = if c = r then 1 else 0 := by
  have hmul : sqOf (m + 1) a * sqOf (m + 1) T = 1 := by
    rw [hT, Matrix.mul_smul, Matrix.mul_adjugate, smul_smul, inv_mul_cancel₀ hdet, one_smul]
  have hentry := congrFun (congrFun hmul ⟨r, hr⟩) ⟨c, hc⟩
  rw [Matrix.mul_apply, Matrix.one_apply] at hentry
  rw [Finset.sum_range]
  have hcr : (⟨r, hr⟩ : Fin (m + 1)) = ⟨c, hc⟩ ↔ c = r := by
    rw [Fin.mk.injEq]; exact eq_comm
  simp only [hcr] at hentry
  exact hentry

end InverseLemmas2

/-- C1, as amended.  For a matrix of dimension below 2 `inverse()` returns
`null`, because `determinant()` returns 0 there.  For every invertible matrix
`A` of dimension `d ≥ 3` over a field, `A.inverse()` is a matrix and
`A.multiply(A.inverse())` is the matrix `Matrix.getIdenity(d)`. -/
theorem Matrix.multiply_inverse {α : Type} [Field α] [DecidableEq α] [Inhabited α]
    (A : Matrix α) (hA : A.WF) :
    (A.dim < 2 → A.inverse = .ok none) ∧
    (3 ≤ A.dim → IsUnit A.toSq →
      ∃ inv I : Matrix α, A.inverse = .ok (some inv) ∧
        Matrix.getIdenity A.dim = .ok I ∧ A.multiply inv = .ok I) := by
  obtain ⟨n, a⟩ := A
  have ha : Shape a n n := hA
  constructor
  · intro h
    have h' : n < 2 := h
    exact Matrix.inverse_eq_none n a ha (by rw [if_pos h'])
  · intro h3 hunit
    have h3' : 3 ≤ n := h3
    obtain ⟨m, rfl⟩ : ∃ m, n = m + 1 := ⟨n - 1, by omega⟩
    have hm : 2 ≤ m := by omega
    have hdet : (sqOf (m + 1) a).det ≠ 0 :=
      ((Matrix.isUnit_iff_isUnit_det _).mp hunit).ne_zero
    obtain ⟨T, hinv, hTs, hTget⟩ := Matrix.inverse_eq_some m a ha
      (by rw [if_neg (by omega)]; exact hdet)
    have hsq := sqOf_inverse_eq m hm a T hTget
    refine ⟨_, _, hinv, Matrix.getIdenity_eq (m + 1), ?_⟩
    rw [Matrix.multiply_eq ({ dim := m + 1, mat := a } : Matrix α)
      { dim := m + 1, mat := T } rfl]
    congr 2
    apply ext2 (Shape.tabulate2 _ _ _) (Shape.tabulate2 _ _ _)
    intro i j hi hj
    rw [get2_tabulate2 _ _ _ _ _ hi hj, get2_tabulate2 _ _ _ _ _ hi hj]
    exact sum_mul_inverse m a T hdet hsq i j hi hj

/-! ## Theorems: `inverse` below dimension 3 -/

theorem tabulate2_two {α : Type} (f : Nat → Nat → α) :
    tabulate2 2 2 f = [[f 0 0, f 0 1], [f 1 0, f 1 1]] := rfl

theorem isUnit_sqOf_one_five : IsUnit (sqOf 1 ([[5]] : List (List ℚ))) := by
  rw [Matrix.isUnit_iff_isUnit_det, Matrix.det_fin_one, isUnit_iff_ne_zero]
  show get2 ([[5]] : List (List ℚ)) 0 0 ≠ 0
  simp [get2]

theorem det_sqOf_two (a b c d : ℚ) :
    (sqOf 2 [[a, b], [c, d]]).det = a * d - b * c := by
  rw [Matrix.det_fin_two]
  rfl

theorem isUnit_sqOf_two : IsUnit (sqOf 2 ([[1, 2], [3, 4]] : List (List ℚ))) := by
  rw [Matrix.isUnit_iff_isUnit_det, det_sqOf_two, isUnit_iff_ne_zero]
  norm_num

theorem inverse_two_by_two :
    ({ dim := 2, mat := [[1, 2], [3, 4]] } : Matrix ℚ).inverse
      = .ok (some { dim := 2, mat := [[0, 0], [0, 0]] }) := by
  have hs : Shape ([[1, 2], [3, 4]] : List (List ℚ)) 2 2 := ⟨rfl, by simp⟩
  have hD : (if 1 + 1 < 2 then (0 : ℚ) else (sqOf (1 + 1) [[1, 2], [3, 4]]).det) ≠ 0 := by
    rw [if_neg (by omega)]
    show (sqOf 2 ([[1, 2], [3, 4]] : List (List ℚ))).det ≠ 0
    rw [det_sqOf_two]
    norm_num
  obtain ⟨T, hT, hTs, hTget⟩ := Matrix.inverse_eq_some 1 _ hs hD
  have hzero : T = [[0, 0], [0, 0]] := by
    apply ext2 hTs (Shape.tabulate2 2 2 fun _ _ => (0 : ℚ))
    intro i j hi hj
    rw [hTget i j hi hj, get2_tabulate2 2 2 _ i j hi hj]
    simp
  rw [← hzero]
  exact hT

theorem multiply_two_by_two_zero :
    ({ dim := 2, mat := [[1, 2], [3, 4]] } : Matrix ℚ).multiply
      { dim := 2, mat := [[0, 0], [0, 0]] } = .ok { dim := 2, mat := [[0, 0], [0, 0]] } := by
  rw [Matrix.multiply_eq ({ dim := 2, mat := [[1, 2], [3, 4]] } : Matrix ℚ)
    { dim := 2, mat := [[0, 0], [0, 0]] } rfl]
  simp [tabulate2_two, Finset.sum_range_succ, get2]

/-- C1, counterexample.  The 1x1 matrix `[[5]]` is invertible, but `inverse()`
returns `null`.  The 2x2 matrix `[[1, 2], [3, 4]]` is invertible, but
`inverse()` returns the zero matrix, and the product with it is the zero
matrix, not `Matrix.getIdenity(2)`. -/
theorem Matrix.inverse_wrong_below_three :
    (Matrix.new (.nested [[(5 : ℚ)]]) false = .ok { dim := 1, mat := [[5]] } ∧
      IsUnit (sqOf 1 ([[5]] : List (List ℚ))) ∧
      ({ dim := 1, mat := [[5]] } : Matrix ℚ).inverse = .ok none) ∧
    (Matrix.new (.nested [[(1 : ℚ), 2], [3, 4]]) false
        = .ok { dim := 2, mat := [[1, 2], [3, 4]] } ∧
      IsUnit (sqOf 2 ([[1, 2], [3, 4]] : List (List ℚ))) ∧
      ({ dim := 2, mat := [[1, 2], [3, 4]] } : Matrix ℚ).inverse
        = .ok (some { dim := 2, mat := [[0, 0], [0, 0]] }) ∧
      ({ dim := 2, mat := [[1, 2], [3, 4]] } : Matrix ℚ).multiply
        { dim := 2, mat := [[0, 0], [0, 0]] } = .ok { dim := 2, mat := [[0, 0], [0, 0]] } ∧
      (Matrix.getIdenity 2 : Res (Matrix ℚ)) = .ok { dim := 2, mat := [[1, 0], [0, 1]] } ∧
      ({ dim := 2, mat := [[0, 0], [0, 0]] } : Matrix ℚ)
        ≠ { dim := 2, mat := [[1, 0], [0, 1]] }) :=
  ⟨⟨by decide, isUnit_sqOf_one_five, by decide⟩,
   ⟨by decide, isUnit_sqOf_two, inverse_two_by_two, multiply_two_by_two_zero, by decide,
    by decide⟩⟩

theorem det_sqOf_three_diag :
    (sqOf 3 ([[2, 0, 0], [0, 1, 0], [0, 0, 1]] : List (List ℚ))).det = 2 := by
  rw [Matrix.det_fin_three]
  simp [sqOf, get2]

theorem Matrix.multiply_inverse_witness :
    ({ dim := 3, mat := [[2, 0, 0], [0, 1, 0], [0, 0, 1]] } : Matrix ℚ).WF ∧
    3 ≤ ({ dim := 3, mat := [[2, 0, 0], [0, 1, 0], [0, 0, 1]] } : Matrix ℚ).dim ∧
    IsUnit ({ dim := 3, mat := [[2, 0, 0], [0, 1, 0], [0, 0, 1]] } : Matrix ℚ).toSq ∧
    ∃ inv I : Matrix ℚ,
      ({ dim := 3, mat := [[2, 0, 0], [0, 1, 0], [0, 0, 1]] } : Matrix ℚ).inverse
        = .ok (some inv) ∧
      Matrix.getIdenity 3 = .ok I ∧
      ({ dim := 3, mat := [[2, 0, 0], [0, 1, 0], [0, 0, 1]] } : Matrix ℚ).multiply inv
        = .ok I :=
  have hwf : ({ dim := 3, mat := [[2, 0, 0], [0, 1, 0], [0, 0, 1]] } : Matrix ℚ).WF :=
    ⟨rfl, by simp⟩
  have hunit :
      IsUnit ({ dim := 3, mat := [[2, 0, 0], [0, 1, 0], [0, 0, 1]] } : Matrix ℚ).toSq := by
    show IsUnit (sqOf 3 ([[2, 0, 0], [0, 1, 0], [0, 0, 1]] : List (List ℚ)))
    rw [Matrix.isUnit_iff_isUnit_det, det_sqOf_three_diag, isUnit_iff_ne_zero]
    norm_num
  ⟨hwf, by decide, hunit,
    (Matrix.multiply_inverse
      ({ dim := 3, mat := [[2, 0, 0], [0, 1, 0], [0, 0, 1]] } : Matrix ℚ) hwf).2
      (by decide) hunit⟩

/-! ## Theorems: the digit count of the doubles -/

theorem F64.bitsFuel_zero (fuel : Nat) : F64.bitsFuel fuel 0 = 0 := by
  cases fuel <;> simp [F64.bitsFuel]

/-- Halving `fuel` times is enough from `n ≤ fuel`: the result `b` is the
number of binary digits of `n`, that is `2 ^ (b - 1) ≤ n < 2 ^ b`. -/
theorem F64.bitsFuel_spec (fuel : Nat) :
    ∀ n, n ≤ fuel → n < 2 ^ F64.bitsFuel fuel n ∧
      (n ≠ 0 → 0 < F64.bitsFuel fuel n ∧ 2 ^ (F64.bitsFuel fuel n - 1) ≤ n) := by
  induction fuel with
  | zero =>
    intro n hn
    have h0 : n = 0 := by omega
    subst h0
    simp [F64.bitsFuel]
  | succ fuel ih =>
    intro n hn
    by_cases h0 : n = 0
    · subst h0
      simp [F64.bitsFuel]
    · have hhalf : n / 2 ≤ fuel := by omega
      obtain ⟨hlt, hge⟩ := ih (n / 2) hhalf
      have hb : F64.bitsFuel (fuel + 1) n = F64.bitsFuel fuel (n / 2) + 1 := by
        simp [F64.bitsFuel, h0]
      rw [hb]
      refine ⟨?_, fun _ => ⟨Nat.succ_pos _, ?_⟩⟩
      · rw [pow_succ]
        omega
      · rw [Nat.add_sub_cancel]
        by_cases h1 : n / 2 = 0
        · rw [h1, F64.bitsFuel_zero]
          simp
          omega
        · obtain ⟨hpos, hle⟩ := hge h1
          obtain ⟨b, hbeq⟩ : ∃ b, F64.bitsFuel fuel (n / 2) = b + 1 := ⟨_, (Nat.succ_pred_eq_of_pos hpos).symm⟩
          rw [hbeq] at hle ⊢
          rw [Nat.add_sub_cancel] at hle
          rw [pow_succ]
          omega

/-- The function `F64.bits` gives the number of binary digits. -/
theorem F64.bits_spec (n : Nat) (hn : n ≠ 0) :
    2 ^ (F64.bits n - 1) ≤ n ∧ n < 2 ^ F64.bits n :=
  ⟨((F64.bitsFuel_spec n n (le_refl n)).2 hn).2, (F64.bitsFuel_spec n n (le_refl n)).1⟩

/-! ## Theorems: what `determinant`, `inverse`, `minors` and `cofactors` return -/

section DeterminantClaims

variable {α : Type} [Field α] [DecidableEq α] [Inhabited α]

theorem sqOf_two_det (a : List (List α)) :
    (sqOf 2 a).det = get2 a 0 0 * get2 a 1 1 - get2 a 0 1 * get2 a 1 0 := by
  rw [Matrix.det_fin_two]
  rfl

end DeterminantClaims

/-- C11.  For a matrix of dimension `d ≥ 2`, `determinant()` returns the
determinant of the matrix; this is `ad - bc` at `d = 2` and, at `d ≥ 3`, the
Laplace expansion along the first row with sign `(-1)^col` and the
determinants of the matrices without row 0 and column `col`.  For `d < 2` it
returns 0. -/
theorem Matrix.determinant_spec {α : Type} [Field α] [DecidableEq α] [Inhabited α]
    (A : Matrix α) (hA : A.WF) :
    (2 ≤ A.dim → A.determinant = .ok A.toSq.det) ∧
    (A.dim = 2 → A.determinant =
      .ok (get2 A.mat 0 0 * get2 A.mat 1 1 - get2 A.mat 0 1 * get2 A.mat 1 0)) ∧
    (∀ m, A.dim = m + 1 → 2 ≤ m → A.determinant =
      .ok (∑ col ∈ Finset.range (m + 1),
        (-1) ^ col * get2 A.mat 0 col * (subSq m A.mat 0 col).det)) ∧
    (A.dim < 2 → A.determinant = .ok 0) := by
  obtain ⟨n, a⟩ := A
  have ha : Shape a n n := hA
  have hdet := Matrix.determinant_eq n a ha
  refine ⟨?_, ?_, ?_, ?_⟩
  · intro h
    have h' : ¬ n < 2 := Nat.not_lt.mpr h
    rw [hdet, if_neg h']
    rfl
  · intro h
    have h' : n = 2 := h
    subst h'
    rw [hdet, if_neg (by omega), sqOf_two_det]
  · intro m h hm
    have h' : n = m + 1 := h
    subst h'
    rw [hdet, if_neg (by omega), det_eq_sum_range]
  · intro h
    have h' : n < 2 := h
    rw [hdet, if_pos h']

theorem Matrix.determinant_spec_witness :
    ({ dim := 3, mat := [[2, 0, 0], [0, 1, 0], [0, 0, 1]] } : Matrix ℚ).WF ∧
    2 ≤ ({ dim := 3, mat := [[2, 0, 0], [0, 1, 0], [0, 0, 1]] } : Matrix ℚ).dim ∧
    ({ dim := 3, mat := [[2, 0, 0], [0, 1, 0], [0, 0, 1]] } : Matrix ℚ).determinant
      = .ok ({ dim := 3, mat := [[2, 0, 0], [0, 1, 0], [0, 0, 1]] } : Matrix ℚ).toSq.det :=
  have hwf : ({ dim := 3, mat := [[2, 0, 0], [0, 1, 0], [0, 0, 1]] } : Matrix ℚ).WF :=
    ⟨rfl, by simp⟩
  ⟨hwf, by decide,
    (Matrix.determinant_spec
      ({ dim := 3, mat := [[2, 0, 0], [0, 1, 0], [0, 0, 1]] } : Matrix ℚ) hwf).1
      (by decide)⟩

section MinorsLemmas

variable {α : Type} [Field α] [DecidableEq α] [Inhabited α]

/-- The method `minors()` returns a matrix whose entry `[i][j]` is the value
`determinant()` returns for the matrix without row `i` and column `j`, which
is 0 when that matrix has dimension below 2. -/
theorem Matrix.minors_eq (m : Nat) (a : List (List α)) :
    ∃ C, Matrix.minors { dim := m + 1, mat := a } = .ok { dim := m + 1, mat := C } ∧
      Shape C (m + 1) (m + 1) ∧
      ∀ i j, i < m + 1 → j < m + 1 →
        get2 C i j = (if m < 2 then 0 else (subSq m a i j).det) := by
  have hloop := forLoopM_inv
    (fun row (st : List (List α) × List (List α)) =>
      Shape st.1 (m + 1) (m + 1) ∧ Shape st.2 m m ∧
      ∀ i j, i < row → j < m + 1 →
        get2 st.1 i j = (if m < 2 then 0 else (subSq m a i j).det))
    0 (m + 1) (Nat.zero_le _)
    (({ dim := m + 1, mat := tabulate2 (m + 1) (m + 1) fun r c =>
        if c = r then (1 : α) else 0 } : Matrix α).getMultiArray false,
     ({ dim := m, mat := tabulate2 m m fun r c =>
        if c = r then (1 : α) else 0 } : Matrix α).getMultiArray false)
    (fun row st =>
      forLoopM 0 (m + 1) st fun col (st : List (List α) × List (List α)) =>
        (Matrix.new (.nested (subFill (m + 1) a st.2 row col)) false).bind fun sub =>
          sub.determinant.bind fun d =>
            .ok (set2 st.1 row col d,
              subFill (m + 1) a st.2 row col))
    ⟨by rw [Matrix.getMultiArray_false_eq]; exact Shape.tabulate2 _ _ _,
     by rw [Matrix.getMultiArray_false_eq]; exact Shape.tabulate2 _ _ _,
     fun i j hi _ => by omega⟩
    (by
      intro row st _ hrow ⟨hres, hsub, hprev⟩
      have inner := forLoopM_inv
        (fun col (st : List (List α) × List (List α)) =>
          Shape st.1 (m + 1) (m + 1) ∧ Shape st.2 m m ∧
          (∀ i j, i < row → j < m + 1 →
            get2 st.1 i j = (if m < 2 then 0 else (subSq m a i j).det)) ∧
          ∀ j, j < col →
            get2 st.1 row j = (if m < 2 then 0 else (subSq m a row j).det))
        0 (m + 1) (Nat.zero_le _) st
        (fun col (st : List (List α) × List (List α)) =>
          (Matrix.new (.nested (subFill (m + 1) a st.2 row col)) false).bind fun sub =>
            sub.determinant.bind fun d =>
              .ok (set2 st.1 row col d,
                subFill (m + 1) a st.2 row col))
        ⟨hres, hsub, hprev, fun j hj => by omega⟩
        (by
          intro col st' _ hcol ⟨hres', hsub', hprev', hcur⟩
          have hfill := subFill_spec (m + 1) m rfl a st'.2 row col hrow hcol hsub'
          have hdet := Matrix.determinant_eq m (subFill (m + 1) a st'.2 row col) hfill.1
          have hsq : sqOf m (subFill (m + 1) a st'.2 row col) = subSq m a row col := by
            ext i j
            simp only [sqOf, subSq, Matrix.of_apply]
            rw [hfill.2 i j i.isLt j.isLt]
          rw [hsq] at hdet
          beta_reduce
          rw [Matrix.new_nested_square _ m hfill.1, Res.ok_bind, hdet, Res.ok_bind]
          refine ⟨_, rfl, hres'.set2 _ _ _, hfill.1, fun i j hi hj => ?_, fun j hj => ?_⟩
          · show get2 (set2 _ _ _ _) i j = _
            rw [get2_set2 hres' _ _ hrow hcol, if_neg (by omega)]
            exact hprev' i j hi hj
          · show get2 (set2 _ _ _ _) row j = _
            rw [get2_set2 hres' _ _ hrow hcol]
            by_cases hjc : j = col
            · rw [if_pos ⟨rfl, hjc⟩, hjc]
            · rw [if_neg (by omega)]
              exact hcur j (by omega))
      obtain ⟨st', hst', h1, h2, h3, h4⟩ := inner
      refine ⟨st', hst', h1, h2, fun i j hi hj => ?_⟩
      by_cases hir : i = row
      · rw [hir]
        exact h4 j hj
      · exact h3 i j (by omega) hj)
  obtain ⟨st, hst, hshape, -, hget⟩ := hloop
  refine ⟨st.1, ?_, hshape, hget⟩
  simp only [Matrix.minors, Matrix.getIdenity_eq, Res.ok_bind, Nat.add_sub_cancel]
  refine (congrArg (fun x => Res.bind x fun (st : List (List α) × List (List α)) =>
    Matrix.new (.nested st.1) false) hst).trans ?_
  exact Matrix.new_nested_square _ (m + 1) hshape


theorem Matrix.minors_zero (a : List (List α)) :
    Matrix.minors { dim := 0, mat := a } = .ok { dim := 0, mat := [] } := by
  simp only [Matrix.minors, Matrix.getIdenity_eq, Res.ok_bind, forLoopM_self]
  rfl

theorem Matrix.cofactors_zero (a : List (List α)) :
    Matrix.cofactors { dim := 0, mat := a } = .ok { dim := 0, mat := [] } := by
  simp only [Matrix.cofactors, Matrix.getIdenity_eq, Res.ok_bind, forLoopM_self]
  rfl

theorem sqOf_tabulate2 (m : Nat) (f : Nat → Nat → α) :
    sqOf m (tabulate2 m m f) = Matrix.of fun (i j : Fin m) => f i.val j.val := by
  ext i j
  simp only [sqOf, Matrix.of_apply]
  exact get2_tabulate2 m m f i.val j.val i.isLt j.isLt

/-- The value `determinant()` returns for the matrix without row `r` and
column `c`. -/
theorem Matrix.determinant_deleteRowCol (m : Nat) (a : List (List α)) (r c : Nat) :
    (Matrix.deleteRowCol { dim := m + 1, mat := a } r c).determinant =
      .ok (if m < 2 then 0 else (subSq m a r c).det) := by
  have h := Matrix.determinant_eq m
    (tabulate2 m m fun i j => get2 a (skipIdx r i) (skipIdx c j)) (Shape.tabulate2 _ _ _)
  rw [sqOf_tabulate2] at h
  exact h

end MinorsLemmas

section InverseClaims

variable {α : Type} [Field α] [DecidableEq α] [Inhabited α]

/-- The method `inverse()` on a matrix for which `determinant()` returns
`D ≠ 0`, in terms of the matrix `cofactors()` returns. -/
theorem Matrix.inverse_eq_cofactors (m : Nat) (a : List (List α))
    (ha : Shape a (m + 1) (m + 1))
    (hD : (if m + 1 < 2 then 0 else (sqOf (m + 1) a).det) ≠ 0) :
    ∃ C T, Matrix.cofactors { dim := m + 1, mat := a } = .ok { dim := m + 1, mat := C } ∧
      Matrix.inverse { dim := m + 1, mat := a } = .ok (some { dim := m + 1, mat := T }) ∧
      Shape T (m + 1) (m + 1) ∧
      ∀ i j, i < m + 1 → j < m + 1 →
        get2 T i j = 1 / (if m + 1 < 2 then 0 else (sqOf (m + 1) a).det) * get2 C j i := by
  obtain ⟨C, hC, -, -⟩ := Matrix.cofactors_eq m a
  refine ⟨C, tabulate2 (m + 1) (m + 1) fun c r =>
    get2 (tabulate2 (m + 1) (m + 1) fun r c =>
      1 / (if m + 1 < 2 then 0 else (sqOf (m + 1) a).det) * get2 C r c) r c,
    hC, ?_, Shape.tabulate2 _ _ _, ?_⟩
  · simp only [Matrix.inverse, Matrix.determinant_eq (m + 1) a ha, Res.ok_bind, hD, ne_eq,
      not_false_eq_true, if_true, hC, Matrix.scale_eq, Matrix.getMultiArray_true_eq]
    rw [Matrix.new_nested_square _ (m + 1) (Shape.tabulate2 _ _ _), Res.ok_bind]
  · intro i j hi hj
    rw [get2_tabulate2 _ _ _ _ _ hi hj, get2_tabulate2 _ _ _ _ _ hj hi]

/-- Two equal rows make the determinant of the array's matrix vanish. -/
theorem det_sqOf_eq_zero_of_rows_eq (n : Nat) (a : List (List α)) (i j : Nat)
    (hi : i < n) (hj : j < n) (hij : i ≠ j)
    (hrows : ∀ c, c < n → get2 a i c = get2 a j c) : (sqOf n a).det = 0 := by
  apply Matrix.det_zero_of_row_eq (i := ⟨i, hi⟩) (j := ⟨j, hj⟩)
  · intro h
    exact hij (Fin.mk.inj h)
  · funext c
    exact hrows c.val c.isLt

end InverseClaims

/-- C12, as amended.  In exact arithmetic, that is for every matrix `A` with
entries in a field, `A.inverse()` returns (it neither throws nor loops).  It
returns `null` exactly when `A.determinant()` is 0, which in exact arithmetic
is the case whenever two rows of `A` are equal; otherwise it returns the
matrix whose `(row, col)` entry is `(1 / det) * cofactors()[col][row]`. -/
theorem Matrix.inverse_spec {α : Type} [Field α] [DecidableEq α] [Inhabited α]
    (A : Matrix α) (hA : A.WF) :
    ∃ D, A.determinant = .ok D ∧
      (∃ r, A.inverse = .ok r) ∧
      (A.inverse = .ok none ↔ D = 0) ∧
      (D ≠ 0 → ∃ C inv : Matrix α, A.cofactors = .ok C ∧ A.inverse = .ok (some inv) ∧
        inv.getDim = A.getDim ∧ inv.WF ∧
        ∀ row col, row < A.dim → col < A.dim →
          get2 inv.mat row col = 1 / D * get2 C.mat col row) ∧
      (∀ i j, i < A.dim → j < A.dim → i ≠ j →
        (∀ c, c < A.dim → get2 A.mat i c = get2 A.mat j c) → A.inverse = .ok none) := by
  obtain ⟨n, a⟩ := A
  have ha : Shape a n n := hA
  refine ⟨if n < 2 then 0 else (sqOf n a).det, Matrix.determinant_eq n a ha, ?_⟩
  have hrows : ∀ i j, i < n → j < n → i ≠ j →
      (∀ c, c < n → get2 a i c = get2 a j c) →
      Matrix.inverse { dim := n, mat := a } = .ok none := by
    intro i j hi hj hij h
    apply Matrix.inverse_eq_none n a ha
    rw [if_neg (by omega)]
    exact det_sqOf_eq_zero_of_rows_eq n a i j hi hj hij h
  by_cases hD : (if n < 2 then 0 else (sqOf n a).det) = 0
  · have hnone := Matrix.inverse_eq_none n a ha hD
    exact ⟨⟨none, hnone⟩, ⟨fun _ => hD, fun _ => hnone⟩, fun h => absurd hD h, hrows⟩
  · have hn : ¬ n < 2 := by
      intro h
      rw [if_pos h] at hD
      exact hD rfl
    obtain ⟨m, rfl⟩ : ∃ m, n = m + 1 := ⟨n - 1, by omega⟩
    obtain ⟨C, T, hC, hT, hTs, hget⟩ := Matrix.inverse_eq_cofactors m a ha hD
    refine ⟨⟨_, hT⟩, ⟨fun h => ?_, fun h => absurd h hD⟩, fun _ => ?_, hrows⟩
    · rw [hT] at h
      cases h
    · exact ⟨_, _, hC, hT, rfl, hTs, hget⟩

theorem Matrix.inverse_spec_witness :
    ({ dim := 3, mat := [[2, 0, 0], [0, 1, 0], [0, 0, 1]] } : Matrix ℚ).WF ∧
    ∃ D, ({ dim := 3, mat := [[2, 0, 0], [0, 1, 0], [0, 0, 1]] } : Matrix ℚ).determinant
        = .ok D ∧
      (∃ r, ({ dim := 3, mat := [[2, 0, 0], [0, 1, 0], [0, 0, 1]] } : Matrix ℚ).inverse
        = .ok r) :=
  have hwf : ({ dim := 3, mat := [[2, 0, 0], [0, 1, 0], [0, 0, 1]] } : Matrix ℚ).WF :=
    ⟨rfl, by simp⟩
  ⟨hwf,
    (Matrix.inverse_spec
      ({ dim := 3, mat := [[2, 0, 0], [0, 1, 0], [0, 0, 1]] } : Matrix ℚ) hwf).imp
      fun _ h => ⟨h.1, h.2.1⟩⟩

/-- C12, counterexample.  In double precision the rows 0 and 1 of the matrix
`[[a, b, 0], [a, b, 0], [0, 0, a]]` with `a = 2 ^ 27 - 1` and `b = 2 ^ 27 + 1`
are identical, but `determinant()` returns `2 ^ 28 = 268435456` and
`inverse()` returns a matrix, not `null`.  The first term of the expansion is
`a * (b * a)`, where `b * a = 2 ^ 54 - 1` is rounded to `2 ^ 54`; the second is
`-b * (a * a)`, where `a * a = 2 ^ 54 - 2 ^ 28 + 1` is rounded to
`2 ^ 54 - 2 ^ 28`; their sum is `2 ^ 28`. -/
theorem Matrix.inverse_two_equal_rows_not_null :
    Matrix.twoEqualRows.WF ∧
    (∀ c, c < Matrix.twoEqualRows.dim →
      get2 Matrix.twoEqualRows.mat 0 c = get2 Matrix.twoEqualRows.mat 1 c) ∧
    ((F64.fin 134217729 0 * F64.fin 134217727 0 : F64) = .fin 1 54 ∧
      (F64.fin 134217727 0 * F64.fin 134217727 0 : F64) = .fin 67108863 28) ∧
    Matrix.twoEqualRows.determinant = .ok (.fin 1 28) ∧
    Matrix.twoEqualRows.inverse = .ok (some
      { dim := 3
        mat := [[.fin 1 26, .fin (-1) 26, 0],
                [.fin (-67108863) 0, .fin 67108863 0, 0],
                [0, 0, 0]] }) ∧
    Matrix.twoEqualRows.inverse ≠ .ok none := by
  refine ⟨⟨rfl, by decide⟩, by decide, ⟨by decide, by decide⟩, ?_, ?_, ?_⟩
  · set_option maxRecDepth 1000000 in decide
  · set_option maxRecDepth 1000000 in decide
  · set_option maxRecDepth 1000000 in decide

/-- C13.  For every matrix of dimension `d` and all `r, c < d`, the entry
`minors()[r][c]` is the value `determinant()` returns for the matrix obtained
by deleting row `r` and column `c`, and `cofactors()[r][c]` is
`(-1)^(r+c) * minors()[r][c]`. -/
theorem Matrix.minors_cofactors_spec {α : Type} [Field α] [DecidableEq α] [Inhabited α]
    (A : Matrix α) :
    ∃ M C : Matrix α, A.minors = .ok M ∧ A.cofactors = .ok C ∧
      M.getDim = A.getDim ∧ C.getDim = A.getDim ∧
      ∀ r c, r < A.dim → c < A.dim →
        (A.deleteRowCol r c).getDim = A.getDim - 1 ∧
        (∀ i j, i < A.dim - 1 → j < A.dim - 1 →
          get2 (A.deleteRowCol r c).mat i j =
            get2 A.mat (if i < r then i else i + 1) (if j < c then j else j + 1)) ∧
        (A.deleteRowCol r c).determinant = .ok (get2 M.mat r c) ∧
        get2 C.mat r c = (-1) ^ (r + c) * get2 M.mat r c := by
  obtain ⟨n, a⟩ := A
  cases n with
  | zero =>
    exact ⟨_, _, Matrix.minors_zero a, Matrix.cofactors_zero a, rfl, rfl,
      fun r c hr _ => absurd hr (Nat.not_lt_zero r)⟩
  | succ m =>
    obtain ⟨M, hM, -, hMget⟩ := Matrix.minors_eq m a
    obtain ⟨C, hC, -, hCget⟩ := Matrix.cofactors_eq m a
    refine ⟨_, _, hM, hC, rfl, rfl, fun r c hr hc => ⟨rfl, ?_, ?_, ?_⟩⟩
    · intro i j hi hj
      exact get2_tabulate2 m m _ i j hi hj
    · rw [Matrix.determinant_deleteRowCol]
      exact congrArg Res.ok (hMget r c hr hc).symm
    · show get2 C r c = (-1) ^ (r + c) * get2 M r c
      rw [hCget r c hr hc, hMget r c hr hc, Nat.add_comm c r]

theorem Matrix.minors_cofactors_spec_witness :
    ∃ M C : Matrix ℚ,
      ({ dim := 2, mat := [[1, 2], [3, 4]] } : Matrix ℚ).minors = .ok M ∧
      ({ dim := 2, mat := [[1, 2], [3, 4]] } : Matrix ℚ).cofactors = .ok C ∧
      (0 < ({ dim := 2, mat := [[1, 2], [3, 4]] } : Matrix ℚ).dim ∧
        1 < ({ dim := 2, mat := [[1, 2], [3, 4]] } : Matrix ℚ).dim) ∧
      (({ dim := 2, mat := [[1, 2], [3, 4]] } : Matrix ℚ).deleteRowCol 0 1).determinant
        = .ok (get2 M.mat 0 1) ∧
      get2 C.mat 0 1 = (-1) ^ (0 + 1) * get2 M.mat 0 1 :=
  (Matrix.minors_cofactors_spec ({ dim := 2, mat := [[1, 2], [3, 4]] } : Matrix ℚ)).imp
    fun _ hM => hM.imp fun _ h =>
      ⟨h.1, h.2.1, ⟨by decide, by decide⟩,
        (h.2.2.2.2 0 1 (by decide) (by decide)).2.2.1,
        (h.2.2.2.2 0 1 (by decide) (by decide)).2.2.2⟩

/-! ## Theorems: algebraic laws of `multiply` -/

section ProductLemmas

variable {α : Type} [Field α] [DecidableEq α] [Inhabited α]

/-- The sum over the column numbers in the entries of a product is the entry
of the product of the mathematical matrices. -/
theorem sum_range_eq_mul_apply (n : Nat) (a b : List (List α)) (r c : Fin n) :
    ∑ i ∈ Finset.range n, get2 a r.val i * get2 b i c.val = (sqOf n a * sqOf n b) r c := by
  rw [Matrix.mul_apply, Finset.sum_range]
  rfl

/-- The array the product of two matrices of dimension `n` is stored in. -/
theorem sqOf_product (n : Nat) (a b : List (List α)) :
    sqOf n (tabulate2 n n fun row col =>
        ∑ i ∈ Finset.range n, get2 a row i * get2 b i col) = sqOf n a * sqOf n b := by
  rw [sqOf_tabulate2]
  ext r c
  rw [Matrix.of_apply]
  exact sum_range_eq_mul_apply n a b r c

/-- An array of shape `n × n` is determined by its mathematical matrix. -/
theorem eq_of_sqOf_eq (n : Nat) (a b : List (List α)) (ha : Shape a n n) (hb : Shape b n n)
    (h : sqOf n a = sqOf n b) : a = b := by
  apply ext2 ha hb
  intro i j hi hj
  exact congrFun (congrFun h ⟨i, hi⟩) ⟨j, hj⟩

theorem sqOf_identity (n : Nat) :
    sqOf n (tabulate2 n n fun r c => if c = r then (1 : α) else 0) = 1 := by
  rw [sqOf_tabulate2]
  ext i j
  rw [Matrix.of_apply, Matrix.one_apply]
  by_cases h : i = j
  · rw [if_pos h, if_pos (congrArg Fin.val h).symm]
  · rw [if_neg h, if_neg (fun e => h (Fin.ext e.symm))]

end ProductLemmas

/-- C14.  For matrices `A`, `B`, `C` of equal dimension over a field, the four
products return and `A.multiply(B).multiply(C)` is the same matrix as
`A.multiply(B.multiply(C))`. -/
theorem Matrix.multiply_assoc {α : Type} [Field α] [DecidableEq α] [Inhabited α]
    (A B C : Matrix α) (hAB : A.getDim = B.getDim) (hBC : B.getDim = C.getDim) :
    ∃ AB BC L R : Matrix α,
      A.multiply B = .ok AB ∧ AB.multiply C = .ok L ∧
      B.multiply C = .ok BC ∧ A.multiply BC = .ok R ∧ L = R := by
  obtain ⟨n, a⟩ := A
  obtain ⟨nb, b⟩ := B
  obtain ⟨nc, c⟩ := C
  have h1 : n = nb := hAB
  have h2 : nb = nc := hBC
  subst h1
  subst h2
  refine ⟨_, _, _, _,
    Matrix.multiply_eq ({ dim := n, mat := a } : Matrix α) { dim := n, mat := b } rfl,
    Matrix.multiply_eq _ ({ dim := n, mat := c } : Matrix α) rfl,
    Matrix.multiply_eq ({ dim := n, mat := b } : Matrix α) { dim := n, mat := c } rfl,
    Matrix.multiply_eq ({ dim := n, mat := a } : Matrix α) _ rfl, ?_⟩
  congr 1
  apply eq_of_sqOf_eq n _ _ (Shape.tabulate2 _ _ _) (Shape.tabulate2 _ _ _)
  show sqOf n (tabulate2 n n fun row col => ∑ i ∈ Finset.range n,
      get2 (tabulate2 n n fun row col => ∑ i ∈ Finset.range n, get2 a row i * get2 b i col)
        row i * get2 c i col)
    = sqOf n (tabulate2 n n fun row col => ∑ i ∈ Finset.range n,
      get2 a row i * get2 (tabulate2 n n fun row col =>
        ∑ i ∈ Finset.range n, get2 b row i * get2 c i col) i col)
  rw [sqOf_product, sqOf_product, sqOf_product, sqOf_product, Matrix.mul_assoc]

theorem Matrix.multiply_assoc_witness :
    ({ dim := 2, mat := [[1, 2], [3, 4]] } : Matrix ℚ).getDim
      = ({ dim := 2, mat := [[0, 1], [1, 0]] } : Matrix ℚ).getDim ∧
    ({ dim := 2, mat := [[0, 1], [1, 0]] } : Matrix ℚ).getDim
      = ({ dim := 2, mat := [[5, 6], [7, 8]] } : Matrix ℚ).getDim ∧
    ∃ AB BC L R : Matrix ℚ,
      ({ dim := 2, mat := [[1, 2], [3, 4]] } : Matrix ℚ).multiply
        { dim := 2, mat := [[0, 1], [1, 0]] } = .ok AB ∧
      AB.multiply { dim := 2, mat := [[5, 6], [7, 8]] } = .ok L ∧
      ({ dim := 2, mat := [[0, 1], [1, 0]] } : Matrix ℚ).multiply
        { dim := 2, mat := [[5, 6], [7, 8]] } = .ok BC ∧
      ({ dim := 2, mat := [[1, 2], [3, 4]] } : Matrix ℚ).multiply BC = .ok R ∧ L = R :=
  ⟨rfl, rfl, Matrix.multiply_assoc
    ({ dim := 2, mat := [[1, 2], [3, 4]] } : Matrix ℚ)
    ({ dim := 2, mat := [[0, 1], [1, 0]] } : Matrix ℚ)
    ({ dim := 2, mat := [[5, 6], [7, 8]] } : Matrix ℚ) rfl rfl⟩

/-- C15.  For every matrix `A` of dimension `d`, `Matrix.getIdenity(d)` is a
matrix and `A.multiply(Matrix.getIdenity(d))` returns a matrix with exactly
the entries of `A`. -/
theorem Matrix.multiply_identity {α : Type} [Field α] [DecidableEq α] [Inhabited α]
    (A : Matrix α) (hA : A.WF) :
    ∃ I P : Matrix α, Matrix.getIdenity A.getDim = .ok I ∧ A.multiply I = .ok P ∧
      P = A ∧ ∀ row col, row < A.getDim → col < A.getDim →
        get2 P.mat row col = get2 A.mat row col := by
  obtain ⟨n, a⟩ := A
  have ha : Shape a n n := hA
  have hP : (tabulate2 n n fun row col => ∑ i ∈ Finset.range n,
      get2 a row i * get2 (tabulate2 n n fun r c => if c = r then (1 : α) else 0) i col)
      = a := by
    apply eq_of_sqOf_eq n _ _ (Shape.tabulate2 _ _ _) ha
    rw [sqOf_product, sqOf_identity, mul_one]
  refine ⟨_, _, Matrix.getIdenity_eq n,
    Matrix.multiply_eq ({ dim := n, mat := a } : Matrix α) _ rfl, ?_, ?_⟩
  · exact congrArg (Matrix.mk n) hP
  · intro row col _ _
    exact congrArg (fun m => get2 m row col) hP

theorem Matrix.multiply_identity_witness :
    ({ dim := 2, mat := [[1, 2], [3, 4]] } : Matrix ℚ).WF ∧
    ∃ I P : Matrix ℚ,
      Matrix.getIdenity ({ dim := 2, mat := [[1, 2], [3, 4]] } : Matrix ℚ).getDim = .ok I ∧
      ({ dim := 2, mat := [[1, 2], [3, 4]] } : Matrix ℚ).multiply I = .ok P ∧
      P = { dim := 2, mat := [[1, 2], [3, 4]] } ∧
      ∀ row col, row < ({ dim := 2, mat := [[1, 2], [3, 4]] } : Matrix ℚ).getDim →
        col < ({ dim := 2, mat := [[1, 2], [3, 4]] } : Matrix ℚ).getDim →
        get2 P.mat row col = get2 ([[1, 2], [3, 4]] : List (List ℚ)) row col :=
  have hwf : ({ dim := 2, mat := [[1, 2], [3, 4]] } : Matrix ℚ).WF := ⟨rfl, by simp⟩
  ⟨hwf, Matrix.multiply_identity ({ dim := 2, mat := [[1, 2], [3, 4]] } : Matrix ℚ) hwf⟩

/-- C16.  For every `d ≥ 2`, `Matrix.getIdenity(d)` is a matrix and its
`determinant()` returns 1. -/
theorem Matrix.determinant_identity {α : Type} [Field α] [DecidableEq α] [Inhabited α]
    (d : Nat) (hd : 2 ≤ d) :
    ∃ I : Matrix α, Matrix.getIdenity d = .ok I ∧ I.determinant = .ok 1 := by
  refine ⟨_, Matrix.getIdenity_eq d, ?_⟩
  rw [Matrix.determinant_eq d _ (Shape.tabulate2 d d _), if_neg (by omega), sqOf_identity,
    Matrix.det_one]

theorem Matrix.determinant_identity_witness :
    2 ≤ 4 ∧ ∃ I : Matrix ℚ, Matrix.getIdenity 4 = .ok I ∧ I.determinant = .ok 1 :=
  ⟨by decide, Matrix.determinant_identity 4 (by decide)⟩

/-! ## Theorems: the exports `getArray` -/

section ExportLemmas

variable {α : Type}

theorem tabulate2_succ (n d : Nat) (f : Nat → Nat → α) :
    tabulate2 (n + 1) d f = tabulate2 n d f ++ [(List.range d).map fun c => f n c] := by
  simp only [tabulate2, List.range_succ, List.map_append, List.map_cons, List.map_nil]

theorem length_flatten_tabulate2 (n d : Nat) (f : Nat → Nat → α) :
    (tabulate2 n d f).flatten.length = n * d := by
  induction n with
  | zero => simp [tabulate2]
  | succ n ih =>
    rw [tabulate2_succ, List.flatten_append, List.length_append, ih, List.flatten_singleton,
      List.length_map, List.length_range, Nat.succ_mul]

/-- The entry `f i j` of the table is at index `i * d + j` of the flat array
the double loop pushes. -/
theorem getElem?_flatten_tabulate2 (n d : Nat) (f : Nat → Nat → α) (i j : Nat)
    (hi : i < n) (hj : j < d) :
    (tabulate2 n d f).flatten[i * d + j]? = some (f i j) := by
  induction n with
  | zero => omega
  | succ n ih =>
    rw [tabulate2_succ, List.flatten_append, List.flatten_singleton]
    by_cases hin : i < n
    · have hlt : i * d + j < (tabulate2 n d f).flatten.length := by
        rw [length_flatten_tabulate2]
        calc i * d + j < i * d + d := by omega
          _ = (i + 1) * d := (Nat.succ_mul i d).symm
          _ ≤ n * d := Nat.mul_le_mul_right d hin
      rw [List.getElem?_append_left hlt]
      exact ih hin
    · have hi' : i = n := by omega
      subst hi'
      rw [List.getElem?_append_right (by rw [length_flatten_tabulate2]; omega),
        length_flatten_tabulate2, Nat.add_sub_cancel_left, List.getElem?_map,
        List.getElem?_range hj]
      rfl

theorem Matrix.getArray_false_eq [Inhabited α] (M : Matrix α) :
    M.getArray false = (tabulate2 M.dim M.dim fun r c => get2 M.mat r c).flatten := by
  simp only [Matrix.getArray, Bool.false_eq_true, if_false, tabulate2]

theorem Matrix.getArray_true_eq [Inhabited α] (M : Matrix α) :
    M.getArray true = (tabulate2 M.dim M.dim fun c r => get2 M.mat r c).flatten := by
  simp only [Matrix.getArray, if_true, tabulate2]

/-- The matrix the constructor builds from a flat array of length `d * d`,
read row major. -/
theorem Matrix.new_flat_eq [Inhabited α] (a : List α) (d : Nat) (h : d * d = a.length) :
    Matrix.new (.flat a) false =
      .ok { dim := d, mat := tabulate2 d d fun row col => a.getD (row * d + col) default } := by
  have hs : Nat.sqrt a.length = d := by rw [← h]; exact Nat.sqrt_eq d
  simp [Matrix.new, MatrixArray.multiDim, MatrixArray.length, hs, h, MatrixArray.at1,
    tabulate2]

end ExportLemmas

/-- C17.  For every flat array `a` whose length is a perfect square,
`new Matrix(a, false)` is a matrix and its `getArray(false)` is `a`. -/
theorem Matrix.getArray_new_flat {α : Type} [Inhabited α] (a : List α) (d : Nat)
    (h : d * d = a.length) :
    ∃ M : Matrix α, Matrix.new (.flat a) false = .ok M ∧ M.getArray false = a := by
  refine ⟨_, Matrix.new_flat_eq a d h, ?_⟩
  rw [Matrix.getArray_false_eq]
  show (tabulate2 d d fun r c =>
    get2 (tabulate2 d d fun row col => a.getD (row * d + col) default) r c).flatten = a
  apply List.ext_getElem?
  intro k
  by_cases hk : k < d * d
  · have hd : 0 < d := by
      rcases Nat.eq_zero_or_pos d with h0 | h0
      · subst h0; omega
      · exact h0
    have hq : k / d < d := Nat.div_lt_of_lt_mul hk
    have hr : k % d < d := Nat.mod_lt k hd
    have hk' : k / d * d + k % d = k := Nat.div_add_mod' k d
    have hka : k < a.length := h ▸ hk
    have hget := getElem?_flatten_tabulate2 d d
      (fun r c => get2 (tabulate2 d d fun row col => a.getD (row * d + col) default) r c)
      (k / d) (k % d) hq hr
    beta_reduce at hget
    rw [hk', get2_tabulate2 d d _ _ _ hq hr, hk', List.getD_eq_getElem?_getD,
      List.getElem?_eq_getElem hka] at hget
    rw [hget, List.getElem?_eq_getElem hka]
    rfl
  · rw [List.getElem?_eq_none (by rw [length_flatten_tabulate2]; omega),
      List.getElem?_eq_none (by omega)]

theorem Matrix.getArray_new_flat_witness :
    2 * 2 = ([1, 2, 3, 4] : List ℚ).length ∧
    ∃ M : Matrix ℚ, Matrix.new (.flat [1, 2, 3, 4]) false = .ok M ∧
      M.getArray false = [1, 2, 3, 4] :=
  ⟨rfl, Matrix.getArray_new_flat ([1, 2, 3, 4] : List ℚ) 2 rfl⟩

/-- C18.  For every matrix `M` of dimension `d` and all `r, c < d`, the entry
at index `c * d + r` of `getArray(true)` is the entry at index `r * d + c` of
`getArray(false)`, namely `mat[r][c]`.  Hence the two exports of a symmetric
matrix are the same array, and so are those of `Matrix.getIdenity(4)`. -/
theorem Matrix.getArray_column_major {α : Type} [Field α] [DecidableEq α] [Inhabited α]
    (M : Matrix α) :
    (∀ r c, r < M.getDim → c < M.getDim →
      (M.getArray true)[c * M.getDim + r]? = some (get2 M.mat r c) ∧
      (M.getArray false)[r * M.getDim + c]? = some (get2 M.mat r c)) ∧
    ((∀ r c, r < M.getDim → c < M.getDim → get2 M.mat r c = get2 M.mat c r) →
      M.getArray true = M.getArray false) ∧
    (∃ I : Matrix α, Matrix.getIdenity 4 = .ok I ∧ I.getArray true = I.getArray false) := by
  have hsym : ∀ N : Matrix α,
      (∀ r c, r < N.dim → c < N.dim → get2 N.mat r c = get2 N.mat c r) →
      N.getArray true = N.getArray false := by
    intro N h
    rw [Matrix.getArray_true_eq, Matrix.getArray_false_eq]
    congr 1
    apply ext2 (Shape.tabulate2 _ _ _) (Shape.tabulate2 _ _ _)
    intro i j hi hj
    rw [get2_tabulate2 _ _ _ _ _ hi hj, get2_tabulate2 _ _ _ _ _ hi hj]
    exact h j i hj hi
  refine ⟨fun r c hr hc => ⟨?_, ?_⟩, hsym M, _, Matrix.getIdenity_eq 4, hsym _ ?_⟩
  · rw [Matrix.getArray_true_eq]
    exact getElem?_flatten_tabulate2 M.dim M.dim _ c r hc hr
  · rw [Matrix.getArray_false_eq]
    exact getElem?_flatten_tabulate2 M.dim M.dim _ r c hr hc
  · intro r c hr hc
    rw [get2_tabulate2 4 4 _ r c hr hc, get2_tabulate2 4 4 _ c r hc hr]
    by_cases h : c = r
    · rw [if_pos h, if_pos h.symm]
    · rw [if_neg h, if_neg (fun e => h e.symm)]

theorem Matrix.getArray_column_major_witness :
    (0 < ({ dim := 2, mat := [[1, 2], [3, 4]] } : Matrix ℚ).getDim ∧
      1 < ({ dim := 2, mat := [[1, 2], [3, 4]] } : Matrix ℚ).getDim) ∧
    (({ dim := 2, mat := [[1, 2], [3, 4]] } : Matrix ℚ).getArray true)[
        1 * ({ dim := 2, mat := [[1, 2], [3, 4]] } : Matrix ℚ).getDim + 0]?
      = some (get2 ([[1, 2], [3, 4]] : List (List ℚ)) 0 1) ∧
    (({ dim := 2, mat := [[1, 2], [3, 4]] } : Matrix ℚ).getArray false)[
        0 * ({ dim := 2, mat := [[1, 2], [3, 4]] } : Matrix ℚ).getDim + 1]?
      = some (get2 ([[1, 2], [3, 4]] : List (List ℚ)) 0 1) :=
  ⟨⟨by decide, by decide⟩,
    (Matrix.getArray_column_major ({ dim := 2, mat := [[1, 2], [3, 4]] } : Matrix ℚ)).1
      0 1 (by decide) (by decide)⟩

/-! ## Theorems: spawn calls made by `update` -/

/-- What a returning call of `Spark.getNewSpark` does to a pool that is within
its capacity. -/
theorem Spark.getNewSpark_effect (cap : Nat) (pool : Pool) (a : SparkArgs)
    (r : Option Spark) (pool' : Pool) (hlen : pool.sparks.length ≤ cap)
    (he : pool.lastInactiveSpark < cap)
    (h : Spark.getNewSpark cap pool a = .ok (r, pool')) :
    pool'.sparks.length ≤ cap ∧ pool'.lastInactiveSpark < cap ∧
    pool.sparks.length ≤ pool'.sparks.length ∧
    (∀ s, r = some s → s.type = a.type ∧ pool'.sparks[s.id]? = some s) ∧
    (∀ i, i < pool.sparks.length → (∀ s, r = some s → s.id ≠ i) →
      pool'.sparks[i]? = pool.sparks[i]?) := by
  rcases Spark.getNewSpark_inv cap pool a r pool' h with
    ⟨hlt, hr, hp⟩ | ⟨_, c, s0, hs0, _, hr, hp⟩ | ⟨_, hr, hp⟩
  · subst hr hp
    refine ⟨by simp; omega, he, by simp, ?_, ?_⟩
    · intro s hs
      cases hs
      exact ⟨rfl, by simp [Spark.ofArgs]⟩
    · intro i hi _
      exact List.getElem?_append_left hi
  · have hc : c < pool.sparks.length := (List.getElem?_eq_some.mp hs0).1
    subst hr hp
    refine ⟨by simpa using hlen, by show c < cap; omega, by simp, ?_, ?_⟩
    · intro s hs
      cases hs
      exact ⟨rfl, List.getElem?_set_self hc⟩
    · intro i _ hne
      have hci : c ≠ i := hne _ rfl
      exact List.getElem?_set_ne hci
  · subst hr hp
    refine ⟨hlen, he, Nat.le_refl _, ?_, ?_⟩
    · intro s hs
      cases hs
    · intro _ _ _
      rfl

theorem UpdateState.sync_length (st : UpdateState) :
    st.sync.sparks.length = st.globals.pool.sparks.length := by
  unfold UpdateState.sync
  split <;> simp

theorem UpdateState.sync_cursor (st : UpdateState) :
    st.sync.lastInactiveSpark = st.globals.pool.lastInactiveSpark := by
  unfold UpdateState.sync
  split <;> rfl

theorem UpdateState.sync_getElem?_self (st : UpdateState) (h : st.attached = true)
    (hid : st.self.id < st.globals.pool.sparks.length) :
    st.sync.sparks[st.self.id]? = some st.self := by
  unfold UpdateState.sync
  rw [if_pos h]
  exact List.getElem?_set_self hid

theorem UpdateState.sync_getElem?_detached (st : UpdateState) (h : st.attached = false)
    (i : Nat) : st.sync.sparks[i]? = st.globals.pool.sparks[i]? := by
  unfold UpdateState.sync
  rw [if_neg (by simp [h])]

/-- A spawn call made by `update` in a state that is in order returns; it
leaves the private variables alone, adds its entry to the record, and keeps
the state in order.  If the particle asked for is an Ember or a Spark, the
slot of the object still holds the object or an Ember or a Spark. -/
theorem UpdateState.spawn_spec (MAX : Nat) (a : SparkArgs) (st : UpdateState)
    (hinv : st.Inv MAX) :
    ∃ r st', st.spawn MAX a = .ok (r, st') ∧ st'.Inv MAX ∧ st'.self = st.self ∧
      st'.spawns = st.spawns ++ [(a, r)] ∧
      st'.globals.random = st.globals.random ∧
      st'.globals.antiRotMat = st.globals.antiRotMat ∧
      st'.globals.matrixArray = st.globals.matrixArray ∧
      st'.globals.lightArray = st.globals.lightArray ∧
      (st.SlotOK → (a.type = Spark.types.EMBER ∨ a.type = Spark.types.SPARK) →
        st'.SlotOK) := by
  obtain ⟨⟨hlen, hcur, hanti⟩, hatt⟩ := hinv
  obtain ⟨r, pool', hget⟩ := Spark.getNewSpark_total MAX st.sync a
    (by rw [UpdateState.sync_length]; exact hlen)
    (by rw [UpdateState.sync_cursor]; exact hcur)
  obtain ⟨h1, h2, h3, h4, h5⟩ := Spark.getNewSpark_effect MAX st.sync a r pool'
    (by rw [UpdateState.sync_length]; exact hlen)
    (by rw [UpdateState.sync_cursor]; exact hcur) hget
  rw [UpdateState.sync_length] at h3
  refine ⟨r,
    { st with
      attached := st.attached && !storedAt r st.self.id
      globals := { st.globals with pool := pool' }
      spawns := st.spawns ++ [(a, r)] },
    by simp only [UpdateState.spawn, hget, Res.ok_bind], ⟨⟨h1, h2, hanti⟩, ?_⟩,
    rfl, rfl, rfl, rfl, rfl, rfl, ?_⟩
  · intro hatt'
    have hb : st.attached = true := by
      simp only [Bool.and_eq_true] at hatt'
      exact hatt'.1
    exact Nat.lt_of_lt_of_le (hatt hb) h3
  · intro hslot htype
    cases r with
    | none =>
      cases hatt0 : st.attached with
      | true => left; simp [hatt0, storedAt]
      | false =>
        right
        rcases hslot with hb | ⟨s, hs, hty⟩
        · rw [hatt0] at hb; cases hb
        · have hi : st.self.id < st.globals.pool.sparks.length :=
            (List.getElem?_eq_some.mp hs).1
          refine ⟨s, ?_, hty⟩
          show pool'.sparks[st.self.id]? = some s
          rw [h5 st.self.id (by rw [UpdateState.sync_length]; exact hi)
            (fun _ h => by cases h), UpdateState.sync_getElem?_detached st hatt0]
          exact hs
    | some s =>
      obtain ⟨hsty, hsget⟩ := h4 s rfl
      by_cases hid : s.id = st.self.id
      · right
        refine ⟨s, ?_, by rw [hsty]; exact htype⟩
        show pool'.sparks[st.self.id]? = some s
        rw [← hid]
        exact hsget
      · cases hatt0 : st.attached with
        | true => left; simp [hatt0, hid, storedAt]
        | false =>
          right
          rcases hslot with hb | ⟨s0, hs0, hty⟩
          · rw [hatt0] at hb; cases hb
          · have hi : st.self.id < st.globals.pool.sparks.length :=
              (List.getElem?_eq_some.mp hs0).1
            refine ⟨s0, ?_, hty⟩
            show pool'.sparks[st.self.id]? = some s0
            rw [h5 st.self.id (by rw [UpdateState.sync_length]; exact hi)
              (fun t ht => by cases ht; exact hid),
              UpdateState.sync_getElem?_detached st hatt0]
            exact hs0

/-- The particle a spawn call returns is the one the constructor makes of the
arguments of the call. -/
theorem UpdateState.spawn_result (MAX : Nat) (a : SparkArgs) (st : UpdateState)
    (r : Option Spark) (st' : UpdateState) (h : st.spawn MAX a = .ok (r, st')) :
    ∀ s, r = some s → s = Spark.ofArgs a s.id identity4 := by
  unfold UpdateState.spawn at h
  cases hget : Spark.getNewSpark MAX st.sync a with
  | ok p =>
    obtain ⟨r0, pool'⟩ := p
    rw [hget] at h
    simp only [Res.ok_bind, Res.ok.injEq, Prod.mk.injEq] at h
    obtain ⟨hr, -⟩ := h
    subst hr
    intro s hs
    rcases Spark.getNewSpark_inv MAX st.sync a r0 pool' hget with
      ⟨-, hr, -⟩ | ⟨-, c, s0, -, -, hr, -⟩ | ⟨-, hr, -⟩
    · rw [hr] at hs
      cases hs
      rfl
    · rw [hr] at hs
      cases hs
      rfl
    · rw [hr] at hs
      cases hs
  | throw m => rw [hget] at h; cases h
  | diverge => rw [hget] at h; cases h

/-! ## Theorems: the explosion of a Rocket -/

theorem IsFanOut.zero (x y z : ℚ) : IsFanOut 0 x y z [] := by
  unfold IsFanOut
  refine ⟨fun e he => ?_, [], fun e he => ?_, Or.inl ⟨rfl, rfl⟩⟩
  · cases he
  · cases he

theorem IsFanOut.stop (n : Nat) (x y z : ℚ) (a : SparkArgs)
    (ha : a.type = Spark.types.SPARK ∧ a.x = x ∧ a.y = y ∧ a.z = z) :
    IsFanOut (n + 1) x y z [(a, none)] := by
  unfold IsFanOut
  refine ⟨fun e he => ?_, [], fun e he => ?_, Or.inr ⟨a, rfl, Nat.succ_pos n⟩⟩
  · rw [List.mem_singleton] at he
    subst he
    exact ⟨ha.1, ha.2.1, ha.2.2.1, ha.2.2.2, fun s hs => by cases hs⟩
  · cases he

theorem IsFanOut.cons (n : Nat) (x y z : ℚ) (a : SparkArgs) (s : Spark)
    (children : SpawnLog)
    (ha : a.type = Spark.types.SPARK ∧ a.x = x ∧ a.y = y ∧ a.z = z)
    (hs : s = Spark.ofArgs a s.id identity4)
    (h : IsFanOut n x y z children) :
    IsFanOut (n + 1) x y z ((a, some s) :: children) := by
  unfold IsFanOut at h ⊢
  obtain ⟨hall, created, hcreated, hor⟩ := h
  refine ⟨fun e he => ?_, (a, some s) :: created, fun e he => ?_, ?_⟩
  · rcases List.mem_cons.mp he with rfl | he'
    · refine ⟨ha.1, ha.2.1, ha.2.2.1, ha.2.2.2, fun t ht => ?_⟩
      cases ht
      exact hs
    · exact hall e he'
  · rcases List.mem_cons.mp he with rfl | he'
    · rfl
    · exact hcreated e he'
  · rcases hor with ⟨h1, h2⟩ | ⟨b, h1, h2⟩
    · left
      exact ⟨by rw [h1], by simp [h2]⟩
    · right
      exact ⟨b, by rw [h1]; rfl, by simp; omega⟩

/-- A fan-out with a positive bound makes at least one call. -/
theorem IsFanOut.ne_nil (n : Nat) (hn : 0 < n) (x y z : ℚ) (children : SpawnLog)
    (h : IsFanOut n x y z children) : children ≠ [] := by
  unfold IsFanOut at h
  obtain ⟨-, created, -, hor⟩ := h
  rcases hor with ⟨h1, h2⟩ | ⟨b, h1, -⟩
  · intro he
    rw [he] at h1
    rw [← h1] at h2
    simp at h2
    omega
  · rw [h1]
    simp

/-- The explosion loop, started in a state that is in order, returns; it
leaves the private variables, `antiRotMat` and the buffers alone and its part
of the record is a fan-out at the position of the object. -/
theorem Spark.explodeLoop_spec (env : MathEnv) (MAX : Nat) : ∀ (n : Nat) (st : UpdateState),
    st.Inv MAX →
    ∃ st', Spark.explodeLoop env MAX n st = .ok st' ∧ st'.Inv MAX ∧ st'.self = st.self ∧
      st'.globals.antiRotMat = st.globals.antiRotMat ∧
      st'.globals.matrixArray = st.globals.matrixArray ∧
      st'.globals.lightArray = st.globals.lightArray ∧
      (st.SlotOK → st'.SlotOK) ∧
      ∃ children, st'.spawns = st.spawns ++ children ∧
        IsFanOut n st.self.x st.self.y st.self.z children := by
  intro n
  induction n with
  | zero =>
    intro st hinv
    exact ⟨st, rfl, hinv, rfl, rfl, rfl, rfl, fun h => h, [], by simp, IsFanOut.zero _ _ _⟩
  | succ n ih =>
    intro st hinv
    have key : ∀ (a : SparkArgs) (st3 : UpdateState)
        (k : Option Spark × UpdateState → Res UpdateState),
        (∀ s, k (none, s) = .ok s) →
        (∀ p s, k (some p, s) = Spark.explodeLoop env MAX n s) →
        st3.Inv MAX → st3.self = st.self → st3.spawns = st.spawns →
        st3.globals.antiRotMat = st.globals.antiRotMat →
        st3.globals.matrixArray = st.globals.matrixArray →
        st3.globals.lightArray = st.globals.lightArray →
        (st.SlotOK → st3.SlotOK) →
        (a.type = Spark.types.SPARK ∧ a.x = st.self.x ∧ a.y = st.self.y ∧ a.z = st.self.z) →
        ∃ st', (st3.spawn MAX a).bind k = .ok st' ∧ st'.Inv MAX ∧ st'.self = st.self ∧
          st'.globals.antiRotMat = st.globals.antiRotMat ∧
          st'.globals.matrixArray = st.globals.matrixArray ∧
          st'.globals.lightArray = st.globals.lightArray ∧
          (st.SlotOK → st'.SlotOK) ∧
          ∃ children, st'.spawns = st.spawns ++ children ∧
            IsFanOut (n + 1) st.self.x st.self.y st.self.z children := by
      intro a st3 k hk0 hk1 hinv3 hself3 hsp3 hanti3 hmat3 hlight3 hslot3 ha
      obtain ⟨r, st4, hspawn, hinv4, hself4, hsp4, -, hanti4, hmat4, hlight4, hslot4⟩ :=
        UpdateState.spawn_spec MAX a st3 hinv3
      rw [hspawn, Res.ok_bind]
      cases r with
      | none =>
        rw [hk0]
        refine ⟨st4, rfl, hinv4, hself4.trans hself3, hanti4.trans hanti3,
          hmat4.trans hmat3, hlight4.trans hlight3,
          fun h => hslot4 (hslot3 h) (Or.inr ha.1), [(a, none)], ?_,
          IsFanOut.stop n _ _ _ a ha⟩
        rw [hsp4, hsp3]
      | some s =>
        rw [hk1]
        obtain ⟨st', hloop, hinv', hself', hanti', hmat', hlight', hslot', children,
          hchildren, hfan⟩ := ih st4 hinv4
        rw [hself4, hself3] at hfan
        refine ⟨st', hloop, hinv', hself'.trans (hself4.trans hself3),
          hanti'.trans (hanti4.trans hanti3), hmat'.trans (hmat4.trans hmat3),
          hlight'.trans (hlight4.trans hlight3),
          fun h => hslot' (hslot4 (hslot3 h) (Or.inr ha.1)),
          (a, some s) :: children, ?_, IsFanOut.cons n _ _ _ a s children ha
            (UpdateState.spawn_result MAX a st3 _ st4 hspawn s rfl) hfan⟩
        rw [hchildren, hsp4, hsp3, List.append_assoc]
        rfl
    exact key _ _ _ (fun _ => rfl) (fun _ _ => rfl) hinv rfl rfl rfl rfl rfl (fun h => h)
      ⟨rfl, rfl, rfl, rfl⟩

/-! ## Theorems: `update` of a Rocket -/

theorem Spark.fade_time (self : Spark) : self.fade.time = self.time := rfl

theorem Spark.fade_position (self : Spark) :
    self.fade.x = self.x ∧ self.fade.y = self.y ∧ self.fade.z = self.z := ⟨rfl, rfl, rfl⟩

/-- The timer after the statements of the Rocket case. -/
theorem Spark.rocketPhysics_time (self : Spark) (deltaTime : ℚ) :
    (self.rocketPhysics deltaTime).time =
      if self.y > 0 ∧ self.time > 2 then 1 / 2 else self.time := by
  unfold Spark.rocketPhysics
  by_cases h : self.y > 0 ∧ self.time > 2
  · simp only [h, and_self, if_true]
    split_ifs <;> rfl
  · simp only [h, if_false]
    split_ifs <;> rfl

theorem Spark.rocketPhysics_fixed (self : Spark) (deltaTime : ℚ) :
    (self.rocketPhysics deltaTime).x = self.x ∧ (self.rocketPhysics deltaTime).y = self.y ∧
    (self.rocketPhysics deltaTime).z = self.z ∧
    (self.rocketPhysics deltaTime).id = self.id ∧
    (self.rocketPhysics deltaTime).type = self.type := by
  unfold Spark.rocketPhysics
  dsimp only
  split_ifs <;> exact ⟨rfl, rfl, rfl, rfl, rfl⟩

/-- The number of iterations of the explosion loop is between 100 and 150. -/
theorem newSparkCount_bounds (u : ℚ) (h0 : 0 ≤ u) (h1 : u < 1) :
    100 ≤ (Int.floor (u * 50) + 100).toNat ∧ (Int.floor (u * 50) + 100).toNat ≤ 150 := by
  have hlo : (0 : ℤ) ≤ Int.floor (u * 50) := Int.floor_nonneg.mpr (by positivity)
  have hhi : Int.floor (u * 50) < 50 := by
    rw [Int.floor_lt]
    push_cast
    linarith
  omega

/-- The Rocket case of `update`, started in a state that is in order, returns.
The private variables become those `rocketPhysics` computes; `antiRotMat` and
the buffers stay; the record grows by at most one call for an Ember and then,
exactly when the resulting timer is not positive while the timer before this
`update` was, by the calls of an explosion whose bound is
`floor(50 u) + 100` for a result `u` of `Math.random()`. -/
theorem Spark.updateRocket_spec (env : MathEnv) (MAX : Nat) (deltaTime : ℚ)
    (st : UpdateState) (hinv : st.Inv MAX) :
    ∃ st', Spark.updateRocket env MAX deltaTime st = .ok st' ∧ st'.Inv MAX ∧
      st'.self = st.self.rocketPhysics deltaTime ∧
      st'.globals.antiRotMat = st.globals.antiRotMat ∧
      st'.globals.matrixArray = st.globals.matrixArray ∧
      st'.globals.lightArray = st.globals.lightArray ∧
      (st.SlotOK → st'.SlotOK) ∧
      ∃ ember children, st'.spawns = st.spawns ++ ember ++ children ∧
        ember.length ≤ 1 ∧ (∀ e ∈ ember, e.1.type = Spark.types.EMBER) ∧
        (¬ ((st.self.rocketPhysics deltaTime).time ≤ 0 ∧
            (st.self.rocketPhysics deltaTime).time + deltaTime > 0) → children = []) ∧
        (((st.self.rocketPhysics deltaTime).time ≤ 0 ∧
            (st.self.rocketPhysics deltaTime).time + deltaTime > 0) →
          ∃ k, IsFanOut (Int.floor (st.globals.random k * 50) + 100).toNat
            st.self.x st.self.y st.self.z children) := by
  -- the state after the Ember
  have hember : ∃ st1, (let (u, st) := st.nextRandom
      (if u < 1 then
        let (angle, g) := getRandomAngle (env.PI * (9 / 20)) (env.PI * (11 / 20)) st.globals
        let vec := angleToVector env angle 1
        let st := { st with globals := g }
        let sr := vec.2
        let sg : ℚ := 1 / 2
        let sb : ℚ := 0
        let (u, st) := st.nextRandom
        let nx := u * 30 - 15
        let (u, st) := st.nextRandom
        let ny := u * 30 - 15
        let (u, st) := st.nextRandom
        let nz := u * 30 - 15
        let (u, st) := st.nextRandom
        (st.spawn MAX
          { type := Spark.types.EMBER, time := u * 2, size := 4,
            x := st.self.x, y := st.self.y, z := st.self.z, vx := nx, vy := ny, vz := nz,
            r := sr, g := sg, b := sb, lum := 9 / 10, insty := 10, tags := none }).bind
          fun (_, st) => Res.ok st
      else Res.ok st)) = .ok st1 ∧ st1.Inv MAX ∧ st1.self = st.self ∧
      st1.globals.antiRotMat = st.globals.antiRotMat ∧
      st1.globals.matrixArray = st.globals.matrixArray ∧
      st1.globals.lightArray = st.globals.lightArray ∧
      (st.SlotOK → st1.SlotOK) ∧
      (∃ j, st1.globals.random = fun n => st.globals.random (n + j)) ∧
      ∃ ember, st1.spawns = st.spawns ++ ember ∧ ember.length ≤ 1 ∧
        ∀ e ∈ ember, e.1.type = Spark.types.EMBER := by
    by_cases hu : st.globals.random 0 < 1
    · have key : ∀ (a : SparkArgs) (st3 : UpdateState),
          st3.Inv MAX → st3.self = st.self → st3.spawns = st.spawns →
          st3.globals.antiRotMat = st.globals.antiRotMat →
          st3.globals.matrixArray = st.globals.matrixArray →
          st3.globals.lightArray = st.globals.lightArray →
          (st.SlotOK → st3.SlotOK) →
          (∃ j, st3.globals.random = fun n => st.globals.random (n + j)) →
          a.type = Spark.types.EMBER →
          ∃ st1, ((st3.spawn MAX a).bind fun (p : Option Spark × UpdateState) =>
              Res.ok p.2) = .ok st1 ∧
            st1.Inv MAX ∧ st1.self = st.self ∧
            st1.globals.antiRotMat = st.globals.antiRotMat ∧
            st1.globals.matrixArray = st.globals.matrixArray ∧
            st1.globals.lightArray = st.globals.lightArray ∧
            (st.SlotOK → st1.SlotOK) ∧
            (∃ j, st1.globals.random = fun n => st.globals.random (n + j)) ∧
            ∃ ember, st1.spawns = st.spawns ++ ember ∧ ember.length ≤ 1 ∧
              ∀ e ∈ ember, e.1.type = Spark.types.EMBER := by
        intro a st3 hinv3 hself3 hsp3 hanti3 hmat3 hlight3 hslot3 hrand3 ha
        obtain ⟨r, st4, hspawn, hinv4, hself4, hsp4, hrand4, hanti4, hmat4, hlight4,
          hslot4⟩ := UpdateState.spawn_spec MAX a st3 hinv3
        rw [hspawn, Res.ok_bind]
        refine ⟨st4, rfl, hinv4, hself4.trans hself3, hanti4.trans hanti3,
          hmat4.trans hmat3, hlight4.trans hlight3,
          fun h => hslot4 (hslot3 h) (Or.inl ha), ?_, [(a, r)], ?_, Nat.le_refl 1, ?_⟩
        · obtain ⟨j, hj⟩ := hrand3
          exact ⟨j, hrand4.trans hj⟩
        · rw [hsp4, hsp3]
        · intro e he
          rw [List.mem_singleton] at he
          rw [he]
          exact ha
      simp only [UpdateState.nextRandom, hu, if_true, getRandomAngle, Globals.nextRandom]
      exact key _ _ hinv rfl rfl rfl rfl rfl (fun h => h) ⟨6, rfl⟩ rfl
    · simp only [UpdateState.nextRandom, hu, if_false]
      exact ⟨_, rfl, hinv, rfl, rfl, rfl, rfl, fun h => h, ⟨1, rfl⟩, [], by simp,
        Nat.zero_le 1, fun e he => by cases he⟩
  obtain ⟨st1, hst1, hinv1, hself1, hanti1, hmat1, hlight1, hslot1, ⟨j, hrand1⟩, ember,
    hsp1, hlen, hty⟩ := hember
  have hunfold : Spark.updateRocket env MAX deltaTime st =
      (Res.ok st1).bind fun st =>
        let self := st.self.rocketPhysics deltaTime
        let st := { st with self := self }
        if self.time ≤ 0 ∧ self.time + deltaTime > 0 then
          let (u, st) := st.nextRandom
          let newSparkCount : Int := Int.floor (u * 50) + 100
          Spark.explodeLoop env MAX newSparkCount.toNat st
        else .ok st := by
    rw [← hst1]
    rfl
  rw [hunfold, Res.ok_bind]
  by_cases hc : (st.self.rocketPhysics deltaTime).time ≤ 0 ∧
      (st.self.rocketPhysics deltaTime).time + deltaTime > 0
  · have hc1 : (st1.self.rocketPhysics deltaTime).time ≤ 0 ∧
        (st1.self.rocketPhysics deltaTime).time + deltaTime > 0 := by rw [hself1]; exact hc
    simp only [hc1, and_self, if_true, UpdateState.nextRandom]
    obtain ⟨st', hloop, hinv', hself', hanti', hmat', hlight', hslot', children, hchildren,
      hfan⟩ := Spark.explodeLoop_spec env MAX
        (Int.floor (st1.globals.random 0 * 50) + 100).toNat
        { st1 with self := st1.self.rocketPhysics deltaTime,
                   globals := st1.globals.nextRandom.2 }
        ⟨hinv1.1, fun h => by
          show (st1.self.rocketPhysics deltaTime).id < _
          rw [(Spark.rocketPhysics_fixed st1.self deltaTime).2.2.2.1]
          exact hinv1.2 h⟩
    refine ⟨st', hloop, hinv', ?_, hanti'.trans hanti1, hmat'.trans hmat1,
      hlight'.trans hlight1, fun h => ?_, ember, children, ?_, hlen, hty,
      fun hn => absurd hc hn, fun _ => ⟨0 + j, ?_⟩⟩
    · rw [hself']
      show st1.self.rocketPhysics deltaTime = _
      rw [hself1]
    · apply hslot'
      rcases hslot1 h with hatt | ⟨s, hs, hs'⟩
      · exact Or.inl hatt
      · right
        refine ⟨s, ?_, hs'⟩
        show st1.globals.pool.sparks[(st1.self.rocketPhysics deltaTime).id]? = some s
        rw [(Spark.rocketPhysics_fixed st1.self deltaTime).2.2.2.1]
        exact hs
    · rw [hchildren]
      show st1.spawns ++ children = _
      rw [hsp1]
    · have hx := Spark.rocketPhysics_fixed st1.self deltaTime
      have hfan' : IsFanOut (Int.floor (st1.globals.random 0 * 50) + 100).toNat
          (st1.self.rocketPhysics deltaTime).x (st1.self.rocketPhysics deltaTime).y
          (st1.self.rocketPhysics deltaTime).z children := hfan
      rw [hx.1, hx.2.1, hx.2.2.1, hself1, hrand1] at hfan'
      exact hfan'
  · have hc1 : ¬ ((st1.self.rocketPhysics deltaTime).time ≤ 0 ∧
        (st1.self.rocketPhysics deltaTime).time + deltaTime > 0) := by rw [hself1]; exact hc
    simp only [hc1, if_false]
    refine ⟨_, rfl, ⟨hinv1.1, fun h => ?_⟩, by rw [hself1], hanti1, hmat1, hlight1,
      fun h => ?_, ember, [], ?_, hlen, hty, fun _ => rfl, fun h => absurd h hc⟩
    · show (st1.self.rocketPhysics deltaTime).id < _
      rw [(Spark.rocketPhysics_fixed st1.self deltaTime).2.2.2.1]
      exact hinv1.2 h
    · rcases hslot1 h with hatt | ⟨s, hs, hs'⟩
      · exact Or.inl hatt
      · right
        refine ⟨s, ?_, hs'⟩
        show st1.globals.pool.sparks[(st1.self.rocketPhysics deltaTime).id]? = some s
        rw [(Spark.rocketPhysics_fixed st1.self deltaTime).2.2.2.1]
        exact hs
    · show st1.spawns = _
      rw [hsp1, List.append_nil]

/-! ## Theorems: the method `update` -/

/-- The 4x4 zero matrix that `update` stores in an inactive object. -/
theorem Matrix.new_zero16 :
    Matrix.new (.flat [(0 : ℚ), 0, 0, 0, 0, 0, 0, 0, 0, 0, 0, 0, 0, 0, 0, 0]) false
      = .ok { dim := 4, mat := [[0, 0, 0, 0], [0, 0, 0, 0], [0, 0, 0, 0], [0, 0, 0, 0]] } :=
  Matrix.new_flat_eq _ 4 rfl

/-- The method `update` on an inactive object: the cached transform becomes the
zero matrix, `updateData()` runs, nothing is spawned, and the other private
variables stay. -/
theorem Spark.update_inactive (env : MathEnv) (MAX : Nat) (self : Spark) (attached : Bool)
    (g : Globals) (deltaTime : ℚ) (h : self.isActive = false) :
    ∃ st, Spark.update env MAX self attached g deltaTime = .ok st ∧
      st.spawns = [] ∧
      st.self = { self with myMat :=
        { dim := 4, mat := [[0, 0, 0, 0], [0, 0, 0, 0], [0, 0, 0, 0], [0, 0, 0, 0]] } } := by
  simp only [Spark.update, h, Bool.not_false, if_true, Matrix.new_zero16, Res.ok_bind]
  exact ⟨_, rfl, rfl, rfl⟩

/-- Later calls of `update` on an inactive object spawn nothing and leave its
timer and its type as they are. -/
theorem Spark.updateMany_inactive (env : MathEnv) (MAX : Nat) :
    ∀ (later : List (Bool × Globals × ℚ)) (self : Spark), self.isActive = false →
    ∃ final, Spark.updateMany env MAX self later = .ok (final, []) ∧
      final.time = self.time ∧ final.type = self.type := by
  intro later
  induction later with
  | nil => intro self _; exact ⟨self, rfl, rfl, rfl⟩
  | cons step rest ih =>
    intro self h
    obtain ⟨attached, g, deltaTime⟩ := step
    obtain ⟨st, hst, hsp, hself⟩ := Spark.update_inactive env MAX self attached g deltaTime h
    have hact : st.self.isActive = false := by rw [hself]; exact h
    obtain ⟨final, hfinal, htime, htype⟩ := ih st.self hact
    refine ⟨final, ?_, by rw [htime, hself], by rw [htype, hself]⟩
    simp only [Spark.updateMany, hst, Res.ok_bind, hfinal, hsp, List.append_nil]

/-- The method `update` on an active Rocket, with the global variables in
order, returns.  The final private variables are those `rocketPhysics`
computes from the integrated ones, with a new cached transform; the record is
that of the Rocket case; the slot of an attached object holds the final
private variables. -/
theorem Spark.update_rocket_spec (env : MathEnv) (MAX : Nat) (self : Spark)
    (attached : Bool) (g : Globals) (deltaTime : ℚ)
    (htype : self.type = Spark.types.ROCKET) (hactive : self.isActive = true)
    (hg : g.WF MAX) (hatt : attached = true → self.id < g.pool.sparks.length) :
    ∃ st myMat, Spark.update env MAX self attached g deltaTime = .ok st ∧
      st.self = { ({ self with
          time := self.time - deltaTime, x := self.x + self.vx * deltaTime,
          y := self.y + self.vy * deltaTime,
          z := self.z + self.vz * deltaTime } : Spark).rocketPhysics deltaTime with
        myMat := myMat } ∧
      (st.attached = true → st.globals.pool.sparks[self.id]? = some st.self) ∧
      (attached = true → st.attached = false →
        ∃ s, st.globals.pool.sparks[self.id]? = some s ∧
          (s.type = Spark.types.EMBER ∨ s.type = Spark.types.SPARK)) ∧
      ∃ ember children, st.spawns = ember ++ children ∧
        ember.length ≤ 1 ∧ (∀ e ∈ ember, e.1.type = Spark.types.EMBER) ∧
        (¬ (st.self.time ≤ 0 ∧ st.self.time + deltaTime > 0) → children = []) ∧
        ((st.self.time ≤ 0 ∧ st.self.time + deltaTime > 0) →
          ∃ k, IsFanOut (Int.floor (g.random k * 50) + 100).toNat
            st.self.x st.self.y st.self.z children) := by
  obtain ⟨st1, hst1, hinv1, hself1, hanti1, -, -, hslot1, ember, children, hsp1, hlen, hty,
    hno, hyes⟩ := Spark.updateRocket_spec env MAX deltaTime
      { self := { self with
          time := self.time - deltaTime, x := self.x + self.vx * deltaTime,
          y := self.y + self.vy * deltaTime, z := self.z + self.vz * deltaTime },
        attached := attached, globals := g, spawns := [] }
      ⟨hg, hatt⟩
  have hfix := Spark.rocketPhysics_fixed
    ({ self with
      time := self.time - deltaTime, x := self.x + self.vx * deltaTime,
      y := self.y + self.vy * deltaTime, z := self.z + self.vz * deltaTime } : Spark)
    deltaTime
  have hdim : st1.globals.antiRotMat.dim = 4 := hinv1.1.2.2
  have hnew := Matrix.new_flat_eq
    [st1.self.size, 0, 0, st1.self.x, 0, st1.self.size, 0, st1.self.y,
     0, 0, st1.self.size, st1.self.z, 0, 0, 0, 1] 4 rfl
  obtain ⟨P, hP⟩ : ∃ P, Matrix.multiply
      ({ dim := 4, mat := tabulate2 4 4 fun row col =>
        ([st1.self.size, 0, 0, st1.self.x, 0, st1.self.size, 0, st1.self.y,
          0, 0, st1.self.size, st1.self.z, 0, 0, 0, 1] : List ℚ).getD (row * 4 + col)
          default } : Matrix ℚ) st1.globals.antiRotMat = .ok P :=
    ⟨_, Matrix.multiply_eq _ st1.globals.antiRotMat hdim.symm⟩
  have hid1 : st1.self.id = self.id := by rw [hself1]; exact hfix.2.2.2.1
  refine ⟨{ st1 with
      self := { st1.self with myMat := P }
      globals := { st1.globals with
        pool := UpdateState.sync { st1 with self := { st1.self with myMat := P } } } },
    P, ?_, ?_, ?_, ?_, ember, children, ?_, hlen, hty, ?_, ?_⟩
  · simp only [Spark.update, hactive, Bool.not_true, Bool.false_eq_true, if_false]
    rw [if_pos htype, hst1, Res.ok_bind, hnew, Res.ok_bind, hP, Res.ok_bind]
  · show ({ st1.self with myMat := P } : Spark) = _
    rw [hself1]
  · intro h
    have h' : st1.attached = true := h
    have hlt : st1.self.id < st1.globals.pool.sparks.length := hinv1.2 h'
    show (UpdateState.sync _).sparks[self.id]? = _
    rw [← hid1]
    exact UpdateState.sync_getElem?_self
      { st1 with self := { st1.self with myMat := P } } h' hlt
  · intro hatt0 hdet
    have hdet' : st1.attached = false := hdet
    rcases hslot1 (Or.inl hatt0) with h | ⟨s, hs, hs'⟩
    · rw [hdet'] at h; cases h
    · refine ⟨s, ?_, hs'⟩
      show (UpdateState.sync _).sparks[self.id]? = _
      rw [UpdateState.sync_getElem?_detached
        { st1 with self := { st1.self with myMat := P } } hdet', ← hid1]
      exact hs
  · show st1.spawns = _
    rw [hsp1]
    rfl
  · intro h
    apply hno
    intro hc
    apply h
    show st1.self.time ≤ 0 ∧ st1.self.time + deltaTime > 0
    rw [hself1]
    exact hc
  · intro h
    have h' : st1.self.time ≤ 0 ∧ st1.self.time + deltaTime > 0 := h
    rw [hself1] at h'
    obtain ⟨k, hk⟩ := hyes h'
    refine ⟨k, ?_⟩
    show IsFanOut _ st1.self.x st1.self.y st1.self.z children
    rw [hself1, hfix.1, hfix.2.1, hfix.2.2.1]
    exact hk

/-! ## Theorems: the lifecycle of a Rocket -/

/-- The timer of a Rocket after `update`, and when the explosion runs. -/
theorem Spark.update_rocket_timer (self : Spark) (deltaTime : ℚ) (hactive : self.time > 0)
    (st : UpdateState) (myMat : Matrix ℚ)
    (hself : st.self = { ({ self with
          time := self.time - deltaTime, x := self.x + self.vx * deltaTime,
          y := self.y + self.vy * deltaTime,
          z := self.z + self.vz * deltaTime } : Spark).rocketPhysics deltaTime with
        myMat := myMat }) :
    (st.self.time ≤ 0 ↔ self.time ≤ deltaTime) ∧
    ((st.self.time ≤ 0 ∧ st.self.time + deltaTime > 0) ↔ st.self.time ≤ 0) ∧
    st.self.type = self.type ∧
    st.self.x = self.x + self.vx * deltaTime ∧ st.self.y = self.y + self.vy * deltaTime ∧
    st.self.z = self.z + self.vz * deltaTime := by
  have htime : st.self.time =
      if self.y + self.vy * deltaTime > 0 ∧ self.time - deltaTime > 2 then 1 / 2
      else self.time - deltaTime := by
    rw [hself]
    exact Spark.rocketPhysics_time _ deltaTime
  have hfix := Spark.rocketPhysics_fixed
    ({ self with
      time := self.time - deltaTime, x := self.x + self.vx * deltaTime,
      y := self.y + self.vy * deltaTime, z := self.z + self.vz * deltaTime } : Spark)
    deltaTime
  refine ⟨?_, ?_, ?_, ?_, ?_, ?_⟩
  · rw [htime]
    split_ifs with h
    · constructor
      · intro h0; norm_num at h0
      · intro h0; linarith [h.2]
    · constructor <;> intro h0 <;> linarith
  · rw [htime]
    split_ifs with h
    · constructor
      · intro h0; exact h0.1
      · intro h0; norm_num at h0
    · constructor
      · intro h0; exact h0.1
      · intro h0; exact ⟨h0, by linarith⟩
  · rw [hself]; exact hfix.2.2.2.2
  · rw [hself]; exact hfix.1
  · rw [hself]; exact hfix.2.1
  · rw [hself]; exact hfix.2.2.1

/-- C19, as amended.  In exact arithmetic, for an active Rocket, whatever
`deltaTime` is, `update(deltaTime)` returns, and it makes the calls of the
explosion (the spawn calls for Sparks) exactly when the timer after the update
is not positive, that is when `time ≤ deltaTime` held before.  The Rocket
object is then inactive, and no sequence of later calls of `update` on it
makes any spawn call.  The entry `Spark.sparks[id]` then holds the Rocket, or,
when a spawn call of this same update stored its particle at that index, an
Ember or Spark spawned during this update. -/
theorem Spark.update_rocket_explodes_once (env : MathEnv) (MAX : Nat) (self : Spark)
    (attached : Bool) (g : Globals) (deltaTime : ℚ)
    (htype : self.type = Spark.types.ROCKET) (hactive : self.time > 0)
    (hg : g.WF MAX) (hatt : attached = true → self.id < g.pool.sparks.length)
    (hrand : ∀ k, 0 ≤ g.random k ∧ g.random k < 1) :
    ∃ st, Spark.update env MAX self attached g deltaTime = .ok st ∧
      ((∃ e ∈ st.spawns, e.1.type = Spark.types.SPARK) ↔ st.self.time ≤ 0) ∧
      (st.self.time ≤ 0 ↔ self.time ≤ deltaTime) ∧
      (st.self.time ≤ 0 →
        st.self.isActive = false ∧ st.self.type = Spark.types.ROCKET ∧
        (st.attached = true → st.globals.pool.sparks[self.id]? = some st.self) ∧
        (attached = true → st.attached = false →
          ∃ s, st.globals.pool.sparks[self.id]? = some s ∧
            (s.type = Spark.types.EMBER ∨ s.type = Spark.types.SPARK)) ∧
        ∀ later : List (Bool × Globals × ℚ),
          ∃ final, Spark.updateMany env MAX st.self later = .ok (final, []) ∧
            final.time = st.self.time) := by
  obtain ⟨st, myMat, hupd, hself, hslot, hdet, ember, children, hsp, -, hty, hno, hyes⟩ :=
    Spark.update_rocket_spec env MAX self attached g deltaTime htype
      ((Spark.isActive_iff self).mpr hactive) hg hatt
  obtain ⟨htime, hcond, htype', -, -, -⟩ :=
    Spark.update_rocket_timer self deltaTime hactive st myMat hself
  refine ⟨st, hupd, ⟨?_, ?_⟩, htime, ?_⟩
  · rintro ⟨e, he, hes⟩
    rw [hsp, List.mem_append] at he
    rcases he with he | he
    · have := hty e he
      rw [hes] at this
      cases this
    · by_contra hn
      have hnil := hno (fun hc => hn (hcond.mp hc))
      rw [hnil] at he
      cases he
  · intro h0
    obtain ⟨k, hfan⟩ := hyes (hcond.mpr h0)
    have hn : 0 < (Int.floor (g.random k * 50) + 100).toNat := by
      have := (newSparkCount_bounds (g.random k) (hrand k).1 (hrand k).2).1
      omega
    have hne := IsFanOut.ne_nil _ hn _ _ _ children hfan
    obtain ⟨e, rest, hcons⟩ := List.exists_cons_of_ne_nil hne
    have hmem : e ∈ children := by rw [hcons]; exact List.mem_cons_self _ _
    exact ⟨e, by rw [hsp]; exact List.mem_append_right _ hmem, (hfan.1 e hmem).1⟩
  · intro h0
    have hinact : st.self.isActive = false := (Spark.isActive_eq_false_iff st.self).mpr h0
    refine ⟨hinact, htype'.trans htype, hslot, hdet, fun later => ?_⟩
    obtain ⟨final, hfinal, hft, -⟩ := Spark.updateMany_inactive env MAX later st.self hinact
    exact ⟨final, hfinal, hft⟩

/-- The scenario of C19: a Rocket with `time = 0.1` in slot 0 of a full pool of
capacity 3 and `update(0.2)`. -/
theorem Spark.update_rocket_explodes_once_witness :
    ∃ st, Spark.update MathEnv.sample 3
        (Spark.ofArgs (SparkArgs.sample Spark.types.ROCKET (1 / 10)) 0 identity4) true
        (Globals.sample (Pool.three 0 3 3 (1 / 10) 1 1) 0) (1 / 5) = .ok st ∧
      st.self.isActive = false ∧
      (∃ e ∈ st.spawns, e.1.type = Spark.types.SPARK) ∧
      ∀ later : List (Bool × Globals × ℚ),
        ∃ final, Spark.updateMany MathEnv.sample 3 st.self later = .ok (final, []) ∧
          final.time = st.self.time := by
  obtain ⟨st, h1, h2, h3, h4⟩ := Spark.update_rocket_explodes_once MathEnv.sample 3
    (Spark.ofArgs (SparkArgs.sample Spark.types.ROCKET (1 / 10)) 0 identity4) true
    (Globals.sample (Pool.three 0 3 3 (1 / 10) 1 1) 0) (1 / 5) rfl
    (show (1 / 10 : ℚ) > 0 by norm_num) ⟨by decide, by decide, rfl⟩ (fun _ => by decide)
    (fun _ => ⟨show (0 : ℚ) ≤ 0 from le_refl _, show (0 : ℚ) < 1 by norm_num⟩)
  have h0 : st.self.time ≤ 0 := h3.mpr (show (1 / 10 : ℚ) ≤ 1 / 5 by norm_num)
  exact ⟨st, h1, (h4 h0).1, h2.mpr h0, (h4 h0).2.2.2.2⟩

/-- C20.  When `update` of an active Rocket leaves its timer not positive, the
record of its spawn calls is at most one call for an Ember followed by the
calls of the explosion loop.  The bound `n` of the loop is
`floor(50 u) + 100` for a result `u` of `Math.random()`, and it is between 100
and 150.  Every call of the loop asks for a Spark at the position of the
Rocket, and the particle it returns, if any, is a Spark at that position.  Either all `n` calls are made and each returns a particle, or fewer
than `n` calls return a particle and are followed by one last call, which
returns `null`.  The timer is not positive after the update exactly when
`time ≤ deltaTime` held before. -/
theorem Spark.update_rocket_fan_out (env : MathEnv) (MAX : Nat) (self : Spark)
    (attached : Bool) (g : Globals) (deltaTime : ℚ)
    (htype : self.type = Spark.types.ROCKET) (hactive : self.time > 0)
    (hg : g.WF MAX) (hatt : attached = true → self.id < g.pool.sparks.length)
    (hrand : ∀ k, 0 ≤ g.random k ∧ g.random k < 1) :
    (∀ u : ℚ, 0 ≤ u → u < 1 →
      100 ≤ (Int.floor (u * 50) + 100).toNat ∧ (Int.floor (u * 50) + 100).toNat ≤ 150) ∧
    ∃ st, Spark.update env MAX self attached g deltaTime = .ok st ∧
      st.self.x = self.x + self.vx * deltaTime ∧ st.self.y = self.y + self.vy * deltaTime ∧
      st.self.z = self.z + self.vz * deltaTime ∧
      (st.self.time ≤ 0 ↔ self.time ≤ deltaTime) ∧
      (st.self.time ≤ 0 →
        ∃ (u : ℚ) (n : Nat) (ember children created : SpawnLog),
          (∃ k, u = g.random k) ∧ n = (Int.floor (u * 50) + 100).toNat ∧
          100 ≤ n ∧ n ≤ 150 ∧
          st.spawns = ember ++ children ∧
          ember.length ≤ 1 ∧ (∀ e ∈ ember, e.1.type = Spark.types.EMBER) ∧
          (∀ e ∈ children, e.1.type = Spark.types.SPARK ∧
            e.1.x = st.self.x ∧ e.1.y = st.self.y ∧ e.1.z = st.self.z ∧
            ∀ s, e.2 = some s → s.type = Spark.types.SPARK ∧
              s.x = st.self.x ∧ s.y = st.self.y ∧ s.z = st.self.z) ∧
          (∀ e ∈ created, e.2.isSome = true) ∧
          ((children = created ∧ created.length = n) ∨
            (∃ a, children = created ++ [(a, none)] ∧ created.length < n))) := by
  refine ⟨newSparkCount_bounds, ?_⟩
  obtain ⟨st, myMat, hupd, hself, -, -, ember, children, hsp, hlen, hty, -, hyes⟩ :=
    Spark.update_rocket_spec env MAX self attached g deltaTime htype
      ((Spark.isActive_iff self).mpr hactive) hg hatt
  obtain ⟨htime, hcond, -, hx, hy, hz⟩ :=
    Spark.update_rocket_timer self deltaTime hactive st myMat hself
  refine ⟨st, hupd, hx, hy, hz, htime, fun h0 => ?_⟩
  obtain ⟨k, hfan⟩ := hyes (hcond.mpr h0)
  obtain ⟨hall, created, hcreated, hor⟩ := hfan
  have hb := newSparkCount_bounds (g.random k) (hrand k).1 (hrand k).2
  refine ⟨g.random k, _, ember, children, created, ⟨k, rfl⟩, rfl, hb.1, hb.2, hsp, hlen, hty,
    fun e he => ?_, hcreated, hor⟩
  obtain ⟨e1, e2, e3, e4, e5⟩ := hall e he
  refine ⟨e1, e2, e3, e4, fun s hs => ?_⟩
  rw [e5 s hs]
  exact ⟨e1, e2, e3, e4⟩

/-- The scenario of C20: a Rocket with `time = 0.1` in slot 0 of a full pool of
capacity 3, `update(0.2)`, and `Math.random()` returning 0, so that `n = 100`. -/
theorem Spark.update_rocket_fan_out_witness :
    ∃ st, Spark.update MathEnv.sample 3
        (Spark.ofArgs (SparkArgs.sample Spark.types.ROCKET (1 / 10)) 0 identity4) true
        (Globals.sample (Pool.three 0 3 3 (1 / 10) 1 1) 0) (1 / 5) = .ok st ∧
      ∃ (n : Nat) (ember children created : SpawnLog),
        100 ≤ n ∧ n ≤ 150 ∧ st.spawns = ember ++ children ∧ ember.length ≤ 1 ∧
        (∀ e ∈ children, e.1.type = Spark.types.SPARK ∧
          e.1.x = st.self.x ∧ e.1.y = st.self.y ∧ e.1.z = st.self.z ∧
          ∀ s, e.2 = some s → s.type = Spark.types.SPARK ∧
            s.x = st.self.x ∧ s.y = st.self.y ∧ s.z = st.self.z) ∧
        (∀ e ∈ created, e.2.isSome = true) ∧
        ((children = created ∧ created.length = n) ∨
          (∃ a, children = created ++ [(a, none)] ∧ created.length < n)) := by
  obtain ⟨-, st, h1, -, -, -, h3, h2⟩ := Spark.update_rocket_fan_out MathEnv.sample 3
    (Spark.ofArgs (SparkArgs.sample Spark.types.ROCKET (1 / 10)) 0 identity4) true
    (Globals.sample (Pool.three 0 3 3 (1 / 10) 1 1) 0) (1 / 5) rfl
    (show (1 / 10 : ℚ) > 0 by norm_num) ⟨by decide, by decide, rfl⟩ (fun _ => by decide)
    (fun _ => ⟨show (0 : ℚ) ≤ 0 from le_refl _, show (0 : ℚ) < 1 by norm_num⟩)
  have h0 : st.self.time ≤ 0 := h3.mpr (show (1 / 10 : ℚ) ≤ 1 / 5 by norm_num)
  obtain ⟨u, n, ember, children, created, -, -, a1, a2, a3, a4, -, a5, a6, a7⟩ := h2 h0
  exact ⟨st, h1, n, ember, children, created, a1, a2, a3, a4, a5, a6, a7⟩

/-- C19, counterexample.  After the update in which a Rocket explodes its slot
need not be inactive: the Ember of the Rocket can take the index of the Rocket
in the pool.  The capacity is 3, the pool holds three Rockets, the cursor is 1 and
`Math.random()` returns 0.5.  The Rocket at index 0 has `time = 0.1` and is
updated with `deltaTime = 0.2`.  Its timer is not positive when it asks for its
Ember, so the scan for an inactive particle stops at index 0.  After the update
the Rocket is inactive, `Spark.sparks[0]` is no longer the Rocket, and it is an
active Ember.  The one call of the explosion loop returns `null`. -/
theorem Spark.update_rocket_slot_reused_example :
    ∃ st, Spark.update MathEnv.sample 3
        (Spark.ofArgs (SparkArgs.sample Spark.types.ROCKET (1 / 10)) 0 identity4) true
        (Globals.sample ⟨(Pool.three 0 0 0 (1 / 10) 1 1).sparks, 1⟩ (1 / 2)) (1 / 5) = .ok st ∧
      st.self.isActive = false ∧ st.attached = false ∧
      (∃ s, st.globals.pool.sparks[0]? = some s ∧ s.type = Spark.types.EMBER ∧
        s.isActive = true) ∧
      ∃ a b, st.spawns = [(a, some b), (⟨Spark.types.SPARK, 1 / 2, 10, 0, 0, 0, 150, 0, 150,
        7 / 10, 7 / 10, 7 / 10, 1, 15, none⟩, none)] := by
  norm_num [Spark.update, Spark.updateRocket, UpdateState.nextRandom,
    UpdateState.spawn, UpdateState.sync, Globals.nextRandom, Globals.sample, MathEnv.sample,
    getRandomAngle, angleToVector, getRandomVector, anglesToVector, Spark.ofArgs,
    SparkArgs.sample, Pool.three, Spark.isActive, Spark.rocketPhysics, Spark.fade,
    Spark.types.ROCKET, Spark.types.EMBER, Spark.types.SPARK, identity4,
    Spark.getNewSpark, Spark.scan, Spark.new, Spark.isImportant, getIdenity_four, storedAt]
  rw [show Int.toNat 125 = 124 + 1 from rfl, Spark.explodeLoop]
  norm_num [UpdateState.nextRandom,
    UpdateState.spawn, UpdateState.sync, Globals.nextRandom, jsRem,
    getRandomAngle, angleToVector, getRandomVector, anglesToVector, Spark.ofArgs,
    Spark.isActive, Spark.types.ROCKET, Spark.types.EMBER, Spark.types.SPARK,
    Spark.getNewSpark, Spark.scan, Spark.new, Spark.isImportant, getIdenity_four, storedAt]
  rw [Matrix.new_flat_eq ([9, 0, 0, 0, 0, 9, 0, 0, 0, 0, 9, 0, 0, 0, 0, 1] : List ℚ) 4 rfl,
    Res.ok_bind,
    Matrix.multiply_eq
      ({ dim := 4, mat := tabulate2 4 4 fun row col =>
          ([9, 0, 0, 0, 0, 9, 0, 0, 0, 0, 9, 0, 0, 0, 0, 1] : List ℚ).getD (row * 4 + col)
            default } : Matrix ℚ)
      { dim := 4, mat := [[1, 0, 0, 0], [0, 1, 0, 0], [0, 0, 1, 0], [0, 0, 0, 1]] } rfl,
    Res.ok_bind]
  exact ⟨_, rfl, by norm_num, rfl, ⟨_, rfl, rfl, by norm_num⟩, _, _, rfl⟩


/-- The test of line 841 in double precision, for a Rocket with `time = 1e-17`
(the double `6490371073168535 * 2 ^ -109`) and `deltaTime = 1`.  Line 806
leaves `time = -1`, so the timer has crossed zero in this update, but
`time + deltaTime` is `0`, not the `1e-17` of before: the conjunct
`time + deltaTime > 0` is false and the explosion is not run. -/
theorem F64.rocket_timer_sum_rounds :
    (F64.fin 6490371073168535 (-109) - 1 : F64) = .fin (-1) 0 ∧
    ((F64.fin 6490371073168535 (-109) - 1) + 1 : F64) = 0 := by
  refine ⟨?_, ?_⟩
  · set_option maxRecDepth 100000 in decide
  · set_option maxRecDepth 100000 in decide

/-! ## Theorems: the shared buffers -/

/-- A loop that writes `f 0, ..., f (n - 1)` to the indices from `base` on
keeps the length of the array. -/
theorem forLoop_set_length {α : Type} (n base : Nat) (f : Nat → α) (l : List α) :
    (forLoop 0 n l fun i acc => acc.set (base + i) (f i)).length = l.length := by
  induction n with
  | zero => rw [forLoop_self]
  | succ n ih => rw [forLoop_succ 0 n (Nat.zero_le n), List.length_set, ih]

/-- A loop that writes `f 0, ..., f (n - 1)` to the indices from `base` on:
the entry at index `k` afterwards. -/
theorem forLoop_set_getElem? {α : Type} (n base : Nat) (f : Nat → α) (l : List α) (k : Nat) :
    (forLoop 0 n l fun i acc => acc.set (base + i) (f i))[k]? =
      if base ≤ k ∧ k < base + n ∧ k < l.length then some (f (k - base)) else l[k]? := by
  induction n with
  | zero =>
    rw [forLoop_self, if_neg (by omega)]
  | succ n ih =>
    rw [forLoop_succ 0 n (Nat.zero_le n)]
    by_cases hk : base + n = k
    · subst hk
      by_cases hlt : base + n < l.length
      · rw [List.getElem?_set_self (by rw [forLoop_set_length]; exact hlt),
          if_pos ⟨by omega, by omega, hlt⟩, Nat.add_sub_cancel_left]
      · rw [List.getElem?_eq_none (by rw [List.length_set, forLoop_set_length]; omega),
          if_neg (by omega), List.getElem?_eq_none (by omega)]
    · rw [List.getElem?_set_ne hk, ih]
      by_cases h : base ≤ k ∧ k < base + n ∧ k < l.length
      · rw [if_pos h, if_pos ⟨h.1, by omega, h.2.2⟩]
      · rw [if_neg h, if_neg (by omega)]

/-- What `updateData()` leaves in the buffer of the transforms. -/
theorem Spark.updateData_matrixArray (self : Spark) (g : Globals) (k : Nat) :
    (self.updateData g).matrixArray.length = g.matrixArray.length ∧
    (self.updateData g).matrixArray[k]? =
      if 16 * self.id ≤ k ∧ k < 16 * self.id + 16 ∧ k < g.matrixArray.length then
        some ((self.myMat.getArray true).getD (k - 16 * self.id) default)
      else g.matrixArray[k]? := by
  simp only [Spark.updateData]
  exact ⟨forLoop_set_length 16 (16 * self.id)
      (fun i => (self.myMat.getArray true).getD i default) g.matrixArray,
    forLoop_set_getElem? 16 (16 * self.id)
      (fun i => (self.myMat.getArray true).getD i default) g.matrixArray k⟩

/-- What `updateData()` leaves in the buffer of the colours. -/
theorem Spark.updateData_lightArray (self : Spark) (g : Globals) :
    (self.updateData g).lightArray.length = g.lightArray.length ∧
    (5 * self.id + 5 ≤ g.lightArray.length →
      (self.updateData g).lightArray[5 * self.id]? = some self.r ∧
      (self.updateData g).lightArray[5 * self.id + 1]? = some self.g ∧
      (self.updateData g).lightArray[5 * self.id + 2]? = some self.b ∧
      (self.updateData g).lightArray[5 * self.id + 3]? = some self.lum ∧
      (self.updateData g).lightArray[5 * self.id + 4]? = some self.insty) ∧
    (∀ k, ¬ (5 * self.id ≤ k ∧ k < 5 * self.id + 5) →
      (self.updateData g).lightArray[k]? = g.lightArray[k]?) := by
  refine ⟨by simp [Spark.updateData], fun h => ?_, fun k hk => ?_⟩
  · simp only [Spark.updateData, List.getElem?_set, List.length_set]
    refine ⟨?_, ?_, ?_, ?_, ?_⟩ <;> simp <;> omega
  · simp only [Spark.updateData, List.getElem?_set, List.length_set]
    rw [if_neg (by omega), if_neg (by omega), if_neg (by omega), if_neg (by omega),
      if_neg (by omega)]

/-- The variables `updateData()` does not write. -/
theorem Spark.updateData_frame (self : Spark) (g : Globals) :
    (self.updateData g).pool = g.pool ∧ (self.updateData g).antiRotMat = g.antiRotMat ∧
    (self.updateData g).random = g.random := by
  simp only [Spark.updateData, and_self]

/-- The column-major export of a matrix of dimension 4, by entry. -/
theorem Matrix.getArray_true_four (M : Matrix ℚ) (h : M.dim = 4) (r c : Nat) (hr : r < 4)
    (hc : c < 4) : (M.getArray true).getD (4 * c + r) default = get2 M.mat r c := by
  rw [Matrix.getArray_true_eq, h, List.getD_eq_getElem?_getD, Nat.mul_comm 4 c,
    getElem?_flatten_tabulate2 4 4 _ c r hc hr]
  rfl

/-! ## Theorems: `update` of an inactive particle, and `render` -/

theorem getArray_true_zero_four (i : Nat) :
    (({ dim := 4, mat := [[0, 0, 0, 0], [0, 0, 0, 0], [0, 0, 0, 0], [0, 0, 0, 0]] } :
      Matrix ℚ).getArray true).getD i default = 0 := by
  have h : ({ dim := 4, mat := [[0, 0, 0, 0], [0, 0, 0, 0], [0, 0, 0, 0], [0, 0, 0, 0]] } :
      Matrix ℚ).getArray true = List.replicate 16 0 := by
    simp [Matrix.getArray, get2, List.range, List.range.loop]
  rw [h, List.getD_eq_getElem?_getD, List.getElem?_replicate]
  split <;> rfl

/-- The state in which `update` leaves an inactive particle: `Z` is the
particle with the zero matrix as its cached transform and `g1` what
`updateData()` makes of the global variables. -/
theorem Spark.update_inactive_eq (env : MathEnv) (MAX : Nat) (self : Spark)
    (attached : Bool) (g : Globals) (deltaTime : ℚ) (h : self.isActive = false)
    (Z : Spark)
    (hZ : Z = { self with myMat :=
      { dim := 4, mat := [[0, 0, 0, 0], [0, 0, 0, 0], [0, 0, 0, 0], [0, 0, 0, 0]] } })
    (g1 : Globals) (hg1 : g1 = Z.updateData g) :
    Spark.update env MAX self attached g deltaTime =
      .ok ⟨Z, attached, ⟨UpdateState.sync ⟨Z, attached, g1, []⟩, g1.matrixArray,
        g1.lightArray, g1.antiRotMat, g1.random⟩, []⟩ := by
  subst hZ hg1
  simp only [Spark.update, h, Bool.not_false, if_true, Matrix.new_zero16, Res.ok_bind]

/-- C22.  On a particle with `time ≤ 0`, `update(deltaTime)` returns; the
cached transform becomes the 4x4 zero matrix; the 16 entries of the transform
buffer from index `16 * id` on become 0 and no other entry of that buffer
changes; `time`, the position, the velocity, the colour, `size` and the other
private variables stay; no call of `Spark.getNewSpark` is made, and the pool
keeps its length, its cursor and every particle at another index. -/
theorem Spark.update_inactive_zeroes (env : MathEnv) (MAX : Nat) (self : Spark)
    (attached : Bool) (g : Globals) (deltaTime : ℚ) (h : self.time ≤ 0) :
    ∃ st, Spark.update env MAX self attached g deltaTime = .ok st ∧
      st.self.myMat =
        { dim := 4, mat := [[0, 0, 0, 0], [0, 0, 0, 0], [0, 0, 0, 0], [0, 0, 0, 0]] } ∧
      st.self = { self with myMat := st.self.myMat } ∧
      (st.self.time = self.time ∧ st.self.size = self.size ∧
        st.self.x = self.x ∧ st.self.y = self.y ∧ st.self.z = self.z ∧
        st.self.vx = self.vx ∧ st.self.vy = self.vy ∧ st.self.vz = self.vz ∧
        st.self.r = self.r ∧ st.self.g = self.g ∧ st.self.b = self.b) ∧
      st.globals.matrixArray.length = g.matrixArray.length ∧
      (16 * self.id + 16 ≤ g.matrixArray.length →
        ∀ i, i < 16 → st.globals.matrixArray[16 * self.id + i]? = some 0) ∧
      (∀ k, ¬ (16 * self.id ≤ k ∧ k < 16 * self.id + 16) →
        st.globals.matrixArray[k]? = g.matrixArray[k]?) ∧
      st.spawns = [] ∧
      st.globals.pool.sparks.length = g.pool.sparks.length ∧
      st.globals.pool.lastInactiveSpark = g.pool.lastInactiveSpark ∧
      (∀ i, i ≠ self.id → st.globals.pool.sparks[i]? = g.pool.sparks[i]?) := by
  have hin : self.isActive = false := (Spark.isActive_eq_false_iff self).mpr h
  obtain ⟨Z, hZ⟩ : ∃ Z : Spark, Z = { self with myMat :=
      { dim := 4, mat := [[0, 0, 0, 0], [0, 0, 0, 0], [0, 0, 0, 0], [0, 0, 0, 0]] } } :=
    ⟨_, rfl⟩
  obtain ⟨g1, hg1⟩ : ∃ g1 : Globals, g1 = Z.updateData g := ⟨_, rfl⟩
  have hupd := Spark.update_inactive_eq env MAX self attached g deltaTime hin Z hZ g1 hg1
  have hmat := fun k => Spark.updateData_matrixArray Z g k
  rw [← hg1] at hmat
  have hpool : g1.pool = g.pool := by rw [hg1]; exact (Spark.updateData_frame Z g).1
  have hid : Z.id = self.id := by rw [hZ]
  have hZmat : Z.myMat =
      { dim := 4, mat := [[0, 0, 0, 0], [0, 0, 0, 0], [0, 0, 0, 0], [0, 0, 0, 0]] } := by
    rw [hZ]
  rw [hid, hZmat] at hmat
  refine ⟨_, hupd, hZmat, ?_, ?_, (hmat 0).1, ?_, ?_, rfl, ?_, ?_, ?_⟩
  · show Z = { self with myMat := Z.myMat }
    rw [hZ]
  · show Z.time = _ ∧ Z.size = _ ∧ Z.x = _ ∧ Z.y = _ ∧ Z.z = _ ∧ Z.vx = _ ∧ Z.vy = _ ∧
      Z.vz = _ ∧ Z.r = _ ∧ Z.g = _ ∧ Z.b = _
    rw [hZ]
    exact ⟨rfl, rfl, rfl, rfl, rfl, rfl, rfl, rfl, rfl, rfl, rfl⟩
  · intro hlen i hi
    have := (hmat (16 * self.id + i)).2
    rw [if_pos ⟨by omega, by omega, by omega⟩, getArray_true_zero_four] at this
    exact this
  · intro k hk
    have := (hmat k).2
    rw [if_neg (fun hc => hk ⟨hc.1, hc.2.1⟩)] at this
    exact this
  · exact (UpdateState.sync_length _).trans (congrArg (fun p => p.sparks.length) hpool)
  · exact (UpdateState.sync_cursor _).trans (congrArg (fun p => p.lastInactiveSpark) hpool)
  · intro i hi
    show (UpdateState.sync ⟨Z, attached, g1, []⟩).sparks[i]? = _
    unfold UpdateState.sync
    rw [← hpool]
    split
    · exact List.getElem?_set_ne (fun e => hi (e.symm.trans hid))
    · rfl

/-- The scenario of C22: the particle of slot 1 of a pool of three has
`time = 0`, and the transform buffer holds ones. -/
theorem Spark.update_inactive_zeroes_witness :
    (Spark.ofArgs (SparkArgs.sample 3 0) 1 identity4).time ≤ 0 ∧
    ∃ st, Spark.update MathEnv.sample 3 (Spark.ofArgs (SparkArgs.sample 3 0) 1 identity4) true
        ⟨Pool.three 3 3 3 1 0 1, List.replicate 48 1, List.replicate 15 0, identity4,
          fun _ => 0⟩ (1 / 5) = .ok st ∧
      st.spawns = [] ∧ st.self.time = 0 ∧
      (∀ i, i < 16 → st.globals.matrixArray[16 + i]? = some 0) ∧
      st.globals.matrixArray[15]? = some 1 ∧ st.globals.matrixArray[32]? = some 1 := by
  have h0 : (Spark.ofArgs (SparkArgs.sample 3 0) 1 identity4).time ≤ 0 :=
    show (0 : ℚ) ≤ 0 from le_refl _
  obtain ⟨st, h1, -, -, h2, -, h3, h4, h5, -⟩ := Spark.update_inactive_zeroes MathEnv.sample 3
    (Spark.ofArgs (SparkArgs.sample 3 0) 1 identity4) true
    ⟨Pool.three 3 3 3 1 0 1, List.replicate 48 1, List.replicate 15 0, identity4,
      fun _ => 0⟩ (1 / 5) h0
  refine ⟨h0, st, h1, h5, h2.1, h3 (by decide), ?_, ?_⟩
  · rw [h4 15 (by decide)]; rfl
  · rw [h4 32 (by decide)]; rfl

/-- C23.  On a particle with `time ≤ 0`, `render()` changes nothing.  On a
particle with `time > 0` it writes, when the cached transform has dimension 4,
the entry `(r, c)` of the cached transform to index `16 * id + 4 * c + r` of
the transform buffer and `r, g, b, lum, insty` to the indices `5 * id` to
`5 * id + 4` of the colour buffer; no other index of either buffer changes,
the buffers keep their lengths, and the pool, `antiRotMat` and the random
numbers stay. -/
theorem Spark.render_spec (self : Spark) (g : Globals) :
    (self.time ≤ 0 → self.render g = g) ∧
    (self.time > 0 →
      (self.render g).matrixArray.length = g.matrixArray.length ∧
      (self.render g).lightArray.length = g.lightArray.length ∧
      (self.myMat.getDim = 4 → 16 * self.id + 16 ≤ g.matrixArray.length →
        ∀ r c, r < 4 → c < 4 →
          (self.render g).matrixArray[16 * self.id + 4 * c + r]? =
            some (get2 self.myMat.mat r c)) ∧
      (5 * self.id + 5 ≤ g.lightArray.length →
        (self.render g).lightArray[5 * self.id]? = some self.r ∧
        (self.render g).lightArray[5 * self.id + 1]? = some self.g ∧
        (self.render g).lightArray[5 * self.id + 2]? = some self.b ∧
        (self.render g).lightArray[5 * self.id + 3]? = some self.lum ∧
        (self.render g).lightArray[5 * self.id + 4]? = some self.insty) ∧
      (∀ k, ¬ (16 * self.id ≤ k ∧ k < 16 * self.id + 16) →
        (self.render g).matrixArray[k]? = g.matrixArray[k]?) ∧
      (∀ k, ¬ (5 * self.id ≤ k ∧ k < 5 * self.id + 5) →
        (self.render g).lightArray[k]? = g.lightArray[k]?) ∧
      (self.render g).pool = g.pool ∧ (self.render g).antiRotMat = g.antiRotMat ∧
      (self.render g).random = g.random) := by
  constructor
  · intro h
    have hin : self.isActive = false := (Spark.isActive_eq_false_iff self).mpr h
    simp only [Spark.render, hin, Bool.not_false, if_true]
  · intro h
    have hact : self.isActive = true := (Spark.isActive_iff self).mpr h
    have hr : self.render g = self.updateData g := by
      simp only [Spark.render, hact, Bool.not_true, Bool.false_eq_true, if_false]
    rw [hr]
    have hmat := fun k => Spark.updateData_matrixArray self g k
    obtain ⟨hl1, hl2, hl3⟩ := Spark.updateData_lightArray self g
    refine ⟨(hmat 0).1, hl1, ?_, hl2, ?_, hl3, Spark.updateData_frame self g⟩
    · intro hdim hlen r c hr hc
      rw [(hmat _).2, if_pos ⟨by omega, by omega, by omega⟩,
        show 16 * self.id + 4 * c + r - 16 * self.id = 4 * c + r by omega,
        Matrix.getArray_true_four self.myMat hdim r c hr hc]
    · intro k hk
      rw [(hmat k).2, if_neg (fun hc => hk ⟨hc.1, hc.2.1⟩)]

/-- The scenario of C23: the active particle of slot 1 of a pool of three,
whose cached transform is the identity, and buffers of zeros. -/
theorem Spark.render_spec_witness :
    (Spark.ofArgs (SparkArgs.sample 3 1) 1 identity4).time > 0 ∧
    ((Spark.ofArgs (SparkArgs.sample 3 1) 1 identity4).render
        ⟨Pool.three 3 3 3 1 1 1, List.replicate 48 0, List.replicate 15 0, identity4,
          fun _ => 0⟩).matrixArray[16 + 4 * 2 + 2]? =
      some (get2 identity4.mat 2 2) ∧
    ((Spark.ofArgs (SparkArgs.sample 3 1) 1 identity4).render
        ⟨Pool.three 3 3 3 1 1 1, List.replicate 48 0, List.replicate 15 0, identity4,
          fun _ => 0⟩).lightArray[5 + 4]? = some 15 := by
  have h0 : (Spark.ofArgs (SparkArgs.sample 3 1) 1 identity4).time > 0 :=
    show (1 : ℚ) > 0 from one_pos
  obtain ⟨-, -, h3, h4, -⟩ := (Spark.render_spec
    (Spark.ofArgs (SparkArgs.sample 3 1) 1 identity4)
    ⟨Pool.three 3 3 3 1 1 1, List.replicate 48 0, List.replicate 15 0, identity4,
      fun _ => 0⟩).2 h0
  exact ⟨h0, h3 rfl (by decide) 2 2 (by decide) (by decide), (h4 (by decide)).2.2.2.2⟩

/-! ## Theorems: `update` of an active particle -/

theorem Res.bind_eq_ok {α β : Type} (x : Res α) (f : α → Res β) (b : β) :
    x.bind f = .ok b ↔ ∃ a, x = .ok a ∧ f a = .ok b := by
  cases x with
  | ok a => exact ⟨fun h => ⟨a, rfl, h⟩, fun ⟨a', ha, h⟩ => by cases ha; exact h⟩
  | throw m => exact ⟨fun h => (by cases h), fun ⟨_, ha, _⟩ => (by cases ha)⟩
  | diverge => exact ⟨fun h => (by cases h), fun ⟨_, ha, _⟩ => (by cases ha)⟩

theorem Spark.gravityFade_time (self : Spark) (deltaTime : ℚ) :
    (self.gravityFade deltaTime).time = self.time := by
  unfold Spark.gravityFade
  dsimp only
  split_ifs <;> rfl

theorem Spark.gravityFade_fixed (self : Spark) (deltaTime : ℚ) :
    (self.gravityFade deltaTime).x = self.x ∧ (self.gravityFade deltaTime).y = self.y ∧
    (self.gravityFade deltaTime).z = self.z ∧
    (self.gravityFade deltaTime).id = self.id ∧
    (self.gravityFade deltaTime).type = self.type := by
  unfold Spark.gravityFade
  dsimp only
  split_ifs <;> exact ⟨rfl, rfl, rfl, rfl, rfl⟩

/-- The Spark case of `update`, started in a state that is in order, returns.
The private variables become those `gravityFade` computes; `antiRotMat` and
the buffers stay; the record grows by at most one call, for an Ember. -/
theorem Spark.updateSpark_spec (MAX : Nat) (deltaTime : ℚ) (st : UpdateState)
    (hinv : st.Inv MAX) :
    ∃ st', Spark.updateSpark MAX deltaTime st = .ok st' ∧ st'.Inv MAX ∧
      st'.self = st.self.gravityFade deltaTime ∧
      st'.globals.antiRotMat = st.globals.antiRotMat ∧
      st'.globals.matrixArray = st.globals.matrixArray ∧
      st'.globals.lightArray = st.globals.lightArray ∧
      ∃ ember, st'.spawns = st.spawns ++ ember ∧ ember.length ≤ 1 ∧
        ∀ e ∈ ember, e.1.type = Spark.types.EMBER := by
  have hid := (Spark.gravityFade_fixed st.self deltaTime).2.2.2.1
  by_cases hu : st.globals.random 0 < 1
  · have key : ∀ (a : SparkArgs) (st3 : UpdateState),
        st3.Inv MAX → st3.self = st.self → st3.spawns = st.spawns →
        st3.globals.antiRotMat = st.globals.antiRotMat →
        st3.globals.matrixArray = st.globals.matrixArray →
        st3.globals.lightArray = st.globals.lightArray →
        a.type = Spark.types.EMBER →
        ∃ st', (((st3.spawn MAX a).bind fun (p : Option Spark × UpdateState) =>
            Res.ok p.2).bind fun st =>
              Res.ok { st with self := st.self.gravityFade deltaTime }) = .ok st' ∧
          st'.Inv MAX ∧ st'.self = st.self.gravityFade deltaTime ∧
          st'.globals.antiRotMat = st.globals.antiRotMat ∧
          st'.globals.matrixArray = st.globals.matrixArray ∧
          st'.globals.lightArray = st.globals.lightArray ∧
          ∃ ember, st'.spawns = st.spawns ++ ember ∧ ember.length ≤ 1 ∧
            ∀ e ∈ ember, e.1.type = Spark.types.EMBER := by
      intro a st3 hinv3 hself3 hsp3 hanti3 hmat3 hlight3 ha
      obtain ⟨r, st4, hspawn, hinv4, hself4, hsp4, -, hanti4, hmat4, hlight4, -⟩ :=
        UpdateState.spawn_spec MAX a st3 hinv3
      rw [hspawn, Res.ok_bind, Res.ok_bind]
      refine ⟨_, rfl, ⟨hinv4.1, fun h => ?_⟩, ?_, hanti4.trans hanti3, hmat4.trans hmat3,
        hlight4.trans hlight3, [(a, r)], ?_, Nat.le_refl 1, ?_⟩
      · show (st4.self.gravityFade deltaTime).id < _
        rw [(Spark.gravityFade_fixed st4.self deltaTime).2.2.2.1]
        exact hinv4.2 h
      · show st4.self.gravityFade deltaTime = _
        rw [hself4, hself3]
      · show st4.spawns = _
        rw [hsp4, hsp3]
      · intro e he
        rw [List.mem_singleton] at he
        rw [he]
        exact ha
    simp only [Spark.updateSpark, UpdateState.nextRandom, hu, if_true, Globals.nextRandom]
    exact key _ _ hinv rfl rfl rfl rfl rfl rfl
  · simp only [Spark.updateSpark, UpdateState.nextRandom, hu, if_false, Res.ok_bind]
    refine ⟨_, rfl, ⟨hinv.1, fun h => ?_⟩, rfl, rfl, rfl, rfl, [], by simp, Nat.zero_le 1,
      fun e he => by cases he⟩
    show (st.self.gravityFade deltaTime).id < _
    rw [hid]
    exact hinv.2 h

/-- The method `update` on an active particle of any type, with the global
variables in order, returns.  The final private variables are those the case
of its type computes from the integrated ones, with a new cached transform:
the product of the matrix built from `transArray` with `antiRotMat`.  The
buffers and `antiRotMat` stay, and the global variables stay in order. -/
theorem Spark.update_active_spec (env : MathEnv) (MAX : Nat) (self : Spark)
    (attached : Bool) (g : Globals) (deltaTime : ℚ) (hactive : self.isActive = true)
    (hg : g.WF MAX) (hatt : attached = true → self.id < g.pool.sparks.length) :
    ∃ st, Spark.update env MAX self attached g deltaTime = .ok st ∧
      st.globals.WF MAX ∧
      (∃ phys myMat, st.self = { phys with myMat := myMat } ∧
        phys = if self.type = Spark.types.ROCKET then
            ({ self with
              time := self.time - deltaTime, x := self.x + self.vx * deltaTime,
              y := self.y + self.vy * deltaTime,
              z := self.z + self.vz * deltaTime } : Spark).rocketPhysics deltaTime
          else
            ({ self with
              time := self.time - deltaTime, x := self.x + self.vx * deltaTime,
              y := self.y + self.vy * deltaTime,
              z := self.z + self.vz * deltaTime } : Spark).gravityFade deltaTime) ∧
      st.self.myMat = { dim := 4, mat := tabulate2 4 4 (fun row col =>
        ∑ i ∈ Finset.range 4,
          get2 (tabulate2 4 4 fun r c => st.self.transArray.getD (r * 4 + c) default) row i *
            get2 g.antiRotMat.mat i col) } ∧
      st.globals.antiRotMat = g.antiRotMat ∧
      st.globals.matrixArray = g.matrixArray ∧
      st.globals.lightArray = g.lightArray := by
  obtain ⟨I, hI⟩ : ∃ I : Spark, I = { self with
      time := self.time - deltaTime, x := self.x + self.vx * deltaTime,
      y := self.y + self.vy * deltaTime, z := self.z + self.vz * deltaTime } := ⟨_, rfl⟩
  have hIid : I.id = self.id := by rw [hI]
  have hinv0 : UpdateState.Inv MAX ⟨I, attached, g, []⟩ :=
    ⟨hg, fun h => by show I.id < _; rw [hIid]; exact hatt h⟩
  have hcase : ∃ st1,
      (if self.type = Spark.types.ROCKET then
          Spark.updateRocket env MAX deltaTime ⟨I, attached, g, []⟩
        else if self.type = Spark.types.SPARK then
          Spark.updateSpark MAX deltaTime ⟨I, attached, g, []⟩
        else Spark.updateDefault deltaTime ⟨I, attached, g, []⟩) = .ok st1 ∧
      st1.Inv MAX ∧
      st1.self = (if self.type = Spark.types.ROCKET then I.rocketPhysics deltaTime
        else I.gravityFade deltaTime) ∧
      st1.globals.antiRotMat = g.antiRotMat ∧
      st1.globals.matrixArray = g.matrixArray ∧
      st1.globals.lightArray = g.lightArray := by
    by_cases hR : self.type = Spark.types.ROCKET
    · rw [if_pos hR, if_pos hR]
      obtain ⟨st', h1, h2, h3, h4, h5, h6, -⟩ :=
        Spark.updateRocket_spec env MAX deltaTime ⟨I, attached, g, []⟩ hinv0
      exact ⟨st', h1, h2, h3, h4, h5, h6⟩
    · rw [if_neg hR, if_neg hR]
      by_cases hS : self.type = Spark.types.SPARK
      · rw [if_pos hS]
        obtain ⟨st', h1, h2, h3, h4, h5, h6, -⟩ :=
          Spark.updateSpark_spec MAX deltaTime ⟨I, attached, g, []⟩ hinv0
        exact ⟨st', h1, h2, h3, h4, h5, h6⟩
      · rw [if_neg hS]
        refine ⟨_, rfl, ⟨hg, fun h => ?_⟩, rfl, rfl, rfl, rfl⟩
        show (I.gravityFade deltaTime).id < _
        rw [(Spark.gravityFade_fixed I deltaTime).2.2.2.1, hIid]
        exact hatt h
  obtain ⟨st1, hst1, hinv1, hself1, hanti1, hmat1, hlight1⟩ := hcase
  have hdim : st1.globals.antiRotMat.dim = 4 := hinv1.1.2.2
  have hnew : Matrix.new (.flat [st1.self.size, 0, 0, st1.self.x,
      0, st1.self.size, 0, st1.self.y, 0, 0, st1.self.size, st1.self.z, 0, 0, 0, 1]) false =
      .ok { dim := 4, mat := tabulate2 4 4 fun row col =>
        st1.self.transArray.getD (row * 4 + col) default } :=
    Matrix.new_flat_eq st1.self.transArray 4 rfl
  have hmul := Matrix.multiply_eq
    ({ dim := 4, mat := tabulate2 4 4 fun row col =>
      st1.self.transArray.getD (row * 4 + col) default } : Matrix ℚ)
    st1.globals.antiRotMat hdim.symm
  obtain ⟨P, hP⟩ : ∃ P : Matrix ℚ, P = { dim := 4, mat := tabulate2 4 4 (fun row col =>
      ∑ i ∈ Finset.range 4,
        get2 (tabulate2 4 4 fun r c => st1.self.transArray.getD (r * 4 + c) default) row i *
          get2 st1.globals.antiRotMat.mat i col) } := ⟨_, rfl⟩
  rw [← hP] at hmul
  have hupd : Spark.update env MAX self attached g deltaTime =
      .ok ⟨{ st1.self with myMat := P }, st1.attached,
        ⟨UpdateState.sync ⟨{ st1.self with myMat := P }, st1.attached, st1.globals,
          st1.spawns⟩, st1.globals.matrixArray, st1.globals.lightArray,
          st1.globals.antiRotMat, st1.globals.random⟩, st1.spawns⟩ := by
    subst hI
    simp only [Spark.update, hactive, Bool.not_true, Bool.false_eq_true, if_false]
    rw [hst1, Res.ok_bind, hnew, Res.ok_bind, hmul, Res.ok_bind]
  refine ⟨_, hupd, ⟨?_, ?_, hdim⟩, ⟨st1.self, P, rfl, ?_⟩, ?_, hanti1, hmat1, hlight1⟩
  · exact (UpdateState.sync_length _).le.trans hinv1.1.1
  · exact (UpdateState.sync_cursor _).le.trans_lt hinv1.1.2.1
  · rw [hself1, hI]
  · show P = _
    rw [hP, hanti1]
    rfl

/-! ## Theorems: the cached transform and the timer -/

/-- The matrix built from `transArray` is `translate(x, y, z) * scale(size)`. -/
theorem sqOf_transArray (self : Spark) :
    sqOf 4 (tabulate2 4 4 fun r c => self.transArray.getD (r * 4 + c) default) =
      translateMat self.x self.y self.z * scaleMat self.size := by
  ext i j
  fin_cases i <;> fin_cases j <;>
    simp [sqOf, get2, tabulate2, Spark.transArray, translateMat, scaleMat, Matrix.mul_apply,
      Fin.sum_univ_four, List.range, List.range.loop, Matrix.vecHead, Matrix.vecTail] <;> rfl

/-- With the translation on the right the position is scaled as well. -/
theorem scaleMat_mul_translateMat (s x y z : ℚ) :
    scaleMat s * translateMat x y z = translateMat (s * x) (s * y) (s * z) * scaleMat s := by
  ext i j
  fin_cases i <;> fin_cases j <;>
    simp [translateMat, scaleMat, Matrix.mul_apply, Fin.sum_univ_four, Matrix.vecHead,
      Matrix.vecTail]

/-- The cached transform after `update` of an active particle, as a
mathematical matrix. -/
theorem Spark.update_active_transform (env : MathEnv) (MAX : Nat) (self : Spark)
    (attached : Bool) (g : Globals) (deltaTime : ℚ) (hactive : self.isActive = true)
    (hg : g.WF MAX) (hatt : attached = true → self.id < g.pool.sparks.length) :
    ∃ st, Spark.update env MAX self attached g deltaTime = .ok st ∧
      st.self.myMat.getDim = 4 ∧
      sqOf 4 st.self.myMat.mat =
        translateMat st.self.x st.self.y st.self.z * scaleMat st.self.size *
          sqOf 4 g.antiRotMat.mat ∧
      (∃ transMat : Matrix ℚ, Matrix.new (.flat st.self.transArray) false = .ok transMat ∧
        transMat.multiply g.antiRotMat = .ok st.self.myMat) ∧
      (∃ phys myMat, st.self = { phys with myMat := myMat } ∧
        phys = if self.type = Spark.types.ROCKET then
            ({ self with
              time := self.time - deltaTime, x := self.x + self.vx * deltaTime,
              y := self.y + self.vy * deltaTime,
              z := self.z + self.vz * deltaTime } : Spark).rocketPhysics deltaTime
          else
            ({ self with
              time := self.time - deltaTime, x := self.x + self.vx * deltaTime,
              y := self.y + self.vy * deltaTime,
              z := self.z + self.vz * deltaTime } : Spark).gravityFade deltaTime) := by
  obtain ⟨st, hupd, -, hphys, hmat, -, -, -⟩ :=
    Spark.update_active_spec env MAX self attached g deltaTime hactive hg hatt
  refine ⟨st, hupd, by rw [hmat]; rfl, ?_,
    ⟨_, Matrix.new_flat_eq st.self.transArray 4 rfl, ?_⟩, hphys⟩
  · rw [hmat]
    show sqOf 4 (tabulate2 4 4 fun row col => ∑ i ∈ Finset.range 4,
      get2 (tabulate2 4 4 fun r c => st.self.transArray.getD (r * 4 + c) default) row i *
        get2 g.antiRotMat.mat i col) = _
    rw [sqOf_product, sqOf_transArray]
  · rw [Matrix.multiply_eq
      ({ dim := 4, mat := tabulate2 4 4 fun row col =>
        st.self.transArray.getD (row * 4 + col) default } : Matrix ℚ) g.antiRotMat
      hg.2.2.symm, hmat]

/-- The array of `Matrix.getIdenity(4)` is the identity matrix. -/
theorem sqOf_identity4 : sqOf 4 identity4.mat = 1 := by
  ext i j
  fin_cases i <;> fin_cases j <;> simp [sqOf, get2, identity4] <;> rfl


/-- C21, as amended.  After `update` of an active particle the cached
transform is the product of the matrix with `size` on the first three places
of its diagonal and `(x, y, z)` in its last column (the array `update` hands
to the constructor) with `antiRotMat`; that is
`translate(x, y, z) * scale(size) * antiRotMat`, with the values `size`, `x`,
`y`, `z` the particle has after this `update`.  The product
`scale(size) * translate(x, y, z) * antiRotMat` is the one in which the
position is multiplied by `size` as well. -/
theorem Spark.update_cached_transform (env : MathEnv) (MAX : Nat) (self : Spark)
    (attached : Bool) (g : Globals) (deltaTime : ℚ) (hactive : self.time > 0)
    (hg : g.WF MAX) (hatt : attached = true → self.id < g.pool.sparks.length) :
    ∃ st, Spark.update env MAX self attached g deltaTime = .ok st ∧
      st.self.myMat.getDim = 4 ∧
      (∃ transMat : Matrix ℚ,
        Matrix.new (.flat [st.self.size, 0, 0, st.self.x, 0, st.self.size, 0, st.self.y,
          0, 0, st.self.size, st.self.z, 0, 0, 0, 1]) false = .ok transMat ∧
        transMat.multiply g.antiRotMat = .ok st.self.myMat) ∧
      sqOf 4 st.self.myMat.mat =
        translateMat st.self.x st.self.y st.self.z * scaleMat st.self.size *
          sqOf 4 g.antiRotMat.mat ∧
      scaleMat st.self.size * translateMat st.self.x st.self.y st.self.z *
          sqOf 4 g.antiRotMat.mat =
        translateMat (st.self.size * st.self.x) (st.self.size * st.self.y)
            (st.self.size * st.self.z) * scaleMat st.self.size * sqOf 4 g.antiRotMat.mat := by
  obtain ⟨st, hupd, hdim, hsq, htrans, -⟩ :=
    Spark.update_active_transform env MAX self attached g deltaTime
      ((Spark.isActive_iff self).mpr hactive) hg hatt
  exact ⟨st, hupd, hdim, htrans, hsq, by rw [scaleMat_mul_translateMat]⟩

/-- An Ember of size 2 at position (3, 5, 7) that does not move, updated with
the initial `antiRotMat`, the identity: its cached transform has 3 at row 0 of
the last column, where `scale(2) * translate(3, 5, 7) * antiRotMat` has 6. -/
theorem Spark.update_transform_not_scale_translate :
    ∃ st, Spark.update MathEnv.sample 3
        (Spark.ofArgs ⟨1, 1, 2, 3, 5, 7, 0, 0, 0, 1, 1, 1, 1, 15, none⟩ 0 identity4) false
        (Globals.sample Pool.empty 0) (1 / 10) = .ok st ∧
      st.self.size = 2 ∧ st.self.x = 3 ∧ st.self.y = 5 ∧ st.self.z = 7 ∧
      sqOf 4 st.self.myMat.mat 0 3 = 3 ∧
      (scaleMat st.self.size * translateMat st.self.x st.self.y st.self.z *
        sqOf 4 (Globals.sample Pool.empty 0).antiRotMat.mat) 0 3 = 6 ∧
      sqOf 4 st.self.myMat.mat ≠
        scaleMat st.self.size * translateMat st.self.x st.self.y st.self.z *
          sqOf 4 (Globals.sample Pool.empty 0).antiRotMat.mat := by
  obtain ⟨st, hupd, -, hsq, -, phys, myMat, hself, hphys⟩ :=
    Spark.update_active_transform MathEnv.sample 3
      (Spark.ofArgs ⟨1, 1, 2, 3, 5, 7, 0, 0, 0, 1, 1, 1, 1, 15, none⟩ 0 identity4) false
      (Globals.sample Pool.empty 0) (1 / 10) (by simp [Spark.isActive, Spark.ofArgs])
      ⟨by decide, by decide, rfl⟩ (fun h => by cases h)
  have hs : st.self.size = 2 := by
    rw [hself, hphys]
    norm_num [Spark.gravityFade, Spark.ofArgs, Spark.types.ROCKET]
  have hx : st.self.x = 3 := by
    rw [hself, hphys]
    norm_num [Spark.gravityFade, Spark.ofArgs, Spark.types.ROCKET]
  have hy : st.self.y = 5 := by
    rw [hself, hphys]
    norm_num [Spark.gravityFade, Spark.ofArgs, Spark.types.ROCKET]
  have hz : st.self.z = 7 := by
    rw [hself, hphys]
    norm_num [Spark.gravityFade, Spark.ofArgs, Spark.types.ROCKET]
  have hR : sqOf 4 (Globals.sample Pool.empty 0).antiRotMat.mat = 1 := sqOf_identity4
  have h3 : sqOf 4 st.self.myMat.mat 0 3 = 3 := by
    rw [hsq, hs, hx, hy, hz, hR, mul_one]
    simp [translateMat, scaleMat, Matrix.mul_apply, Fin.sum_univ_four, Matrix.vecHead,
      Matrix.vecTail]
  have h6 : (scaleMat st.self.size * translateMat st.self.x st.self.y st.self.z *
      sqOf 4 (Globals.sample Pool.empty 0).antiRotMat.mat) 0 3 = 6 := by
    rw [hs, hx, hy, hz, hR, mul_one]
    simp [translateMat, scaleMat, Matrix.mul_apply, Fin.sum_univ_four, Matrix.vecHead,
      Matrix.vecTail]
    norm_num
  refine ⟨st, hupd, hs, hx, hy, hz, h3, h6, fun heq => ?_⟩
  have := congrFun (congrFun heq 0) 3
  rw [h3, h6] at this
  norm_num at this

/-- A Rocket in slot 0 of a pool of three, updated with the initial
`antiRotMat`. -/
theorem Spark.update_cached_transform_witness :
    (Spark.ofArgs (SparkArgs.sample Spark.types.ROCKET 5) 0 identity4).time > 0 ∧
    ∃ st, Spark.update MathEnv.sample 3
        (Spark.ofArgs (SparkArgs.sample Spark.types.ROCKET 5) 0 identity4) true
        (Globals.sample (Pool.three 0 3 3 5 1 1) 0) (1 / 5) = .ok st ∧
      st.self.myMat.getDim = 4 ∧
      sqOf 4 st.self.myMat.mat =
        translateMat st.self.x st.self.y st.self.z * scaleMat st.self.size *
          sqOf 4 (Globals.sample (Pool.three 0 3 3 5 1 1) 0).antiRotMat.mat := by
  have h0 : (Spark.ofArgs (SparkArgs.sample Spark.types.ROCKET 5) 0 identity4).time > 0 :=
    show (5 : ℚ) > 0 by norm_num
  obtain ⟨st, h1, h2, -, h3, -⟩ := Spark.update_cached_transform MathEnv.sample 3
    (Spark.ofArgs (SparkArgs.sample Spark.types.ROCKET 5) 0 identity4) true
    (Globals.sample (Pool.three 0 3 3 5 1 1) 0) (1 / 5) h0
    ⟨by decide, by decide, rfl⟩ (fun _ => by decide)
  exact ⟨h0, st, h1, h2, h3⟩

/-- C24.  `update` on a particle with remaining time `t > 0` returns.  For
every type other than Rocket the new time is `t - deltaTime`; for a Rocket it
is 0.5 if `y > 0`, for `y` after this update's integration, and
`t - deltaTime > 2`, and `t - deltaTime` otherwise. -/
theorem Spark.update_timer (env : MathEnv) (MAX : Nat) (self : Spark)
    (attached : Bool) (g : Globals) (deltaTime : ℚ) (hactive : self.time > 0)
    (hg : g.WF MAX) (hatt : attached = true → self.id < g.pool.sparks.length) :
    ∃ st, Spark.update env MAX self attached g deltaTime = .ok st ∧
      st.self.y = self.y + self.vy * deltaTime ∧
      (self.type ≠ Spark.types.ROCKET → st.self.time = self.time - deltaTime) ∧
      (self.type = Spark.types.ROCKET →
        st.self.time =
          if st.self.y > 0 ∧ self.time - deltaTime > 2 then 1 / 2
          else self.time - deltaTime) := by
  obtain ⟨st, hupd, -, ⟨phys, myMat, hself, hphys⟩, -⟩ :=
    Spark.update_active_spec env MAX self attached g deltaTime
      ((Spark.isActive_iff self).mpr hactive) hg hatt
  have hy : st.self.y = self.y + self.vy * deltaTime := by
    rw [hself, hphys]
    show (ite _ _ _ : Spark).y = _
    split_ifs
    · exact (Spark.rocketPhysics_fixed _ deltaTime).2.1
    · exact (Spark.gravityFade_fixed _ deltaTime).2.1
  refine ⟨st, hupd, hy, fun hne => ?_, fun hR => ?_⟩
  · rw [hself, hphys, if_neg hne]
    exact Spark.gravityFade_time _ deltaTime
  · rw [hy, hself, hphys, if_pos hR]
    exact Spark.rocketPhysics_time _ deltaTime

/-- A Rocket with `time = 5` at height 1: after `update(0.2)` the timer is
0.5. -/
theorem Spark.update_timer_witness :
    (Spark.ofArgs ⟨0, 5, 10, 0, 1, 0, 0, 0, 0, 1, 1, 1, 1, 20, none⟩ 0 identity4).time > 0 ∧
    ∃ st, Spark.update MathEnv.sample 3
        (Spark.ofArgs ⟨0, 5, 10, 0, 1, 0, 0, 0, 0, 1, 1, 1, 1, 20, none⟩ 0 identity4) false
        (Globals.sample Pool.empty 0) (1 / 5) = .ok st ∧
      st.self.time = 1 / 2 := by
  have h0 :
      (Spark.ofArgs ⟨0, 5, 10, 0, 1, 0, 0, 0, 0, 1, 1, 1, 1, 20, none⟩ 0 identity4).time > 0 :=
    show (5 : ℚ) > 0 by norm_num
  obtain ⟨st, h1, h2, -, h3⟩ := Spark.update_timer MathEnv.sample 3
    (Spark.ofArgs ⟨0, 5, 10, 0, 1, 0, 0, 0, 0, 1, 1, 1, 1, 20, none⟩ 0 identity4) false
    (Globals.sample Pool.empty 0) (1 / 5) h0 ⟨by decide, by decide, rfl⟩ (fun h => by cases h)
  refine ⟨h0, st, h1, ?_⟩
  rw [h3 rfl, h2]
  norm_num [Spark.ofArgs]

/-! ## Theorems: what `update` does to the pool -/

theorem PoolStep.refl (p : Pool) : PoolStep p p := ⟨Nat.le_refl _, fun h => h⟩

theorem PoolStep.trans {p q r : Pool} (h1 : PoolStep p q) (h2 : PoolStep q r) :
    PoolStep p r := ⟨h1.1.trans h2.1, fun h => h2.2 (h1.2 h)⟩

/-- Storing a particle at the index that is its `id`. -/
theorem PoolStep.set (p : Pool) (s : Spark) :
    PoolStep p { p with sparks := p.sparks.set s.id s } := by
  refine ⟨by simp, fun h i t ht => ?_⟩
  have ht' : (p.sparks.set s.id s)[i]? = some t := ht
  by_cases hi : s.id = i
  · subst hi
    have hlt : s.id < p.sparks.length := by
      have := (List.getElem?_eq_some.mp ht').1
      rwa [List.length_set] at this
    rw [List.getElem?_set_self hlt] at ht'
    cases ht'
    rfl
  · rw [List.getElem?_set_ne hi] at ht'
    exact h i t ht'

theorem UpdateState.sync_step (st : UpdateState) : PoolStep st.globals.pool st.sync := by
  unfold UpdateState.sync
  split
  · exact PoolStep.set _ _
  · exact PoolStep.refl _

/-- A call of `Spark.getNewSpark` that returns loses no particle and puts the
new one at the index that is its `id`. -/
theorem Spark.getNewSpark_step (cap : Nat) (pool : Pool) (a : SparkArgs)
    (r : Option Spark) (pool' : Pool) (h : Spark.getNewSpark cap pool a = .ok (r, pool')) :
    PoolStep pool pool' := by
  rcases Spark.getNewSpark_inv cap pool a r pool' h with
    ⟨-, -, hp⟩ | ⟨-, c, s0, -, -, -, hp⟩ | ⟨-, -, hp⟩
  · subst hp
    refine ⟨by simp, fun hids i t ht => ?_⟩
    have ht' : (pool.sparks ++ [Spark.ofArgs a pool.sparks.length identity4])[i]? = some t :=
      ht
    by_cases hi : i < pool.sparks.length
    · rw [List.getElem?_append_left hi] at ht'
      exact hids i t ht'
    · rw [List.getElem?_append_right (by omega)] at ht'
      have hi0 : i - pool.sparks.length = 0 := by
        by_contra hne
        rw [List.getElem?_eq_none (by simp; omega)] at ht'
        cases ht'
      rw [hi0] at ht'
      simp only [List.getElem?_cons_zero, Option.some.injEq] at ht'
      rw [← ht']
      show pool.sparks.length = i
      omega
  · subst hp
    have := PoolStep.set pool (Spark.ofArgs a c identity4)
    refine ⟨by simp, fun hids i t ht => ?_⟩
    exact this.2 hids i t ht
  · subst hp
    exact PoolStep.refl _

theorem UpdateState.spawn_step (MAX : Nat) (a : SparkArgs) (st : UpdateState)
    (r : Option Spark) (st' : UpdateState) (h : st.spawn MAX a = .ok (r, st')) :
    PoolStep st.globals.pool st'.globals.pool := by
  unfold UpdateState.spawn at h
  rw [Res.bind_eq_ok] at h
  obtain ⟨⟨r0, pool'⟩, hget, hok⟩ := h
  simp only [Res.ok.injEq, Prod.mk.injEq] at hok
  obtain ⟨-, hst⟩ := hok
  subst hst
  exact (UpdateState.sync_step st).trans (Spark.getNewSpark_step MAX _ a r0 pool' hget)

theorem Spark.explodeLoop_step (env : MathEnv) (MAX : Nat) :
    ∀ (n : Nat) (st st' : UpdateState), Spark.explodeLoop env MAX n st = .ok st' →
      PoolStep st.globals.pool st'.globals.pool := by
  intro n
  induction n with
  | zero =>
    intro st st' h
    simp only [Spark.explodeLoop, Res.ok.injEq] at h
    subst h
    exact PoolStep.refl _
  | succ n ih =>
    intro st st' h
    rw [Spark.explodeLoop] at h
    simp only [UpdateState.nextRandom, getRandomVector, getRandomAngle,
      Globals.nextRandom] at h
    rw [Res.bind_eq_ok] at h
    obtain ⟨⟨r, st2⟩, hspawn, hrest⟩ := h
    have h1 := UpdateState.spawn_step MAX _ _ r st2 hspawn
    cases r with
    | none =>
      simp only [Res.ok.injEq] at hrest
      subst hrest
      exact h1
    | some s =>
      exact PoolStep.trans h1 (ih st2 st' hrest)

theorem Spark.updateRocket_step (env : MathEnv) (MAX : Nat) (deltaTime : ℚ)
    (st st' : UpdateState) (h : Spark.updateRocket env MAX deltaTime st = .ok st') :
    PoolStep st.globals.pool st'.globals.pool := by
  unfold Spark.updateRocket at h
  simp only [UpdateState.nextRandom, getRandomAngle, Globals.nextRandom] at h
  rw [Res.bind_eq_ok] at h
  obtain ⟨st1, hember, hrest⟩ := h
  have h1 : PoolStep st.globals.pool st1.globals.pool := by
    split at hember
    · rw [Res.bind_eq_ok] at hember
      obtain ⟨⟨r, st2⟩, hspawn, hok⟩ := hember
      simp only [Res.ok.injEq] at hok
      subst hok
      have hs := UpdateState.spawn_step MAX _ _ r st2 hspawn
      exact hs
    · simp only [Res.ok.injEq] at hember
      subst hember
      exact PoolStep.refl _
  split at hrest
  · have hl := Spark.explodeLoop_step env MAX _ _ st' hrest
    exact PoolStep.trans h1 hl
  · simp only [Res.ok.injEq] at hrest
    subst hrest
    exact h1

theorem Spark.updateSpark_step (MAX : Nat) (deltaTime : ℚ)
    (st st' : UpdateState) (h : Spark.updateSpark MAX deltaTime st = .ok st') :
    PoolStep st.globals.pool st'.globals.pool := by
  unfold Spark.updateSpark at h
  simp only [UpdateState.nextRandom, Globals.nextRandom] at h
  rw [Res.bind_eq_ok] at h
  obtain ⟨st1, hember, hrest⟩ := h
  simp only [Res.ok.injEq] at hrest
  subst hrest
  split at hember
  · rw [Res.bind_eq_ok] at hember
    obtain ⟨⟨r, st2⟩, hspawn, hok⟩ := hember
    simp only [Res.ok.injEq] at hok
    subst hok
    have hs := UpdateState.spawn_step MAX _ _ r st2 hspawn
    exact hs
  · simp only [Res.ok.injEq] at hember
    subst hember
    exact PoolStep.refl _

/-- A call of `update` that returns loses no particle of the pool and keeps
every particle at the index that is its `id`. -/
theorem Spark.update_step (env : MathEnv) (MAX : Nat) (self : Spark) (attached : Bool)
    (g : Globals) (deltaTime : ℚ) (st : UpdateState)
    (h : Spark.update env MAX self attached g deltaTime = .ok st) :
    PoolStep g.pool st.globals.pool := by
  by_cases hact : self.isActive = true
  · simp only [Spark.update, hact, Bool.not_true, Bool.false_eq_true, if_false] at h
    rw [Res.bind_eq_ok] at h
    obtain ⟨st1, hcase, hrest⟩ := h
    rw [Res.bind_eq_ok] at hrest
    obtain ⟨T, -, hrest⟩ := hrest
    rw [Res.bind_eq_ok] at hrest
    obtain ⟨P, -, hrest⟩ := hrest
    simp only [Res.ok.injEq] at hrest
    subst hrest
    have h1 : PoolStep g.pool st1.globals.pool := by
      split at hcase
      · exact Spark.updateRocket_step env MAX deltaTime _ st1 hcase
      · split at hcase
        · exact Spark.updateSpark_step MAX deltaTime _ st1 hcase
        · simp only [Spark.updateDefault, Res.ok.injEq] at hcase
          subst hcase
          exact PoolStep.refl _
    have hs := UpdateState.sync_step
      ⟨{ st1.self with myMat := P }, st1.attached, st1.globals, st1.spawns⟩
    exact PoolStep.trans h1 hs
  · have hin : self.isActive = false := by simpa using hact
    obtain ⟨Z, hZ⟩ : ∃ Z : Spark, Z = { self with myMat :=
        { dim := 4, mat := [[0, 0, 0, 0], [0, 0, 0, 0], [0, 0, 0, 0], [0, 0, 0, 0]] } } :=
      ⟨_, rfl⟩
    obtain ⟨g1, hg1⟩ : ∃ g1 : Globals, g1 = Z.updateData g := ⟨_, rfl⟩
    rw [Spark.update_inactive_eq env MAX self attached g deltaTime hin Z hZ g1 hg1] at h
    simp only [Res.ok.injEq] at h
    subst h
    have hpool : g1.pool = g.pool := by rw [hg1]; exact (Spark.updateData_frame Z g).1
    have := UpdateState.sync_step ⟨Z, attached, g1, []⟩
    rw [show (⟨Z, attached, g1, []⟩ : UpdateState).globals.pool = g.pool from hpool] at this
    exact this

/-- A call of `update` with the global variables in order returns, and the
global variables stay in order. -/
theorem Spark.update_total (env : MathEnv) (MAX : Nat) (self : Spark) (attached : Bool)
    (g : Globals) (deltaTime : ℚ) (hg : g.WF MAX)
    (hatt : attached = true → self.id < g.pool.sparks.length) :
    ∃ st, Spark.update env MAX self attached g deltaTime = .ok st ∧ st.globals.WF MAX ∧
      PoolStep g.pool st.globals.pool := by
  by_cases hact : self.isActive = true
  · obtain ⟨st, hupd, hwf, -⟩ :=
      Spark.update_active_spec env MAX self attached g deltaTime hact hg hatt
    exact ⟨st, hupd, hwf, Spark.update_step env MAX self attached g deltaTime st hupd⟩
  · have hin : self.isActive = false := by simpa using hact
    obtain ⟨Z, hZ⟩ : ∃ Z : Spark, Z = { self with myMat :=
        { dim := 4, mat := [[0, 0, 0, 0], [0, 0, 0, 0], [0, 0, 0, 0], [0, 0, 0, 0]] } } :=
      ⟨_, rfl⟩
    obtain ⟨g1, hg1⟩ : ∃ g1 : Globals, g1 = Z.updateData g := ⟨_, rfl⟩
    have hupd := Spark.update_inactive_eq env MAX self attached g deltaTime hin Z hZ g1 hg1
    have hpool : g1.pool = g.pool := by rw [hg1]; exact (Spark.updateData_frame Z g).1
    have hanti : g1.antiRotMat = g.antiRotMat := by
      rw [hg1]; exact (Spark.updateData_frame Z g).2.1
    refine ⟨_, hupd, ⟨?_, ?_, ?_⟩, Spark.update_step env MAX self attached g deltaTime _ hupd⟩
    · exact ((UpdateState.sync_length ⟨Z, attached, g1, []⟩).trans
        (congrArg (fun p => p.sparks.length) hpool)).le.trans hg.1
    · exact ((UpdateState.sync_cursor ⟨Z, attached, g1, []⟩).trans
        (congrArg (fun p => p.lastInactiveSpark) hpool)).le.trans_lt hg.2.1
    · exact hanti.symm ▸ hg.2.2

/-- Every reachable pool is within the capacity, has its cursor below the
capacity, and holds every particle at the index that is its `id`. -/
theorem Pool.Reachable.inv (env : MathEnv) (MAX : Nat) (hMAX : 0 < MAX) (p : Pool)
    (h : Pool.Reachable env MAX p) :
    p.sparks.length ≤ MAX ∧ p.lastInactiveSpark < MAX ∧ p.IdsOK := by
  induction h with
  | empty =>
    refine ⟨Nat.zero_le _, hMAX, fun i s hs => ?_⟩
    simp [Pool.empty] at hs
  | spawn p a r p' _ hget ih =>
    obtain ⟨h1, h2, -⟩ := Spark.getNewSpark_effect MAX p a r p' ih.1 ih.2.1 hget
    exact ⟨h1, h2, (Spark.getNewSpark_step MAX p a r p' hget).2 ih.2.2⟩
  | update p i s g deltaTime st _ hs hg hdim hupd ih =>
    subst hg
    have hwf : g.WF MAX := ⟨ih.1, ih.2.1, hdim⟩
    have hid : s.id < g.pool.sparks.length := by
      rw [ih.2.2 i s hs]
      exact (List.getElem?_eq_some.mp hs).1
    obtain ⟨st', hupd', hwf', -⟩ :=
      Spark.update_total env MAX s true g deltaTime hwf (fun _ => hid)
    rw [hupd] at hupd'
    cases hupd'
    exact ⟨hwf'.1, hwf'.2.1, (Spark.update_step env MAX s true g deltaTime st hupd).2 ih.2.2⟩

/-- C27.  In every pool reachable from the empty pool by calls of
`Spark.getNewSpark` and calls of `update` on particles of the pool, for a
positive `MAX_SPARK_COUNT`: the number of particles is at most
`MAX_SPARK_COUNT`; the cursor is below `MAX_SPARK_COUNT`; the particle at
index `i` has `id = i`; every call of `Spark.getNewSpark` returns (it does not
throw) and either appends the new particle at index `length`, or stores it at
an index below `length`, or returns `null` and leaves the pool alone, so no
write leaves a gap; and every call of `update` on a particle of the pool, with
a 4x4 `antiRotMat`, returns. -/
theorem Pool.reachable_bounds (env : MathEnv) (MAX : Nat) (hMAX : 0 < MAX) (p : Pool)
    (h : Pool.Reachable env MAX p) :
    p.sparks.length ≤ MAX ∧ p.lastInactiveSpark < MAX ∧
    (∀ (i : Nat) (s : Spark), p.sparks[i]? = some s → s.id = i) ∧
    (∀ a : SparkArgs, ∃ r p', Spark.getNewSpark MAX p a = .ok (r, p') ∧
      Pool.Reachable env MAX p' ∧
      ((p.sparks.length < MAX ∧
          r = some (Spark.ofArgs a p.sparks.length identity4) ∧
          p'.sparks = p.sparks ++ [Spark.ofArgs a p.sparks.length identity4]) ∨
        (∃ c, c < p.sparks.length ∧ r = some (Spark.ofArgs a c identity4) ∧
          p'.sparks = p.sparks.set c (Spark.ofArgs a c identity4)) ∨
        (r = none ∧ p' = p))) ∧
    (∀ (i : Nat) (s : Spark) (g : Globals) (deltaTime : ℚ), p.sparks[i]? = some s →
      g.pool = p → g.antiRotMat.dim = 4 →
      ∃ st, Spark.update env MAX s true g deltaTime = .ok st ∧
        Pool.Reachable env MAX st.globals.pool) := by
  obtain ⟨h1, h2, h3⟩ := Pool.Reachable.inv env MAX hMAX p h
  refine ⟨h1, h2, h3, fun a => ?_, fun i s g deltaTime hs hg hdim => ?_⟩
  · obtain ⟨r, p', hget⟩ := Spark.getNewSpark_total MAX p a h1 h2
    refine ⟨r, p', hget, Pool.Reachable.spawn p a r p' h hget, ?_⟩
    rcases Spark.getNewSpark_inv MAX p a r p' hget with
      ⟨hlt, hr, hp⟩ | ⟨-, c, s0, hs0, -, hr, hp⟩ | ⟨-, hr, hp⟩
    · exact Or.inl ⟨hlt, hr, by rw [hp]⟩
    · exact Or.inr (Or.inl ⟨c, (List.getElem?_eq_some.mp hs0).1, hr, by rw [hp]⟩)
    · exact Or.inr (Or.inr ⟨hr, hp⟩)
  · subst hg
    have hid : s.id < g.pool.sparks.length := by
      rw [h3 i s hs]
      exact (List.getElem?_eq_some.mp hs).1
    obtain ⟨st, hupd, -, -⟩ :=
      Spark.update_total env MAX s true g deltaTime ⟨h1, h2, hdim⟩ (fun _ => hid)
    exact ⟨st, hupd, Pool.Reachable.update g.pool i s g deltaTime st h hs rfl hdim hupd⟩

/-- The pool after one spawn into the empty pool, with capacity 3. -/
theorem Pool.reachable_bounds_witness :
    0 < 3 ∧
    Pool.Reachable MathEnv.sample 3
      { sparks := [Spark.ofArgs (SparkArgs.sample 3 1) 0 identity4], lastInactiveSpark := 0 } ∧
    ([Spark.ofArgs (SparkArgs.sample 3 1) 0 identity4] : List Spark).length ≤ 3 ∧
    ∃ r p', Spark.getNewSpark 3
        { sparks := [Spark.ofArgs (SparkArgs.sample 3 1) 0 identity4], lastInactiveSpark := 0 }
        (SparkArgs.sample 0 5) = .ok (r, p') ∧ Pool.Reachable MathEnv.sample 3 p' := by
  have hr : Pool.Reachable MathEnv.sample 3
      { sparks := [Spark.ofArgs (SparkArgs.sample 3 1) 0 identity4],
        lastInactiveSpark := 0 } :=
    Pool.Reachable.spawn Pool.empty (SparkArgs.sample 3 1)
      (some (Spark.ofArgs (SparkArgs.sample 3 1) 0 identity4)) _ Pool.Reachable.empty
      (by decide)
  obtain ⟨h1, -, -, h4, -⟩ := Pool.reachable_bounds MathEnv.sample 3 (by decide) _ hr
  obtain ⟨r, p', hget, hreach, -⟩ := h4 (SparkArgs.sample 0 5)
  exact ⟨by decide, hr, h1, r, p', hget, hreach⟩

/-! ## Theorems: the frame driver -/

theorem draw.deltaTime_first (time : ℚ) : draw.deltaTime 0 time = 1 / 1000 := by
  simp only [draw.deltaTime, if_true]
  ring

theorem draw.deltaTime_later (oldTime time : ℚ) (h : oldTime ≠ 0) :
    draw.deltaTime oldTime time = (time - oldTime) / 1000 := by
  simp only [draw.deltaTime, h, if_false]

theorem Spark.render_frame (self : Spark) (g : Globals) :
    (self.render g).pool = g.pool ∧ (self.render g).antiRotMat = g.antiRotMat := by
  unfold Spark.render
  split
  · exact ⟨rfl, rfl⟩
  · exact ⟨(Spark.updateData_frame self g).1, (Spark.updateData_frame self g).2.1⟩

/-- The callback of `forEach` returns and keeps the global variables in
order. -/
theorem draw.eachSpark_spec (env : MathEnv) (MAX : Nat) (deltaTime : ℚ) (i : Nat)
    (g : Globals) (hg : g.WF MAX) (hids : g.pool.IdsOK) :
    ∃ g', draw.eachSpark env MAX deltaTime i g = .ok g' ∧ g'.WF MAX ∧ g'.pool.IdsOK := by
  unfold draw.eachSpark
  cases hs : g.pool.sparks[i]? with
  | none => exact ⟨g, rfl, hg, hids⟩
  | some spark =>
    have hid : spark.id < g.pool.sparks.length := by
      rw [hids i spark hs]
      exact (List.getElem?_eq_some.mp hs).1
    obtain ⟨st, hupd, hwf, hstep⟩ :=
      Spark.update_total env MAX spark true g deltaTime hg (fun _ => hid)
    obtain ⟨hp, ha⟩ := Spark.render_frame st.self st.globals
    refine ⟨st.self.render st.globals, ?_, ⟨?_, ?_, ?_⟩, ?_⟩
    · simp only [hupd, Res.ok_bind]
    · rw [hp]; exact hwf.1
    · rw [hp]; exact hwf.2.1
    · rw [ha]; exact hwf.2.2
    · rw [hp]; exact hstep.2 hids

/-- The launch of a Rocket at the end of `draw` returns and keeps the global
variables in order. -/
theorem draw.launch_spec (env : MathEnv) (MAX : Nat) (height : ℚ)
    (g : Globals) (hg : g.WF MAX) (hids : g.pool.IdsOK) :
    ∃ g', draw.launch env MAX height g = .ok g' ∧ g'.WF MAX ∧ g'.pool.IdsOK := by
  have key : ∀ (a : SparkArgs) (rnd : Nat → ℚ),
      ∃ g', ((Spark.getNewSpark MAX g.pool a).bind fun (p : Option Spark × Pool) =>
          Res.ok (⟨p.2, g.matrixArray, g.lightArray, g.antiRotMat, rnd⟩ : Globals)) = .ok g' ∧
        g'.WF MAX ∧ g'.pool.IdsOK := by
    intro a rnd
    obtain ⟨r, p', hget⟩ := Spark.getNewSpark_total MAX g.pool a hg.1 hg.2.1
    obtain ⟨h1, h2, -⟩ := Spark.getNewSpark_effect MAX g.pool a r p' hg.1 hg.2.1 hget
    rw [hget, Res.ok_bind]
    exact ⟨_, rfl, ⟨h1, h2, hg.2.2⟩, (Spark.getNewSpark_step MAX g.pool a r p' hget).2 hids⟩
  by_cases hu : g.random 0 < 25 / 1000
  · simp only [draw.launch, Globals.nextRandom, hu, if_true, getRandomVector, getRandomAngle]
    exact key _ _
  · simp only [draw.launch, Globals.nextRandom, hu, if_false]
    exact ⟨_, rfl, ⟨hg.1, hg.2.1, hg.2.2⟩, hids⟩

/-- A call of `draw` with a context that is not lost, a 4x4 `cameraMat` and a
pool in order returns.  It sets `oldTime` to `time`, adds half of
`draw.deltaTime` to `camRot`, and leaves the pool in order. -/
theorem draw_spec (env : MathEnv) (MAX : Nat) (cameraMat : Matrix ℚ) (height : ℚ)
    (time : ℚ) (s : DrawState) (hcam : cameraMat.dim = 4)
    (hlen : s.globals.pool.sparks.length ≤ MAX) (hcur : s.globals.pool.lastInactiveSpark < MAX)
    (hids : s.globals.pool.IdsOK) :
    ∃ s', draw env MAX cameraMat height false time s = .ok s' ∧ s'.oldTime = time ∧
      s'.camRot = s.camRot + draw.deltaTime s.oldTime time * (1 / 2) ∧
      s'.globals.pool.sparks.length ≤ MAX ∧ s'.globals.pool.lastInactiveSpark < MAX ∧
      s'.globals.pool.IdsOK := by
  obtain ⟨c, hc⟩ : ∃ c : ℚ, c = s.camRot + draw.deltaTime s.oldTime time * (1 / 2) :=
    ⟨_, rfl⟩
  have hrot := Matrix.new_flat_eq [env.cos c, 0, env.sin c, 0, 0, 1, 0, 0,
    -env.sin c, 0, env.cos c, 0, 0, 0, 0, 1] 4 rfl
  have hanti := Matrix.new_flat_eq [env.cos (-c), 0, env.sin (-c), 0, 0, 1, 0, 0,
    -env.sin (-c), 0, env.cos (-c), 0, 0, 0, 0, 1] 4 rfl
  obtain ⟨A, hA⟩ : ∃ A : Matrix ℚ, A = { dim := 4, mat := tabulate2 4 4 (fun row col =>
      ([env.cos (-c), 0, env.sin (-c), 0, 0, 1, 0, 0,
        -env.sin (-c), 0, env.cos (-c), 0, 0, 0, 0, 1] : List ℚ).getD (row * 4 + col)
        default) } := ⟨_, rfl⟩
  rw [← hA] at hanti
  have hAdim : A.dim = 4 := by rw [hA]
  obtain ⟨R, hR⟩ : ∃ R : Matrix ℚ, R = { dim := 4, mat := tabulate2 4 4 (fun row col =>
      ([env.cos c, 0, env.sin c, 0, 0, 1, 0, 0,
        -env.sin c, 0, env.cos c, 0, 0, 0, 0, 1] : List ℚ).getD (row * 4 + col)
        default) } := ⟨_, rfl⟩
  rw [← hR] at hrot
  have hRdim : R.dim = 4 := by rw [hR]
  obtain ⟨C, hmul⟩ : ∃ C, cameraMat.multiply R = .ok C :=
    ⟨_, Matrix.multiply_eq cameraMat R (hcam.trans hRdim.symm)⟩
  obtain ⟨g1, hloop, hwf1, hids1⟩ := forLoopM_inv
    (fun _ (g : Globals) => g.WF MAX ∧ g.pool.IdsOK) 0 s.globals.pool.sparks.length
    (Nat.zero_le _) ({ s.globals with antiRotMat := A } : Globals)
    (draw.eachSpark env MAX (draw.deltaTime s.oldTime time))
    ⟨⟨hlen, hcur, hAdim⟩, hids⟩
    (fun i g _ _ hP => draw.eachSpark_spec env MAX _ i g hP.1 hP.2)
  obtain ⟨g2, hlaunch, hwf2, hids2⟩ := draw.launch_spec env MAX height g1 hwf1 hids1
  refine ⟨⟨time, c, C, g2⟩, ?_, rfl, hc, hwf2.1, hwf2.2.1, hids2⟩
  simp only [draw, Bool.false_eq_true, if_false]
  rw [← hc, hrot, Res.ok_bind, hmul, Res.ok_bind, hanti, Res.ok_bind]
  simp only [hloop, Res.ok_bind, hlaunch]

theorem Pool.IdsOK.empty : Pool.empty.IdsOK := fun i s hs => by
  simp [Pool.empty] at hs

/-- C25, as amended.  The value `draw` passes to `update` is 0.001 on a tick
that finds `oldTime == 0`, as the first tick does, and otherwise
`(time - oldTime) / 1000` for the time `oldTime` of the tick before: nothing
bounds it.  A call of `draw` with a context that is not lost, a 4x4
`cameraMat` and a pool in order returns and sets `oldTime` to `time`, so the
next tick, at `time2`, passes `(time2 - time) / 1000` if `time` is not 0. -/
theorem draw_deltaTime (env : MathEnv) (MAX : Nat) (cameraMat : Matrix ℚ) (height : ℚ)
    (time : ℚ) (s : DrawState) (hcam : cameraMat.dim = 4)
    (hlen : s.globals.pool.sparks.length ≤ MAX) (hcur : s.globals.pool.lastInactiveSpark < MAX)
    (hids : ∀ (i : Nat) (p : Spark), s.globals.pool.sparks[i]? = some p → p.id = i) :
    (s.oldTime = 0 → draw.deltaTime s.oldTime time = 1 / 1000) ∧
    (s.oldTime ≠ 0 → draw.deltaTime s.oldTime time = (time - s.oldTime) / 1000) ∧
    ∃ s', draw env MAX cameraMat height false time s = .ok s' ∧ s'.oldTime = time ∧
      s'.camRot = s.camRot + draw.deltaTime s.oldTime time * (1 / 2) ∧
      s'.globals.pool.sparks.length ≤ MAX ∧ s'.globals.pool.lastInactiveSpark < MAX ∧
      (∀ (i : Nat) (p : Spark), s'.globals.pool.sparks[i]? = some p → p.id = i) ∧
      (time ≠ 0 → ∀ time2, draw.deltaTime s'.oldTime time2 = (time2 - time) / 1000) := by
  refine ⟨fun h => by rw [h]; exact draw.deltaTime_first time,
    fun h => draw.deltaTime_later _ _ h, ?_⟩
  obtain ⟨s', hdraw, hold, hrot, h1, h2, h3⟩ :=
    draw_spec env MAX cameraMat height time s hcam hlen hcur hids
  refine ⟨s', hdraw, hold, hrot, h1, h2, h3, fun ht time2 => ?_⟩
  rw [hold]
  exact draw.deltaTime_later _ _ ht

/-- The first tick, at `time = 1000`, from the state the program starts in,
with capacity 3. -/
theorem draw_deltaTime_witness :
    identity4.dim = 4 ∧
    draw.deltaTime (DrawState.initial 3 fun _ => 1 / 2).oldTime 1000 = 1 / 1000 ∧
    ∃ s', draw MathEnv.sample 3 identity4 0 false 1000 (DrawState.initial 3 fun _ => 1 / 2)
        = .ok s' ∧ s'.oldTime = 1000 := by
  obtain ⟨h1, -, s', h2, h3, -⟩ := draw_deltaTime MathEnv.sample 3 identity4 0 1000
    (DrawState.initial 3 fun _ => 1 / 2) rfl (by decide) (by decide) Pool.IdsOK.empty
  exact ⟨rfl, h1 rfl, s', h2, h3⟩

/-- The first tick at `time = 1000` sets `oldTime = 1000`; a second tick one
hour later, at `time = 3601000`, passes `deltaTime = 3600` to `update`, and no
number bounds what a later tick passes. -/
theorem draw_gap_unbounded :
    ∃ s1, draw MathEnv.sample 3 identity4 0 false 1000 (DrawState.initial 3 fun _ => 1 / 2)
        = .ok s1 ∧ s1.oldTime = 1000 ∧
      draw.deltaTime s1.oldTime 3601000 = 3600 ∧
      ¬ ∃ B : ℚ, ∀ time : ℚ, s1.oldTime ≤ time → draw.deltaTime s1.oldTime time ≤ B := by
  obtain ⟨s1, hdraw, hold, -⟩ := draw_spec MathEnv.sample 3 identity4 0 1000
    (DrawState.initial 3 fun _ => 1 / 2) rfl (by decide) (by decide) Pool.IdsOK.empty
  refine ⟨s1, hdraw, hold, ?_, ?_⟩
  · rw [hold, draw.deltaTime_later _ _ (by norm_num)]
    norm_num
  · rintro ⟨B, hB⟩
    have h := hB (1000 + 1000 * (|B| + 1)) (by rw [hold]; nlinarith [abs_nonneg B])
    rw [hold, draw.deltaTime_later _ _ (by norm_num)] at h
    have h2 : (1000 + 1000 * (|B| + 1) - 1000) / 1000 = |B| + 1 := by ring
    rw [h2] at h
    linarith [le_abs_self B]

/-! ## Theorems: the vector helpers -/

/-- The squared length of the vector `anglesToVector` returns. -/
theorem lengthSq_anglesToVector (env : MathEnv) (angle1 angle2 mag : ℚ)
    (h : env.cos angle1 ^ 2 + env.sin angle1 ^ 2 = 1) :
    lengthSq (anglesToVector env angle1 angle2 mag) = mag ^ 2 * (1 + env.cos angle2 ^ 2) := by
  simp only [lengthSq, anglesToVector]
  linear_combination mag ^ 2 * h

/-- C26, as amended.  With `cos² + sin² = 1`, the vector
`anglesToVector(a1, a2, mag)` has the squared length `mag² (1 + cos² a2)`: its
length is between `mag` and `√2 mag`, and it is `mag` only when `mag = 0` or
`cos a2 = 0`.  So the vector `getRandomVector(m)` returns for `0 ≤ m < 300`
has a squared length below `2 * 300²`: the speed of an explosion child is
below `300 √2`. -/
theorem anglesToVector_length (env : MathEnv)
    (h : ∀ a, env.cos a ^ 2 + env.sin a ^ 2 = 1) (angle1 angle2 mag : ℚ) :
    lengthSq (anglesToVector env angle1 angle2 mag) = mag ^ 2 * (1 + env.cos angle2 ^ 2) ∧
    mag ^ 2 ≤ lengthSq (anglesToVector env angle1 angle2 mag) ∧
    lengthSq (anglesToVector env angle1 angle2 mag) ≤ 2 * mag ^ 2 ∧
    (lengthSq (anglesToVector env angle1 angle2 mag) = mag ^ 2 ↔
      mag = 0 ∨ env.cos angle2 = 0) ∧
    (∀ (g : Globals) (m : ℚ), 0 ≤ m → m < 300 →
      lengthSq (getRandomVector env m g).1 < 2 * 300 ^ 2) := by
  have hlen := fun a1 a2 m => lengthSq_anglesToVector env a1 a2 m (h a1)
  have hcos : ∀ a, env.cos a ^ 2 ≤ 1 := fun a => by nlinarith [h a, sq_nonneg (env.sin a)]
  refine ⟨hlen _ _ _, ?_, ?_, ?_, ?_⟩
  · rw [hlen]
    nlinarith [sq_nonneg mag, sq_nonneg (env.cos angle2), sq_nonneg (mag * env.cos angle2)]
  · rw [hlen]
    nlinarith [sq_nonneg mag, hcos angle2, mul_nonneg (sq_nonneg mag)
      (sub_nonneg.mpr (hcos angle2))]
  · rw [hlen]
    constructor
    · intro he
      have h0 : mag ^ 2 * env.cos angle2 ^ 2 = 0 := by linear_combination he
      rcases mul_eq_zero.mp h0 with h1 | h1
      · exact Or.inl (pow_eq_zero_iff (by norm_num) |>.mp h1)
      · exact Or.inr (pow_eq_zero_iff (by norm_num) |>.mp h1)
    · rintro (h1 | h1) <;> rw [h1] <;> ring
  · intro g m hm0 hm
    have hv : (getRandomVector env m g).1 =
        anglesToVector env (getRandomAngle 0 (2 * env.PI) g).1
          (getRandomAngle 0 (2 * env.PI) (getRandomAngle 0 (2 * env.PI) g).2).1 m := rfl
    rw [hv, hlen]
    have hm2 : m ^ 2 < 300 ^ 2 := by nlinarith
    nlinarith [sq_nonneg m, hcos (getRandomAngle 0 (2 * env.PI)
      (getRandomAngle 0 (2 * env.PI) g).2).1,
      mul_nonneg (sq_nonneg m) (sub_nonneg.mpr (hcos (getRandomAngle 0 (2 * env.PI)
      (getRandomAngle 0 (2 * env.PI) g).2).1))]

/-- The values of the sample at the angle 0 satisfy `cos² + sin² = 1`; the
vector for `mag = 3` has squared length 18. -/
theorem anglesToVector_length_witness :
    (∀ a, MathEnv.sample.cos a ^ 2 + MathEnv.sample.sin a ^ 2 = 1) ∧
    lengthSq (anglesToVector MathEnv.sample 0 0 3) =
      3 ^ 2 * (1 + MathEnv.sample.cos 0 ^ 2) ∧
    lengthSq (anglesToVector MathEnv.sample 0 0 3) ≤ 2 * 3 ^ 2 :=
  have h : ∀ a, MathEnv.sample.cos a ^ 2 + MathEnv.sample.sin a ^ 2 = 1 := fun _ => by
    show (1 : ℚ) ^ 2 + 0 ^ 2 = 1
    norm_num
  ⟨h, (anglesToVector_length MathEnv.sample h 0 0 3).1,
    (anglesToVector_length MathEnv.sample h 0 0 3).2.2.1⟩

/-- At the angles 0, where `Math.cos` is 1 and `Math.sin` is 0,
`anglesToVector(0, 0, 1)` is `(1, 0, 1)`, of squared length 2 and not 1.  With
`Math.random()` returning 0, `getRandomVector(299)` draws the angles 0 and
returns `(299, 0, 299)`, whose squared length is not below `300²`. -/
theorem anglesToVector_longer_than_mag :
    anglesToVector MathEnv.sample 0 0 1 = (1, 0, 1) ∧
    lengthSq (anglesToVector MathEnv.sample 0 0 1) = 2 ∧
    lengthSq (anglesToVector MathEnv.sample 0 0 1) ≠ 1 ^ 2 ∧
    (getRandomAngle 0 (2 * MathEnv.sample.PI) (Globals.sample Pool.empty 0)).1 = 0 ∧
    (getRandomVector MathEnv.sample 299 (Globals.sample Pool.empty 0)).1 = (299, 0, 299) ∧
    ¬ lengthSq (getRandomVector MathEnv.sample 299 (Globals.sample Pool.empty 0)).1
        < 300 ^ 2 := by
  have h1 : anglesToVector MathEnv.sample 0 0 1 = (1, 0, 1) := by
    simp [anglesToVector, MathEnv.sample]
  have h2 : (getRandomVector MathEnv.sample 299 (Globals.sample Pool.empty 0)).1 =
      (299, 0, 299) := by
    simp [getRandomVector, getRandomAngle, Globals.nextRandom, anglesToVector,
      MathEnv.sample, Globals.sample]
  refine ⟨h1, ?_, ?_, ?_, h2, ?_⟩
  · rw [h1]; norm_num [lengthSq]
  · rw [h1]; norm_num [lengthSq]
  · simp [getRandomAngle, Globals.nextRandom, Globals.sample]
  · rw [h2]; norm_num [lengthSq]

/-! ## Theorems: the inverse at dimension 4 -/

section InverseFour

variable {α : Type} [Field α] [DecidableEq α] [Inhabited α]

/-- Entry by entry, the product of the inverse with the matrix is the
identity. -/
theorem sum_inverse_mul (m : Nat) (a T : List (List α))
    (hdet : (sqOf (m + 1) a).det ≠ 0)
    (hT : sqOf (m + 1) T = (sqOf (m + 1) a).det⁻¹ • (sqOf (m + 1) a).adjugate)
    (r c : Nat) (hr : r < m + 1) (hc : c < m + 1) :
    ∑ i ∈ Finset.range (m + 1), get2 T r i * get2 a i c = if c = r then 1 else 0 := by
  have hmul : sqOf (m + 1) T * sqOf (m + 1) a = 1 := by
    rw [hT, Matrix.smul_mul, Matrix.adjugate_mul, smul_smul, inv_mul_cancel₀ hdet, one_smul]
  have hentry := congrFun (congrFun hmul ⟨r, hr⟩) ⟨c, hc⟩
  rw [Matrix.mul_apply, Matrix.one_apply] at hentry
  rw [Finset.sum_range]
  have hcr : (⟨r, hr⟩ : Fin (m + 1)) = ⟨c, hc⟩ ↔ c = r := by
    rw [Fin.mk.injEq]; exact eq_comm
  simp only [hcr] at hentry
  exact hentry

/-- For an invertible matrix of dimension at least 3, `inverse()` returns a
matrix whose products with the matrix, on either side, are the array that
`Matrix.getIdenity` stores. -/
theorem Matrix.inverse_two_sided (m : Nat) (hm : 2 ≤ m) (a : List (List α))
    (ha : Shape a (m + 1) (m + 1)) (hdet : (sqOf (m + 1) a).det ≠ 0) :
    ∃ T, Matrix.inverse { dim := m + 1, mat := a } = .ok (some { dim := m + 1, mat := T }) ∧
      Matrix.multiply { dim := m + 1, mat := a } { dim := m + 1, mat := T } =
        .ok { dim := m + 1,
              mat := tabulate2 (m + 1) (m + 1) fun r c => if c = r then (1 : α) else 0 } ∧
      Matrix.multiply { dim := m + 1, mat := T } { dim := m + 1, mat := a } =
        .ok { dim := m + 1,
              mat := tabulate2 (m + 1) (m + 1) fun r c => if c = r then (1 : α) else 0 } := by
  obtain ⟨T, hinv, -, hTget⟩ := Matrix.inverse_eq_some m a ha
    (by rw [if_neg (by omega)]; exact hdet)
  have hsq := sqOf_inverse_eq m hm a T hTget
  refine ⟨T, hinv, ?_, ?_⟩
  · rw [Matrix.multiply_eq ({ dim := m + 1, mat := a } : Matrix α)
      { dim := m + 1, mat := T } rfl]
    congr 2
    apply ext2 (Shape.tabulate2 _ _ _) (Shape.tabulate2 _ _ _)
    intro i j hi hj
    rw [get2_tabulate2 _ _ _ _ _ hi hj, get2_tabulate2 _ _ _ _ _ hi hj]
    exact sum_mul_inverse m a T hdet hsq i j hi hj
  · rw [Matrix.multiply_eq ({ dim := m + 1, mat := T } : Matrix α)
      { dim := m + 1, mat := a } rfl]
    congr 2
    apply ext2 (Shape.tabulate2 _ _ _) (Shape.tabulate2 _ _ _)
    intro i j hi hj
    rw [get2_tabulate2 _ _ _ _ _ hi hj, get2_tabulate2 _ _ _ _ _ hi hj]
    exact sum_inverse_mul m a T hdet hsq i j hi hj

end InverseFour

/-- C28.  For every 4x4 matrix `A` over a field for which `A.determinant()`
returns a value other than 0, `A.inverse()` is a matrix, and both
`A.multiply(A.inverse())` and `A.inverse().multiply(A)` are the matrix
`Matrix.getIdenity(4)`. -/
theorem Matrix.inverse_two_sided_four {α : Type} [Field α] [DecidableEq α] [Inhabited α]
    (A : Matrix α) (hA : A.WF) (h4 : A.dim = 4) (D : α) (hD : A.determinant = .ok D)
    (hD0 : D ≠ 0) :
    ∃ inv I : Matrix α, A.inverse = .ok (some inv) ∧ Matrix.getIdenity 4 = .ok I ∧
      A.multiply inv = .ok I ∧ inv.multiply A = .ok I := by
  obtain ⟨n, a⟩ := A
  have h4' : n = 4 := h4
  subst h4'
  have ha : Shape a 4 4 := hA
  have hdet0 := Matrix.determinant_eq 4 a ha
  rw [hD, if_neg (by omega)] at hdet0
  have hDeq : D = (sqOf 4 a).det := by
    injection hdet0
  have hdet : (sqOf (3 + 1) a).det ≠ 0 := by
    rw [← hDeq]; exact hD0
  obtain ⟨T, hinv, hl, hr⟩ := Matrix.inverse_two_sided 3 (by omega) a ha hdet
  exact ⟨_, _, hinv, Matrix.getIdenity_eq 4, hl, hr⟩

theorem det_sqOf_four_sample :
    (sqOf 4 ([[2, 0, 0, 3], [0, 2, 0, 5], [0, 0, 2, 7], [0, 0, 0, 1]] : List (List ℚ))).det
      = 8 := by
  rw [Matrix.det_succ_row_zero]
  simp [Fin.sum_univ_succ, Matrix.det_fin_three, sqOf, get2, Fin.succAbove]
  norm_num

theorem determinant_four_sample :
    ({ dim := 4, mat := [[2, 0, 0, 3], [0, 2, 0, 5], [0, 0, 2, 7], [0, 0, 0, 1]] } :
      Matrix ℚ).determinant = .ok 8 := by
  rw [Matrix.determinant_eq 4
    ([[2, 0, 0, 3], [0, 2, 0, 5], [0, 0, 2, 7], [0, 0, 0, 1]] : List (List ℚ)) ⟨rfl, by simp⟩,
    if_neg (by omega), det_sqOf_four_sample]

/-- The transform of a particle of size 2 at position (3, 5, 7): its
determinant is 8, and its inverse is an inverse on both sides. -/
theorem Matrix.inverse_two_sided_four_witness :
    ({ dim := 4, mat := [[2, 0, 0, 3], [0, 2, 0, 5], [0, 0, 2, 7], [0, 0, 0, 1]] } :
      Matrix ℚ).WF ∧
    ({ dim := 4, mat := [[2, 0, 0, 3], [0, 2, 0, 5], [0, 0, 2, 7], [0, 0, 0, 1]] } :
      Matrix ℚ).dim = 4 ∧
    ({ dim := 4, mat := [[2, 0, 0, 3], [0, 2, 0, 5], [0, 0, 2, 7], [0, 0, 0, 1]] } :
      Matrix ℚ).determinant = .ok 8 ∧ (8 : ℚ) ≠ 0 ∧
    ∃ inv I : Matrix ℚ,
      ({ dim := 4, mat := [[2, 0, 0, 3], [0, 2, 0, 5], [0, 0, 2, 7], [0, 0, 0, 1]] } :
        Matrix ℚ).inverse = .ok (some inv) ∧
      Matrix.getIdenity 4 = .ok I ∧
      ({ dim := 4, mat := [[2, 0, 0, 3], [0, 2, 0, 5], [0, 0, 2, 7], [0, 0, 0, 1]] } :
        Matrix ℚ).multiply inv = .ok I ∧
      inv.multiply
        { dim := 4, mat := [[2, 0, 0, 3], [0, 2, 0, 5], [0, 0, 2, 7], [0, 0, 0, 1]] } = .ok I :=
  have hwf : ({ dim := 4, mat := [[2, 0, 0, 3], [0, 2, 0, 5], [0, 0, 2, 7], [0, 0, 0, 1]] } :
      Matrix ℚ).WF := ⟨rfl, by simp⟩
  ⟨hwf, rfl, determinant_four_sample, by norm_num,
    Matrix.inverse_two_sided_four
      ({ dim := 4, mat := [[2, 0, 0, 3], [0, 2, 0, 5], [0, 0, 2, 7], [0, 0, 0, 1]] } : Matrix ℚ)
      hwf rfl 8 determinant_four_sample (by norm_num)⟩

end Fireworks
